import Mathlib

/-!
Verification development for the prednet-backend graph-analysis core.

The Python source (app/api/routes/networks.py, app/api/routes/proteins.py) is
shallowly embedded below.  Conventions used throughout:

* Python `dict` (insertion ordered) is an association list `List (String × V)`
  updated in place by `dictSet` (an existing key keeps its position, a new key
  is appended), exactly mirroring CPython dict semantics.
* Python `str` is `String`, but all string manipulation is implemented over
  `List Char` so that every definition reduces inside the kernel.
* Python `float` arithmetic is embedded as exact rational arithmetic over
  unnormalized fractions (`PyNum`); the concrete inputs evaluated below are
  dyadic, on which IEEE-754 double arithmetic of the source is exact.
* Fallible code (Python statements that can raise IndexError, and the
  endpoints' HTTPException) is embedded with `Option`/`Except`.
* Filesystem reads are passed in as explicit values: a network directory is a
  list of `filename × contents` pairs, and the process-wide SGD systematic →
  gene dictionary is an association-list parameter.
* Python `sorted`/`list.sort` are embedded as a stable insertion sort
  (`pySorted`); for a total preorder the stable-sorted permutation is unique,
  so this agrees with CPython's timsort.
-/

/-! ### Python string primitives (char-level, kernel-computable) -/

def isWsChar (c : Char) : Bool := c.isWhitespace

/-- Python `str.strip()` on a char list. -/
def pyStripChars (l : List Char) : List Char :=
  ((l.dropWhile isWsChar).reverse.dropWhile isWsChar).reverse

/-- Python `str.strip()`. -/
def pyStrip (s : String) : String := String.mk (pyStripChars s.toList)

/-- Split a char list at every character satisfying `p`, keeping empty
segments (Python `str.split(sep)` semantics for a one-char separator). -/
def splitOnPredChars (p : Char → Bool) : List Char → List (List Char)
  | [] => [[]]
  | c :: cs =>
    match splitOnPredChars p cs with
    | [] => [[c]]
    | f :: rest => if p c then [] :: f :: rest else (c :: f) :: rest

/-- Python `s.split(',')`. -/
def pySplitComma (s : String) : List String :=
  (splitOnPredChars (fun c => c = ',') s.toList).map String.mk

/-- Python `s.split()` (split on whitespace runs, no empty fields). -/
def pySplitWs (s : String) : List String :=
  ((splitOnPredChars isWsChar s.toList).filter (fun t => t ≠ [])).map String.mk

/-- Python `s.startswith(p)` for a one-char prefix. -/
def pyStartsWith (s : String) (c : Char) : Bool :=
  match s.toList with
  | [] => false
  | c₀ :: _ => c₀ = c

/-- Python `s.endswith(p)` for a one-char suffix. -/
def pyEndsWith (s : String) (c : Char) : Bool :=
  match s.toList.reverse with
  | [] => false
  | c₀ :: _ => c₀ = c

/-- Python `s.startswith(p)` for a multi-char prefix. -/
def pyStartsWithStr (s p : String) : Bool :=
  p.toList.isPrefixOf s.toList

/-- Python `s[1:-1]`. -/
def pyDropEnds (s : String) : String :=
  String.mk ((s.toList.drop 1).dropLast)

/-- Python `s[n:]`. -/
def pyDrop (s : String) (n : Nat) : String := String.mk (s.toList.drop n)

/-- Python `s.upper()` (ASCII, which covers every identifier in the data). -/
def pyUpper (s : String) : String := String.mk (s.toList.map Char.toUpper)

/-- Python `s.isdigit()` (ASCII digits; the inputs reaching this check in the
source are ASCII). -/
def pyIsDigit (s : String) : Bool :=
  s.toList ≠ [] && s.toList.all Char.isDigit

/-- Python `value.replace('.', '').replace('-', '')`: remove every dot and
dash character. -/
def removeDotsDashes (s : String) : String :=
  String.mk (s.toList.filter (fun c => c ≠ '.' && c ≠ '-'))

/-- Python `'.' in value`. -/
def containsDot (s : String) : Bool := s.toList.any (fun c => c = '.')

/-- Numeric value of an ASCII digit string. -/
def digitsVal (l : List Char) : Nat :=
  l.foldl (fun n c => n * 10 + (c.toNat - 48)) 0

/-- Python `int(value)` on the strings reachable in the source (made only of
digits and dashes, at least one digit): succeeds exactly on an optional
leading `-` followed by one or more digits. -/
def pyIntParse (s : String) : Option Int :=
  let t := pyStripChars s.toList
  let core := if t.headD ' ' = '-' then t.drop 1 else t
  if core ≠ [] && core.all Char.isDigit then
    some (if t.headD ' ' = '-' then -(digitsVal core : Int) else (digitsVal core : Int))
  else
    none

/-- Python `float(value)` on the strings reachable in the source (digits,
dots and dashes with at least one digit): succeeds exactly on an optional
leading `-` followed by digits with at most one dot and at least one digit.
The successfully parsed literal is kept as the float's representation; no
claim below compares float magnitudes. -/
def pyFloatParse (s : String) : Option String :=
  let t := pyStripChars s.toList
  let core := if t.headD ' ' = '-' then t.drop 1 else t
  if core ≠ [] &&
      core.all (fun c => c.isDigit || c = '.') &&
      (core.filter (fun c => c = '.')).length ≤ 1 &&
      core.any Char.isDigit then
    some (String.mk t)
  else
    none

/-! ### Python scalar values -/

/-- A parsed GDF/JSON scalar: the tagged variant produced by the source's
value coercion (int / float / str).  Floats carry their literal. -/
inductive PyVal where
  | int (n : Int)
  | float (lit : String)
  | str (s : String)
deriving DecidableEq, Repr

/-- Python `str(v)` for the embedded values (the float literals reaching
`str` in the facts proved below are already in normal form). -/
def pyValStr : PyVal → String
  | .int n => toString n
  | .float lit => lit
  | .str s => s

/-- Python truthiness for the embedded values (`""`, `0` and `0.0` are
falsy). -/
def pyTruthy : PyVal → Bool
  | .int n => n ≠ 0
  | .float lit => lit ≠ "0.0" && lit ≠ "0" && lit ≠ "-0.0"
  | .str s => s ≠ ""

/-- The source's value coercion (networks.parse_gdf_to_cytoscape, lines
219-226 for nodes and 179-186 for edges): if the value minus all dots and
dashes is a nonempty digit string, try `float` when a dot is present and
`int` otherwise, keeping the raw string when the conversion raises
ValueError. -/
def coerceValue (value : String) : PyVal :=
  if pyIsDigit (removeDotsDashes value) then
    if containsDot value then
      match pyFloatParse value with
      | some lit => .float lit
      | none => .str value
    else
      match pyIntParse value with
      | some n => .int n
      | none => .str value
  else
    .str value

/-! ### Ordered dicts and sets -/

/-- Ordered-dict lookup: Python `d.get(k)` / `d[k]`. -/
def dictGet {K V : Type} [DecidableEq K] (d : List (K × V)) (k : K) : Option V :=
  (d.find? (fun kv => kv.1 = k)).map (fun kv => kv.2)

/-- Python `d.get(k, default)`. -/
def dictGetD {K V : Type} [DecidableEq K] (d : List (K × V)) (k : K) (v₀ : V) : V :=
  (dictGet d k).getD v₀

/-- Python `k in d`. -/
def dictMem {K V : Type} [DecidableEq K] (d : List (K × V)) (k : K) : Bool :=
  d.any (fun kv => kv.1 = k)

/-- Ordered-dict write `d[k] = v`: an existing key keeps its position, a new
key is appended (CPython dict semantics). -/
def dictSet {K V : Type} [DecidableEq K] (d : List (K × V)) (k : K) (v : V) :
    List (K × V) :=
  if dictMem d k then
    d.map (fun kv => if kv.1 = k then (k, v) else kv)
  else
    d ++ [(k, v)]

/-- Python set modelled as a duplicate-free list in first-insertion order
(`s.add(x)`).  Only membership, cardinality and sorted views of the sets are
observable in the results, so the insertion order carried here is
irrelevant to every fact proved about them. -/
def setAdd {α : Type} [DecidableEq α] (s : List α) (x : α) : List α :=
  if x ∈ s then s else s ++ [x]

/-- Python `s.update(xs)`. -/
def setUpdate {α : Type} [DecidableEq α] (s : List α) (xs : List α) : List α :=
  xs.foldl setAdd s

/-! ### Stable sort (Python `sorted` / `list.sort`) -/

/-- Insert `x` after every element `y` with `le y x` (keeps equal elements in
their original relative order). -/
def stableInsert {α : Type} (le : α → α → Bool) (x : α) : List α → List α
  | [] => [x]
  | y :: ys => if le y x then y :: stableInsert le x ys else x :: y :: ys

/-- Stable insertion sort.  For a total preorder `le` the stable sorted
permutation is unique, so this is extensionally Python's `sorted`. -/
def pySorted {α : Type} (le : α → α → Bool) (xs : List α) : List α :=
  xs.foldl (fun acc x => stableInsert le x acc) []

/-- Lexicographic code-point comparison on char lists. -/
def listCharLe : List Char → List Char → Bool
  | [], _ => true
  | _ :: _, [] => false
  | a :: as, b :: bs =>
    if a.toNat < b.toNat then true
    else if b.toNat < a.toNat then false
    else listCharLe as bs

/-- Python string comparison `a <= b` (lexicographic on code points). -/
def pyStrLe (a b : String) : Bool := listCharLe a.toList b.toList

/-! ### Exact numeric values for the layout arithmetic

`PyNum` is an unnormalized fraction `num / den` of integers.  The layout
claims only ever observe comparisons and exact equality of untouched values,
and the concrete layout inputs below are dyadic rationals on which the
source's IEEE-754 double arithmetic is exact, so exact fraction arithmetic
is a faithful embedding of the float arithmetic in the anti-overlap code. -/

structure PyNum where
  num : Int
  den : Int
deriving DecidableEq, Repr

namespace PyNum

def ofInt (n : Int) : PyNum := ⟨n, 1⟩

def add (a b : PyNum) : PyNum := ⟨a.num * b.den + b.num * a.den, a.den * b.den⟩

def sub (a b : PyNum) : PyNum := ⟨a.num * b.den - b.num * a.den, a.den * b.den⟩

def mul (a b : PyNum) : PyNum := ⟨a.num * b.num, a.den * b.den⟩

def div (a b : PyNum) : PyNum := ⟨a.num * b.den, a.den * b.num⟩

def neg (a : PyNum) : PyNum := ⟨-a.num, a.den⟩

/-- Python `abs(x)`: `|n|/|d|`. -/
def pabs (a : PyNum) : PyNum := ⟨|a.num|, |a.den|⟩

/-- Halving: `x / 2.0`. -/
def half (a : PyNum) : PyNum := ⟨a.num, a.den * 2⟩

/-- Comparison `a < b` by a sign test on cross-multiplied numerators (correct whenever
both denominators are nonzero, whatever their signs). -/
def lt (a b : PyNum) : Bool :=
  decide (0 < (b.num * a.den - a.num * b.den) * (a.den * b.den))

/-- Comparison `a >= b`. -/
def ge (a b : PyNum) : Bool := !(lt a b)

/-- Test `x == 0.0` (for a fraction with a nonzero denominator). -/
def isZero (a : PyNum) : Bool := decide (a.num = 0)

end PyNum

example : pySplitWs "  ACT1   MYO1 " = ["ACT1", "MYO1"] := by decide
example : pySplitComma "1,'A, B'" = ["1", "'A", " B'"] := by decide
example : coerceValue "-12" = .int (-12) := by decide
example : coerceValue "1.5" = .float "1.5" := by decide
example : coerceValue "1-2" = .str "1-2" := by decide
example : coerceValue "1.2.3" = .str "1.2.3" := by decide
example : coerceValue "ACT1" = .str "ACT1" := by decide
example : pySorted pyStrLe ["b", "a", "c"] = ["a", "b", "c"] := by decide

/-! ### Python csv.reader for a single line

`csv.reader([line], delimiter=",", quotechar="'", skipinitialspace=True)`
with CPython's default non-strict, doublequote dialect.  The state machine
below follows CPython `_csv.c`: spaces after a delimiter are skipped, a
quote opening a field starts a quoted section, a doubled quote inside it is
a literal quote, and in non-strict mode a character following a closing
quote is appended verbatim. -/

def quoteCh : Char := Char.ofNat 39

inductive CsvSt where
  | startField
  | inField
  | inQuoted
  | quoteInQuoted

/-- State field `cur` is the current field accumulated in reverse. -/
def csvAux : List Char → CsvSt → List Char → List (List Char) → List (List Char)
  | [], _, cur, acc => acc ++ [cur.reverse]
  | c :: cs, .startField, cur, acc =>
    if c = ' ' then csvAux cs .startField cur acc
    else if c = quoteCh then csvAux cs .inQuoted cur acc
    else if c = ',' then csvAux cs .startField [] (acc ++ [[]])
    else csvAux cs .inField (c :: cur) acc
  | c :: cs, .inField, cur, acc =>
    if c = ',' then csvAux cs .startField [] (acc ++ [cur.reverse])
    else csvAux cs .inField (c :: cur) acc
  | c :: cs, .inQuoted, cur, acc =>
    if c = quoteCh then csvAux cs .quoteInQuoted cur acc
    else csvAux cs .inQuoted (c :: cur) acc
  | c :: cs, .quoteInQuoted, cur, acc =>
    if c = quoteCh then csvAux cs .inQuoted (c :: cur) acc
    else if c = ',' then csvAux cs .startField [] (acc ++ [cur.reverse])
    else csvAux cs .inField (c :: cur) acc

/-- The single row produced by `csv.reader([line], ...)` for a nonempty
`line` (the source only feeds it nonempty stripped lines). -/
def csvReadLine (line : String) : List String :=
  (csvAux line.toList .startField [] []).map String.mk

example : csvReadLine "1,'ACT1 MYO1',ref" = ["1", "ACT1 MYO1", "ref"] := by decide
example : csvReadLine "1, 'A, B' ,x" = ["1", "A, B ", "x"] := by decide

/-! ### Shared parsing helpers of proteins.py and networks.py -/

/-- proteins._strip_quotes: strip one matched pair of single or double
quotes. -/
def _strip_quotes (value : String) : String :=
  if (pyStartsWith value quoteCh && pyEndsWith value quoteCh) ||
      (pyStartsWith value '"' && pyEndsWith value '"') then
    pyDropEnds value
  else
    value

/-- Python `list.index` under the guard `x in l` (the source always checks
membership first). -/
def listIndex (l : List String) (x : String) : Nat :=
  l.findIdx (fun y => y = x)

/-- The part of an attribute declaration before the first colon
(`first.split(":")[0]`). -/
def beforeColon (s : String) : String :=
  String.mk ((splitOnPredChars (fun c => c = ':') s.toList).headD [])

/-- Header attribute names as computed by proteins._collect_proteins_from_gdf
/ proteins._parse_nodes_and_edges: for each comma-separated part, the first
whitespace token truncated at a colon.  `none` models the IndexError raised
by `attr.split()[0]` on an empty part. -/
def headerAttrNamesColon (headerStr : String) : Option (List String) :=
  (pySplitComma headerStr).mapM (fun part =>
    ((pySplitWs (pyStrip part)).head?).map beforeColon)

/-- Header attribute names as computed by networks.parse_gdf_to_cytoscape:
only the first whitespace token (no colon truncation, no per-part strip). -/
def headerAttrNames (defStr : String) : Option (List String) :=
  (pySplitComma defStr).mapM (fun attr => (pySplitWs attr).head?)

/-- Name-reporting mode of the protein endpoints. -/
inductive NameMode where
  | systematic
  | gene
deriving DecidableEq, Repr

/-- Python `set(xs)` (first-occurrence deduplication). -/
def setOfList {α : Type} [DecidableEq α] (xs : List α) : List α :=
  xs.foldl setAdd []

/-! ### networks.parse_gdf_to_cytoscape (lines 141-274) -/

structure CytoscapeNode where
  data : List (String × PyVal)
deriving DecidableEq, Repr

structure CytoscapeEdge where
  data : List (String × PyVal)
deriving DecidableEq, Repr

structure CytoscapeGraph where
  nodes : List CytoscapeNode
  edges : List CytoscapeEdge
deriving DecidableEq, Repr

/-- Value conversion for a node cell (lines 215-226): strip, remove one
matched pair of single quotes, then coerce. -/
def gdfNodeValue (raw : String) : PyVal :=
  let value := pyStrip raw
  let value :=
    if pyStartsWith value quoteCh && pyEndsWith value quoteCh then pyDropEnds value
    else value
  coerceValue value

/-- Value conversion for an edge cell (lines 178-186): strip then coerce (no
quote stripping for edges). -/
def gdfEdgeValue (raw : String) : PyVal :=
  coerceValue (pyStrip raw)

/-- Python `for i, attr in enumerate(attrs): if i < len(row): info[attr] = f(row[i])`
— positional zip of declared attribute names with row cells, written into an
ordered dict. -/
def attrRowDict (f : String → PyVal) (attrs : List String) (row : List String) :
    List (String × PyVal) :=
  (List.zip attrs row).foldl (fun d av => dictSet d av.1 (f av.2)) []

/-- Id and label synthesis for a parsed node row (lines 228-243).  `none`
models the IndexError of `list(node_info.keys())[0]` on an empty dict. -/
def gdfSynthesizeIdLabel (node_info : List (String × PyVal)) :
    Option (List (String × PyVal)) := do
  let node_info ←
    match dictGet node_info "name" with
    | some v => some (dictSet node_info "id" (.str (pyValStr v)))
    | none =>
      if dictMem node_info "id" then
        some node_info
      else
        match node_info.head? with
        | some kv => some (dictSet node_info "id" (.str (pyValStr kv.2)))
        | none => none
  if !(dictMem node_info "label") && dictMem node_info "name" then
    match dictGet node_info "name" with
    | some v => some (dictSet node_info "label" (.str (pyValStr v)))
    | none => none
  else if !(dictMem node_info "label") then
    match dictGet node_info "id" with
    | some v => some (dictSet node_info "label" (.str (pyValStr v)))
    | none => none
  else
    some node_info

/-- Space-joined token list (`' '.join(tokens)`). -/
def joinSpace : List String → String
  | [] => ""
  | [s] => s
  | s :: rest => String.mk (s.toList ++ ' ' :: (joinSpace rest).toList)

/-- SGD enrichment of a node (lines 245-270).  The systematic → gene
dictionary is the association list `sgd` (an embedding of the process-wide
`_load_sgd_sys_to_gene_map()` result). -/
def gdfEnrich (sgd : List (String × String)) (node_info : List (String × PyVal)) :
    List (String × PyVal) :=
  let raw_label := dictGet node_info "label"
  match raw_label with
  | some (.str s) =>
    if pyStrip s ≠ "" then
      let sys_tokens := ((pySplitWs s).map pyStrip).filter (fun t => t ≠ "")
      let gene_tokens := sys_tokens.map (fun tok => dictGetD sgd (pyUpper tok) tok)
      let node_info := dictSet node_info "label_sys" (.str (joinSpace sys_tokens))
      let node_info := dictSet node_info "label_gene" (.str (joinSpace gene_tokens))
      let node_info := dictSet node_info "sys_name"
        (.str (pyValStr ((dictGet node_info "label_sys").getD (.str ""))))
      let node_info := dictSet node_info "gene_name"
        (.str (pyValStr ((dictGet node_info "label_gene").getD (.str ""))))
      node_info
    else
      gdfEnrichFallback sgd node_info
  | _ => gdfEnrichFallback sgd node_info
where
  /-- Single-identifier fallback mapping using `name` / `id`
  (lines 261-267). -/
  gdfEnrichFallback (sgd : List (String × String))
      (node_info : List (String × PyVal)) : List (String × PyVal) :=
    let sys_candidate_val := (dictGet node_info "name").orElse (fun _ => dictGet node_info "id")
    let sys_candidate :=
      match sys_candidate_val with
      | some v => pyValStr v
      | none => ""
    let sys_upper := pyUpper (pyStrip sys_candidate)
    let gene_name := dictGetD sgd sys_upper sys_candidate
    let node_info := dictSet node_info "sys_name" (.str sys_candidate)
    dictSet node_info "gene_name" (.str gene_name)

/-- One parsed node row (lines 208-272). -/
def gdfProcessNodeLine (sgd : List (String × String))
    (node_attributes : List String) (line : String) : Option CytoscapeNode := do
  let node_data := pySplitComma line
  let node_info := attrRowDict gdfNodeValue node_attributes node_data
  let node_info ← gdfSynthesizeIdLabel node_info
  pure ⟨gdfEnrich sgd node_info⟩

/-- One parsed edge row with both endpoints (lines 188-203). -/
def gdfBuildEdge (edge_info : List (String × PyVal)) (v1 v2 : PyVal) :
    CytoscapeEdge :=
  let source_id := pyValStr v1
  let target_id := pyValStr v2
  let base : List (String × PyVal) :=
    [("id", .str (source_id ++ "-" ++ target_id)),
     ("source", .str source_id),
     ("target", .str target_id)]
  ⟨(edge_info.filter (fun kv => kv.1 ≠ "node1" && kv.1 ≠ "node2")).foldl
      (fun d kv => dictSet d kv.1 kv.2) base⟩

structure GdfParseSt where
  nodes : List CytoscapeNode
  edges : List CytoscapeEdge
  node_attributes : List String
  edge_attributes : List String
  in_edges : Bool
deriving Repr

/-- One iteration of the parse loop (lines 153-272). -/
def gdfStep (sgd : List (String × String)) (st : GdfParseSt) (rawLine : String) :
    Option GdfParseSt :=
  let line := pyStrip rawLine
  if line = "" then
    some st
  else if pyStartsWithStr line "nodedef>" then
    match headerAttrNames (pyDrop line 8) with
    | some attrs => some { st with node_attributes := attrs }
    | none => none
  else if pyStartsWithStr line "edgedef>" then
    match headerAttrNames (pyDrop line 8) with
    | some attrs => some { st with edge_attributes := attrs, in_edges := true }
    | none => none
  else if st.in_edges then
    let edge_data := pySplitComma line
    if 2 ≤ edge_data.length then
      let edge_info := attrRowDict gdfEdgeValue st.edge_attributes edge_data
      match dictGet edge_info "node1", dictGet edge_info "node2" with
      | some v1, some v2 =>
        some { st with edges := st.edges ++ [gdfBuildEdge edge_info v1 v2] }
      | _, _ =>
        -- Fallback when node1/node2 are not found: the row is still
        -- appended as an edge whose data is the raw attribute dict
        -- (lines 204-207).
        some { st with edges := st.edges ++ [⟨edge_info⟩] }
    else
      some st
  else
    match gdfProcessNodeLine sgd st.node_attributes line with
    | some nd => some { st with nodes := st.nodes ++ [nd] }
    | none => none

/-- networks.parse_gdf_to_cytoscape.  `none` models an uncaught exception
(reported by the endpoint as HTTP 500). -/
def parse_gdf_to_cytoscape (sgd : List (String × String)) (gdf_content : String) :
    Option CytoscapeGraph :=
  let lines := (splitOnPredChars (fun c => c = '\n') (pyStripChars gdf_content.toList)).map
    String.mk
  (lines.foldlM (gdfStep sgd) ⟨[], [], [], [], false⟩).map
    (fun st => ⟨st.nodes, st.edges⟩)

/-! ### Union-find (proteins._compute_components, lines 324-362)

The same algorithm appears verbatim inside
networks.get_component_proteins_by_node (lines 615-652, with the key
membership guard inlined into `union` instead of at the call site, which is
equivalent) and in its file-scope re-parse (lines 767-794); this one
embedding serves all of them.

The Python `parent`/`size` dicts have the fixed key set `set(node_ids)`; they
are embedded as total functions together with that key list, initialised to
the identity and the constant 1 exactly as the dict comprehensions do.  The
`while parent[x] != x` loop is given explicit fuel; every use below passes
`compFuel`, which the development proves to exceed every parent-chain
length reachable from the initial state. -/

/-- Function `find` with path halving (lines 328-332): follows and rewrites parent
links until a fixpoint, returning the updated parent map and the root. -/
def ufFind (fuel : Nat) (parent : String → String) (x : String) :
    (String → String) × String :=
  match fuel with
  | 0 => (parent, x)
  | f + 1 =>
    if parent x = x then (parent, x)
    else ufFind f (Function.update parent x (parent (parent x))) (parent (parent x))

/-- Function `union` by size (lines 334-341): find both roots (mutating the parent
map), then hang the smaller tree under the larger. -/
def ufUnion (fuel : Nat) (st : (String → String) × (String → Nat)) (a b : String) :
    (String → String) × (String → Nat) :=
  let fa := ufFind fuel st.1 a
  let fb := ufFind fuel fa.1 b
  let ra := fa.2
  let rb := fb.2
  if ra = rb then (fb.1, st.2)
  else
    let pr := if st.2 ra < st.2 rb then (rb, ra) else (ra, rb)
    (Function.update fb.1 pr.2 pr.1,
     Function.update st.2 pr.1 (st.2 pr.1 + st.2 pr.2))

/-- State of the compact-id assignment loop (lines 347-360). -/
structure CompAssignSt where
  parent : String → String
  root_to_comp : List (String × Nat)
  node_to_comp : List (String × Nat)
  comp_sizes : List (Nat × Nat)
  next_id : Nat

/-- One iteration of the compact-id assignment loop (lines 352-360): find
the root of `n` (mutating the parent map), give it the next compact id if it
is new, then record `n`'s id and bump the component size.  (The source
shares the last two statements between the two branches; they are inlined
into each branch here.) -/
def assignStep (fuel : Nat) (st : CompAssignSt) (n : String) : CompAssignSt :=
  let fr := ufFind fuel st.parent n
  if dictMem st.root_to_comp fr.2 then
    let cid := dictGetD st.root_to_comp fr.2 0
    { parent := fr.1,
      root_to_comp := st.root_to_comp,
      node_to_comp := dictSet st.node_to_comp n cid,
      comp_sizes := dictSet st.comp_sizes cid (dictGetD st.comp_sizes cid 0 + 1),
      next_id := st.next_id }
  else
    let rtc := dictSet st.root_to_comp fr.2 st.next_id
    let cs0 := dictSet st.comp_sizes st.next_id 0
    let cid := dictGetD rtc fr.2 0
    { parent := fr.1,
      root_to_comp := rtc,
      node_to_comp := dictSet st.node_to_comp n cid,
      comp_sizes := dictSet cs0 cid (dictGetD cs0 cid 0 + 1),
      next_id := st.next_id + 1 }

/-- Fuel that provably dominates every parent-chain length that can arise
from `node_ids.length` nodes and `edges.length` unions. -/
def compFuel (node_ids : List String) (edges : List (String × String)) : Nat :=
  node_ids.length + edges.length + 1

/-- proteins._compute_components: returns `(node_to_comp, comp_sizes)`. -/
def _compute_components (node_ids : List String) (edges : List (String × String)) :
    List (String × Nat) × List (Nat × Nat) :=
  let fuel := compFuel node_ids edges
  let afterUnions := edges.foldl
    (fun st e =>
      if node_ids.contains e.1 && node_ids.contains e.2 then ufUnion fuel st e.1 e.2
      else st)
    ((fun n => n), (fun _ => 1))
  let final := node_ids.foldl (assignStep fuel)
    { parent := afterUnions.1, root_to_comp := [], node_to_comp := [],
      comp_sizes := [], next_id := 0 }
  (final.node_to_comp, final.comp_sizes)

/-! ### proteins._collect_proteins_from_gdf (lines 52-116) -/

structure CollectSt where
  in_nodes : Bool
  label_index : Option Nat
  type_index : Option Nat
  token_to_types : List (String × List String)

/-- One line of the token-collection loop. -/
def collectStep (name_mode : NameMode) (sgd : List (String × String))
    (st : CollectSt) (rawLine : String) : Option CollectSt :=
  let line := pyStrip rawLine
  if line = "" then
    some st
  else if pyStartsWithStr line "nodedef>" then
    match headerAttrNamesColon (pyDrop line 8) with
    | none => none
    | some attr_names =>
      some { st with
        in_nodes := true,
        label_index :=
          if attr_names.contains "label" then some (listIndex attr_names "label")
          else if attr_names.contains "name" then some (listIndex attr_names "name")
          else if attr_names ≠ [] then some 0
          else none,
        type_index :=
          if attr_names.contains "type" then some (listIndex attr_names "type")
          else none }
  else if pyStartsWithStr line "edgedef>" then
    some { st with in_nodes := false }
  else if st.in_nodes then
    match st.label_index with
    | none => some st
    | some li =>
      let row := csvReadLine line
      if li < row.length then
        let label_val := _strip_quotes (pyStrip (row.getD li ""))
        let type_val : Option String :=
          match st.type_index with
          | some ti =>
            if ti < row.length then some (_strip_quotes (pyStrip (row.getD ti "")))
            else none
          | none => none
        if label_val ≠ "" then
          let base := ((pySplitWs label_val).map pyStrip).filter (fun t => t ≠ "")
          let mapped :=
            match name_mode with
            | .gene => base.map (fun t => dictGetD sgd (pyUpper t) t)
            | .systematic => base
          let ttt := mapped.foldl
            (fun m token_clean =>
              if token_clean ≠ "" then
                let m := if dictMem m token_clean then m else dictSet m token_clean []
                match type_val with
                | some tv =>
                  if tv ≠ "" then
                    dictSet m token_clean (setAdd (dictGetD m token_clean []) tv)
                  else m
                | none => m
              else m)
            st.token_to_types
          some { st with token_to_types := ttt }
        else
          some st
      else
        some st
  else
    some st

/-- proteins._collect_proteins_from_gdf on the contents of one GDF file:
protein token → set of `type` values seen.  `none` models an exception (the
caller catches it and substitutes an empty map). -/
def _collect_proteins_from_gdf (name_mode : NameMode) (sgd : List (String × String))
    (content : String) : Option (List (String × List String)) :=
  let lines := (splitOnPredChars (fun c => c = '\n') content.toList).map String.mk
  (lines.foldlM (collectStep name_mode sgd)
    ⟨false, none, none, []⟩).map (fun st => st.token_to_types)

/-! ### proteins._parse_nodes_and_edges (lines 244-321) -/

structure ParsedGdf where
  node_ids : List String
  edges : List (String × String)
  node_to_tokens : List (String × List String)
  node_to_label : List (String × String)
deriving Repr

structure PnESt where
  acc : ParsedGdf
  in_nodes : Bool
  in_edges : Bool
  node_attr_names : List String
  edge_attr_names : List String
  label_index : Option Nat
  id_index : Option Nat
  node1_index : Option Nat
  node2_index : Option Nat

/-- One line of the node/edge parse loop (lines 260-319). -/
def pneStep (name_mode : NameMode) (sgd : List (String × String))
    (st : PnESt) (rawLine : String) : Option PnESt :=
  let line := pyStrip rawLine
  if line = "" then
    some st
  else if pyStartsWithStr line "nodedef>" then
    match headerAttrNamesColon (pyDrop line 8) with
    | none => none
    | some attr_names =>
      let label_index :=
        if attr_names.contains "label" then some (listIndex attr_names "label")
        else if attr_names.contains "name" then some (listIndex attr_names "name")
        else none
      some { st with
        in_nodes := true, in_edges := false,
        node_attr_names := attr_names,
        label_index := label_index,
        id_index :=
          if attr_names.contains "name" then some (listIndex attr_names "name")
          else if attr_names.contains "id" then some (listIndex attr_names "id")
          else some 0 }
  else if pyStartsWithStr line "edgedef>" then
    match headerAttrNamesColon (pyDrop line 8) with
    | none => none
    | some attr_names =>
      some { st with
        in_nodes := false, in_edges := true,
        edge_attr_names := attr_names,
        node1_index :=
          if attr_names.contains "node1" then some (listIndex attr_names "node1")
          else none,
        node2_index :=
          if attr_names.contains "node2" then some (listIndex attr_names "node2")
          else none }
  else if st.in_nodes && st.node_attr_names ≠ [] then
    let row := csvReadLine line
    match st.id_index with
    | none => some st
    | some ii =>
      if ii < row.length then
        let node_id := _strip_quotes (pyStrip (row.getD ii ""))
        let withLabel :=
          match st.label_index with
          | some li =>
            if li < row.length then
              let label_val := _strip_quotes (pyStrip (row.getD li ""))
              let tokens :=
                if label_val ≠ "" then
                  let base_tokens :=
                    ((pySplitWs label_val).map pyStrip).filter (fun t => t ≠ "")
                  match name_mode with
                  | .gene =>
                    setOfList (base_tokens.map (fun t => dictGetD sgd (pyUpper t) t))
                  | .systematic => setOfList base_tokens
                else
                  []
              { st.acc with
                node_ids := st.acc.node_ids ++ [node_id],
                node_to_label := dictSet st.acc.node_to_label node_id label_val,
                node_to_tokens := dictSet st.acc.node_to_tokens node_id tokens }
            else
              { st.acc with
                node_ids := st.acc.node_ids ++ [node_id],
                node_to_tokens := dictSet st.acc.node_to_tokens node_id [] }
          | none =>
            { st.acc with
              node_ids := st.acc.node_ids ++ [node_id],
              node_to_tokens := dictSet st.acc.node_to_tokens node_id [] }
        some { st with acc := withLabel }
      else
        some st
  else if st.in_edges && st.edge_attr_names ≠ [] then
    match st.node1_index, st.node2_index with
    | some n1i, some n2i =>
      let row := csvReadLine line
      if n1i < row.length && n2i < row.length then
        let n1 := _strip_quotes (pyStrip (row.getD n1i ""))
        let n2 := _strip_quotes (pyStrip (row.getD n2i ""))
        if n1 ≠ "" && n2 ≠ "" then
          some { st with acc := { st.acc with edges := st.acc.edges ++ [(n1, n2)] } }
        else
          some st
      else
        some st
    | _, _ => some st
  else
    some st

/-- proteins._parse_nodes_and_edges on the contents of one GDF file.
`none` models an exception (callers catch it and skip the file). -/
def _parse_nodes_and_edges (name_mode : NameMode) (sgd : List (String × String))
    (content : String) : Option ParsedGdf :=
  let lines := (splitOnPredChars (fun c => c = '\n') content.toList).map String.mk
  (lines.foldlM (pneStep name_mode sgd)
    ⟨⟨[], [], [], []⟩, false, false, [], [], none, none, none, none⟩).map
    (fun st => st.acc)

/-! ### The error taxonomy of the endpoints -/

/-- HTTPException payloads raised by the endpoints: 404 (`notFound`), 400
(`invalidInput`) and 500 (`internal`). -/
inductive ApiError where
  | notFound (msg : String)
  | invalidInput (msg : String)
  | internal (msg : String)
deriving DecidableEq, Repr

/-! ### proteins.get_proteins (lines 119-219)

The filesystem interaction of `_read_network_dir` / `_iter_gdf_files` is
passed in as `files`: the sorted list of `.gdf` filenames of the network
directory paired with their contents. -/

structure ProteinItem where
  protein : String
  files : List String
  types : List String
deriving DecidableEq, Repr

structure PagedProteins where
  items : List ProteinItem
  total : Nat
  page : Nat
  size : Nat
deriving DecidableEq, Repr

/-- Aggregation loop over all files (lines 140-157):
`protein → set of files` and `protein → set of types`.  A file whose
collection raises is skipped with an empty map (lines 145-150). -/
def aggregateProteins (name_mode : NameMode) (sgd : List (String × String))
    (files : List (String × String)) :
    List (String × List String) × List (String × List String) :=
  files.foldl
    (fun acc fc =>
      let token_types_map := (_collect_proteins_from_gdf name_mode sgd fc.2).getD []
      token_types_map.foldl
        (fun acc tt =>
          let ptf := if dictMem acc.1 tt.1 then acc.1 else dictSet acc.1 tt.1 []
          let ptf := dictSet ptf tt.1 (setAdd (dictGetD ptf tt.1 []) fc.1)
          let ptt := if dictMem acc.2 tt.1 then acc.2 else dictSet acc.2 tt.1 []
          let ptt := dictSet ptt tt.1 (setUpdate (dictGetD ptt tt.1 []) tt.2)
          (ptf, ptt))
        acc)
    ([], [])

/-- Lines 166-187: the union of the token sets of every component (in any
file) that contains all selected tokens.  A file whose parse raises is
skipped (lines 172-173). -/
def allowedTokensFor (name_mode : NameMode) (sgd : List (String × String))
    (files : List (String × String)) (selected_set : List String) : List String :=
  files.foldl
    (fun allowed fc =>
      match _parse_nodes_and_edges name_mode sgd fc.2 with
      | none => allowed
      | some parsed =>
        let node_to_comp := (_compute_components parsed.node_ids parsed.edges).1
        let comp_to_tokens : List (Nat × List String) :=
          parsed.node_to_tokens.foldl
            (fun m nt =>
              match dictGet node_to_comp nt.1 with
              | none => m
              | some cid =>
                let m := if dictMem m cid then m else dictSet m cid []
                dictSet m cid (setUpdate (dictGetD m cid []) nt.2))
            []
        comp_to_tokens.foldl
          (fun allowed ct =>
            if selected_set.all (fun s => ct.2.contains s) then setUpdate allowed ct.2
            else allowed)
          allowed)
    []

/-- Lines 159-200: the sorted protein list after the co-occurrence filter
(`selected`) and the exact-match filter (`q`), before pagination. -/
def allProteinsFiltered (name_mode : NameMode) (sgd : List (String × String))
    (files : List (String × String)) (q selected : Option String) : List String :=
  let ptf := (aggregateProteins name_mode sgd files).1
  let all0 := pySorted pyStrLe (ptf.map (fun kv => kv.1))
  let all1 :=
    match selected with
    | some sel =>
      if sel ≠ "" then
        let selected_terms := (pySplitWs sel).filter (fun t => t ≠ "")
        let selected_set := setOfList selected_terms
        if selected_set ≠ [] then
          let allowed := allowedTokensFor name_mode sgd files selected_set
          -- If no components matched, fall back to the selected tokens
          -- themselves (lines 189-191), then intersect (line 193).
          let allowed := if allowed = [] then selected_set else allowed
          all0.filter (fun p => allowed.contains p)
        else
          all0
      else
        all0
    | none => all0
  match q with
  | some qs =>
    if qs ≠ "" then
      let terms := (pySplitWs qs).filter (fun t => t ≠ "")
      if terms ≠ [] then all1.filter (fun p => terms.contains p) else all1
    else
      all1
  | none => all1

/-- proteins.get_proteins: pagination (lines 201-215) over the filtered
list. -/
def get_proteins (name_mode : NameMode) (sgd : List (String × String))
    (files : List (String × String)) (page size : Nat) (q selected : Option String) :
    Except ApiError PagedProteins :=
  let all_proteins := allProteinsFiltered name_mode sgd files q selected
  let total := all_proteins.length
  let start := (page - 1) * size
  if total ≤ start && total ≠ 0 then
    .error (.invalidInput "Page out of range")
  else
    let paged := (all_proteins.drop start).take size
    let agg := aggregateProteins name_mode sgd files
    let items := paged.map
      (fun p =>
        { protein := p,
          files := pySorted pyStrLe (dictGetD agg.1 p []),
          types := pySorted pyStrLe (dictGetD agg.2 p []) })
    .ok { items := items, total := total, page := page, size := size }

/-! ### networks.get_component_proteins_by_node (lines 565-849) -/

structure ComponentProteinCount where
  protein : String
  count : Nat
  type_counts : Option (List (String × Nat))
  ratio : Option PyNum
  type_ratios : Option (List (String × PyNum))
  other_components : Option Nat
deriving DecidableEq, Repr

structure ByNodeResponse where
  component_id : Nat
  size : Nat
  protein_counts : List ComponentProteinCount
deriving DecidableEq, Repr

/-- tokenize_label (lines 571-576): whitespace tokens of a label as a set,
mapped through the SGD dictionary in gene mode, empties dropped. -/
def tokenize_label (name_mode : NameMode) (sgd : List (String × String))
    (label_text : String) : List String :=
  let tokens := setOfList (((pySplitWs label_text).map pyStrip).filter (fun t => t ≠ ""))
  match name_mode with
  | .gene =>
    (setOfList (tokens.map (fun tok => dictGetD sgd (pyUpper tok) tok))).filter
      (fun t => t ≠ "")
  | .systematic => tokens.filter (fun t => t ≠ "")

/-- Python `a or b` over optional values (first operand when truthy). -/
def pyOrVal (a b : Option PyVal) : Option PyVal :=
  match a with
  | some v => if pyTruthy v then some v else b
  | none => b

/-- One node of the collection loop (lines 580-598). -/
def byNodeInfoStep (name_mode : NameMode)
    (acc : List String × List (String × String) × List (String × String))
    (n : CytoscapeNode) :
    List String × List (String × String) × List (String × String) :=
  match dictGet n.data "id" with
  | none => acc
  | some raw_id =>
    let nid := pyValStr raw_id
    let label_val :=
      match name_mode with
      | .gene => pyOrVal (dictGet n.data "label_gene") (dictGet n.data "label")
      | .systematic => pyOrVal (dictGet n.data "label_sys") (dictGet n.data "label")
    let label_str :=
      match label_val with
      | some (.str s) =>
        if s ≠ "" then s else pyValStr (dictGetD n.data "name" (.str nid))
      | _ => pyValStr (dictGetD n.data "name" (.str nid))
    let type_str :=
      match dictGet n.data "type" with
      | some v => pyValStr v
      | none => "unknown"
    (acc.1 ++ [nid], dictSet acc.2.1 nid label_str, dictSet acc.2.2 nid type_str)

/-- Node collection (lines 578-598): id list (in graph order) plus the
`node_to_label` and `node_to_type` dicts. -/
def byNodeNodeInfo (name_mode : NameMode) (graph : CytoscapeGraph) :
    List String × List (String × String) × List (String × String) :=
  graph.nodes.foldl (byNodeInfoStep name_mode) ([], [], [])

/-- Edge collection (lines 606-613). -/
def byNodeEdges (graph : CytoscapeGraph) : List (String × String) :=
  graph.edges.foldl
    (fun es e =>
      match dictGet e.data "source", dictGet e.data "target" with
      | some s, some t => es ++ [(pyValStr s, pyValStr t)]
      | _, _ => es)
    []

/-- One token of the per-component counting loop (lines 663-672). -/
def byNodeTokenStep (node_type : String)
    (acc : List (String × Nat) × List (String × List (String × Nat)))
    (token : String) :
    List (String × Nat) × List (String × List (String × Nat)) :=
  let pc := dictSet acc.1 token (dictGetD acc.1 token 0 + 1)
  let ptc := if dictMem acc.2 token then acc.2 else dictSet acc.2 token []
  let inner := dictGetD ptc token []
  let ptc := dictSet ptc token (dictSet inner node_type (dictGetD inner node_type 0 + 1))
  (pc, ptc)

/-- One node of the per-component counting loop (lines 659-672). -/
def byNodeCountStep (name_mode : NameMode) (sgd : List (String × String))
    (node_to_label node_to_type : List (String × String))
    (acc : List (String × Nat) × List (String × List (String × Nat)))
    (n : String) :
    List (String × Nat) × List (String × List (String × Nat)) :=
  let label_text := dictGetD node_to_label n ""
  let node_type := dictGetD node_to_type n "unknown"
  let tokens := tokenize_label name_mode sgd label_text
  tokens.foldl (byNodeTokenStep node_type) acc

/-- Per-component counting (lines 659-672): token → count and
token → (type → count), accumulated over the component's nodes. -/
def byNodeCounts (name_mode : NameMode) (sgd : List (String × String))
    (component_nodes : List String) (node_to_label node_to_type : List (String × String)) :
    List (String × Nat) × List (String × List (String × Nat)) :=
  component_nodes.foldl (byNodeCountStep name_mode sgd node_to_label node_to_type) ([], [])

/-- token → set of component ids over the whole supplied graph
(lines 674-685). -/
def byNodeTokenCompSet (name_mode : NameMode) (sgd : List (String × String))
    (node_ids : List String) (node_to_comp : List (String × Nat))
    (node_to_label : List (String × String)) : List (String × List Nat) :=
  node_ids.foldl
    (fun m n =>
      match dictGet node_to_comp n with
      | none => m
      | some cid =>
        (tokenize_label name_mode sgd (dictGetD node_to_label n "")).foldl
          (fun m tok =>
            let m := if dictMem m tok then m else dictSet m tok []
            dictSet m tok (setAdd (dictGetD m tok []) cid))
          m)
    []

/-- Python `s.strip("'")`: remove all leading and trailing single quotes. -/
def pyStripAllQuotes (s : String) : String :=
  String.mk
    (((s.toList.dropWhile (fun c => c = quoteCh)).reverse.dropWhile
        (fun c => c = quoteCh)).reverse)

structure FileScopeSt where
  node_ids_f : List String
  edges_f : List (String × String)
  node_to_tokens_f : List (String × List String)
  in_nodes_f : Bool
  in_edges_f : Bool
  node_attr_names_f : List String
  edge_attr_names_f : List String
  label_index_f : Option Nat
  id_index_f : Option Nat
  node1_index_f : Option Nat
  node2_index_f : Option Nat

/-- One line of the file-scope re-parse inside
get_component_proteins_by_node (lines 711-764). -/
def fileScopeStep (name_mode : NameMode) (sgd : List (String × String))
    (st : FileScopeSt) (rawLine : String) : Option FileScopeSt :=
  let line := pyStrip rawLine
  if line = "" then
    some st
  else if pyStartsWithStr line "nodedef>" then
    match headerAttrNamesColon (pyDrop line 8) with
    | none => none
    | some attr_names =>
      some { st with
        in_nodes_f := true, in_edges_f := false,
        node_attr_names_f := attr_names,
        label_index_f :=
          if attr_names.contains "label" then some (listIndex attr_names "label")
          else if attr_names.contains "name" then some (listIndex attr_names "name")
          else none,
        id_index_f :=
          if attr_names.contains "name" then some (listIndex attr_names "name")
          else if attr_names.contains "id" then some (listIndex attr_names "id")
          else some 0 }
  else if pyStartsWithStr line "edgedef>" then
    match headerAttrNamesColon (pyDrop line 8) with
    | none => none
    | some attr_names =>
      some { st with
        in_nodes_f := false, in_edges_f := true,
        edge_attr_names_f := attr_names,
        node1_index_f :=
          if attr_names.contains "node1" then some (listIndex attr_names "node1")
          else none,
        node2_index_f :=
          if attr_names.contains "node2" then some (listIndex attr_names "node2")
          else none }
  else if st.in_nodes_f && st.node_attr_names_f ≠ [] then
    let row := csvReadLine line
    match st.id_index_f with
    | none => some st
    | some ii =>
      if ii < row.length then
        let nid_f := pyStripAllQuotes (pyStrip (row.getD ii ""))
        let tokens_set : List String :=
          match st.label_index_f with
          | some li =>
            if li < row.length then
              let label_val_f := pyStripAllQuotes (pyStrip (row.getD li ""))
              if label_val_f ≠ "" then
                let base_tokens :=
                  setOfList (((pySplitWs label_val_f).map pyStrip).filter (fun t => t ≠ ""))
                match name_mode with
                | .gene => setOfList (base_tokens.map (fun t => dictGetD sgd (pyUpper t) t))
                | .systematic => base_tokens
              else []
            else []
          | none => []
        some { st with
          node_ids_f := st.node_ids_f ++ [nid_f],
          node_to_tokens_f := dictSet st.node_to_tokens_f nid_f tokens_set }
      else
        some st
  else if st.in_edges_f && st.edge_attr_names_f ≠ [] then
    match st.node1_index_f, st.node2_index_f with
    | some n1i, some n2i =>
      let row := csvReadLine line
      if n1i < row.length && n2i < row.length then
        let n1 := pyStripAllQuotes (pyStrip (row.getD n1i ""))
        let n2 := pyStripAllQuotes (pyStrip (row.getD n2i ""))
        if n1 ≠ "" && n2 ≠ "" then
          some { st with edges_f := st.edges_f ++ [(n1, n2)] }
        else
          some st
      else
        some st
    | _, _ => some st
  else
    some st

/-- The file-scope block of get_component_proteins_by_node (lines 687-807):
token → set of file-component ids and the file-component id of the target
node.  `fileContent` is `some` exactly when `req.network` and `req.filename`
are both truthy and name an existing `.gdf` file, in which case it carries
that file's contents; any exception in the block yields `(none, none)`
(lines 805-807).  The inline union-find and compact-id loop of lines 767-794
computes exactly `(_compute_components node_ids_f edges_f).1`. -/
def byNodeFileScope (name_mode : NameMode) (sgd : List (String × String))
    (fileContent : Option String) (req_node_id : String) :
    Option (List (String × List Nat)) × Option Nat :=
  match fileContent with
  | none => (none, none)
  | some content =>
    let lines := (splitOnPredChars (fun c => c = '\n') content.toList).map String.mk
    match lines.foldlM (fileScopeStep name_mode sgd)
        ⟨[], [], [], false, false, [], [], none, none, none, none⟩ with
    | none => (none, none)
    | some st =>
      let node_to_comp_f := (_compute_components st.node_ids_f st.edges_f).1
      let target_file_cid := dictGet node_to_comp_f req_node_id
      let token_map := st.node_to_tokens_f.foldl
        (fun m nt =>
          match dictGet node_to_comp_f nt.1 with
          | none => m
          | some cidf =>
            nt.2.foldl
              (fun m tok =>
                let m := if dictMem m tok then m else dictSet m tok []
                dictSet m tok (setAdd (dictGetD m tok []) cidf))
              m)
        []
      (some token_map, target_file_cid)

/-- Sort order of a `type_counts` dict: descending count, then key
(`key=lambda kv: (-kv[1], kv[0])`). -/
def typeCntLe (a b : String × Nat) : Bool :=
  decide (b.2 < a.2) || (decide (a.2 = b.2) && pyStrLe a.1 b.1)

/-- Numeric equality of fractions (`float` equality of the source). -/
def pnEq (a b : PyNum) : Bool := decide (a.num * b.den = b.num * a.den)

/-- Sort order of a `type_ratios` dict: descending ratio, then key. -/
def typeRatLe (a b : String × PyNum) : Bool :=
  PyNum.lt b.2 a.2 || (pnEq a.2 b.2 && pyStrLe a.1 b.1)

/-- Final sort key of the protein list (line 839):
`key=lambda x: (-x.count, x.protein)`. -/
def protCntLe (a b : ComponentProteinCount) : Bool :=
  decide (b.count < a.count) || (decide (a.count = b.count) && pyStrLe a.protein b.protein)

/-- Building one ComponentProteinCount entry (lines 812-838). -/
def byNodeBuildEntry (comp_size : Nat) (target_cid : Nat)
    (protein_type_counts : List (String × List (String × Nat)))
    (token_to_comp_set_graph : List (String × List Nat))
    (token_to_comp_set_file : Option (List (String × List Nat)))
    (target_file_cid : Option Nat) (protein : String) (total : Nat) :
    ComponentProteinCount :=
  let tcounts := dictGetD protein_type_counts protein []
  let ratio :=
    if 0 < comp_size then PyNum.div (PyNum.ofInt (total : Int)) (PyNum.ofInt (comp_size : Int))
    else PyNum.ofInt 0
  let trate : List (String × PyNum) :=
    if 0 < total then
      tcounts.map (fun tc => (tc.1, PyNum.div (PyNum.ofInt (tc.2 : Int)) (PyNum.ofInt (total : Int))))
    else []
  let comp_set_g := dictGetD token_to_comp_set_graph protein []
  let other_graph :=
    if comp_set_g ≠ [] then comp_set_g.length - (if comp_set_g.contains target_cid then 1 else 0)
    else 0
  let other_file : Option Nat :=
    match token_to_comp_set_file with
    | none => none
    | some m =>
      let comp_set_f := dictGetD m protein []
      some (comp_set_f.length -
        (match target_file_cid with
         | some tf => if comp_set_f.contains tf then 1 else 0
         | none => 0))
  { protein := protein,
    count := total,
    type_counts := if tcounts ≠ [] then some (pySorted typeCntLe tcounts) else none,
    ratio := some ratio,
    type_ratios := if trate ≠ [] then some (pySorted typeRatLe trate) else none,
    other_components := match other_file with | some v => some v | none => some other_graph }

/-- networks.get_component_proteins_by_node.  `name_mode_param` is the
request's optional `name_mode`, `fileContent` the optional referenced GDF
file (see `byNodeFileScope`). -/
def get_component_proteins_by_node (sgd : List (String × String))
    (name_mode_param : Option NameMode) (fileContent : Option String)
    (node_id : String) (graph : CytoscapeGraph) :
    Except ApiError ByNodeResponse :=
  let name_mode := name_mode_param.getD .systematic
  let info := byNodeNodeInfo name_mode graph
  let node_ids := info.1
  let node_to_label := info.2.1
  let node_to_type := info.2.2
  let target_id := node_id
  if !(dictMem node_to_label target_id) then
    .error (.notFound ("Node '" ++ target_id ++ "' not found in graph"))
  else
    let edges := byNodeEdges graph
    let comps := _compute_components node_ids edges
    let node_to_comp := comps.1
    let comp_sizes := comps.2
    match dictGet node_to_comp target_id with
    | none => .error (.notFound ("Node '" ++ target_id ++ "' not found in components"))
    | some target_cid =>
      let component_nodes := node_ids.filter (fun n => dictGet node_to_comp n = some target_cid)
      let counts := byNodeCounts name_mode sgd component_nodes node_to_label node_to_type
      let token_to_comp_set_graph :=
        byNodeTokenCompSet name_mode sgd node_ids node_to_comp node_to_label
      let fileScope := byNodeFileScope name_mode sgd fileContent node_id
      let comp_size := dictGetD comp_sizes target_cid 0
      let protein_counts_list := counts.1.map
        (fun pt =>
          byNodeBuildEntry comp_size target_cid counts.2 token_to_comp_set_graph
            fileScope.1 fileScope.2 pt.1 pt.2)
      .ok
        { component_id := target_cid,
          size := dictGetD comp_sizes target_cid 0,
          protein_counts := pySorted protCntLe protein_counts_list }

/-! ### proteins.get_component_subgraph (lines 443-489)

The `SubgraphNode`/`SubgraphEdge`/`SubgraphGraph` response models of the
source are structurally identical to the Cytoscape ones; this embedding
reuses `CytoscapeGraph`.  `content` is the contents of the (existing)
requested GDF file; the `component_id` path parameter is a Python int. -/

def get_component_subgraph (name_mode : NameMode) (sgd : List (String × String))
    (content : String) (component_id : Int) : Except ApiError CytoscapeGraph :=
  match _parse_nodes_and_edges name_mode sgd content with
  | none => .error (.internal "Error building subgraph")
  | some parsed =>
    let node_to_comp := (_compute_components parsed.node_ids parsed.edges).1
    let comp_nodes := setOfList
      (parsed.node_ids.filter
        (fun n => (dictGet node_to_comp n).map (fun c => (c : Int)) = some component_id))
    match parse_gdf_to_cytoscape sgd content with
    | none => .error (.internal "Error building subgraph")
    | some full_graph =>
      let nodes_out := full_graph.nodes.filter
        (fun n => comp_nodes.contains (pyValStr (dictGetD n.data "id" (.str ""))))
      let comp_node_ids := setOfList
        (nodes_out.map (fun d => pyValStr (dictGetD d.data "id" (.str ""))))
      let edges_out := full_graph.edges.filter
        (fun e =>
          comp_node_ids.contains (pyValStr (dictGetD e.data "source" (.str ""))) &&
          comp_node_ids.contains (pyValStr (dictGetD e.data "target" (.str ""))))
      .ok ⟨nodes_out, edges_out⟩

/-! ### networks.compute_spring_layout: the anti-overlap pass (lines 411-524)

The primary placement (ForceAtlas2 / Kamada-Kawai / spring_layout,
lines 337-409) and the coverage pre-spread (lines 446-467) are produced by
the external networkx library and floating-point `sqrt`; the pass below
therefore takes the position map it starts from (`pos`) as an explicit
input, universally quantified in the theorems.  Likewise `pyhash` stands
for Python's (per-process salted) `hash(str)`, and `hyp` for
`math.hypot` — the source's only uses of either are inside the
degenerate-distance nudge and the circle-overlap test, and both are treated
as oracles. -/

/-- Position map: node id → (x, y). -/
def LayoutPos : Type := String → PyNum × PyNum

/-- Layout configuration: rectangle sizes (`rect_sizes`), circle radii
(`radii`), extra padding and the default radius 5.0 (lines 412-444). -/
structure AntiOverlapCfg where
  rect_sizes : List (String × (PyNum × PyNum))
  radii : List (String × PyNum)
  pad : PyNum
  pyhash : String → Int
  hyp : PyNum → PyNum → PyNum

/-- Python `(hash(s) % 3 - 1) or 1` (resp. `or -1`): the `%` is nonnegative. -/
def nudgeVal (h : Int) (alt : Int) : Int :=
  let v := h % 3 - 1
  if v = 0 then alt else v

/-- One unordered pair step of the separation loop (lines 479-522): pushes
`a` and `b` apart when their footprints overlap, returning the updated
positions and whether a move happened. -/
def sweepPair (cfg : AntiOverlapCfg) (pos : LayoutPos) (a b : String) :
    LayoutPos × Bool :=
  let ax := (pos a).1
  let ay := (pos a).2
  let bx := (pos b).1
  let by' := (pos b).2
  if cfg.rect_sizes ≠ [] then
    let awh := dictGetD cfg.rect_sizes a (PyNum.ofInt 10, PyNum.ofInt 10)
    let bwh := dictGetD cfg.rect_sizes b (PyNum.ofInt 10, PyNum.ofInt 10)
    let half_w := PyNum.add (PyNum.half (PyNum.add awh.1 bwh.1)) cfg.pad
    let half_h := PyNum.add (PyNum.half (PyNum.add awh.2 bwh.2)) cfg.pad
    let dx := PyNum.sub bx ax
    let dy := PyNum.sub by' ay
    let overlap_x := PyNum.sub half_w (PyNum.pabs dx)
    let overlap_y := PyNum.sub half_h (PyNum.pabs dy)
    if PyNum.lt (PyNum.ofInt 0) overlap_x && PyNum.lt (PyNum.ofInt 0) overlap_y then
      if PyNum.lt overlap_x overlap_y then
        let shift := PyNum.half overlap_x
        let sx := if PyNum.ge dx (PyNum.ofInt 0) then PyNum.ofInt 1 else PyNum.ofInt (-1)
        let ax' := PyNum.sub ax (PyNum.mul sx shift)
        let bx' := PyNum.add bx (PyNum.mul sx shift)
        (fun n => if n = a then (ax', ay) else if n = b then (bx', by') else pos n, true)
      else
        let shift := PyNum.half overlap_y
        let sy := if PyNum.ge dy (PyNum.ofInt 0) then PyNum.ofInt 1 else PyNum.ofInt (-1)
        let ay' := PyNum.sub ay (PyNum.mul sy shift)
        let by'' := PyNum.add by' (PyNum.mul sy shift)
        (fun n => if n = a then (ax, ay') else if n = b then (bx, by'') else pos n, true)
    else
      (pos, false)
  else
    let ra := dictGetD cfg.radii a (PyNum.ofInt 5)
    let rb := dictGetD cfg.radii b (PyNum.ofInt 5)
    let dx := PyNum.sub bx ax
    let dy := PyNum.sub by' ay
    let dist := cfg.hyp dx dy
    let min_dist := PyNum.add (PyNum.add ra rb) cfg.pad
    let nudged := PyNum.isZero dist
    let dx := if nudged then PyNum.ofInt (nudgeVal (cfg.pyhash a) 1) else dx
    let dy := if nudged then PyNum.ofInt (nudgeVal (cfg.pyhash b) (-1)) else dy
    let dist := if nudged then cfg.hyp dx dy else dist
    if PyNum.lt dist min_dist then
      let overlap := PyNum.half (PyNum.sub min_dist dist)
      let ux := PyNum.div dx dist
      let uy := PyNum.div dy dist
      (fun n =>
        if n = a then (PyNum.sub ax (PyNum.mul ux overlap), PyNum.sub ay (PyNum.mul uy overlap))
        else if n = b then (PyNum.add bx (PyNum.mul ux overlap), PyNum.add by' (PyNum.mul uy overlap))
        else pos n, true)
    else
      (pos, false)

/-- Inner loop over `j` (the partners after `a` in the id list). -/
def sweepInner (cfg : AntiOverlapCfg) (a : String) :
    List String → LayoutPos × Bool → LayoutPos × Bool
  | [], st => st
  | b :: bs, st =>
    let r := sweepPair cfg st.1 a b
    sweepInner cfg a bs (r.1, st.2 || r.2)

/-- One full sweep over all unordered pairs (`for i ... for j in i+1...`,
lines 473-522). -/
def sweepOnce (cfg : AntiOverlapCfg) : List String → LayoutPos × Bool → LayoutPos × Bool
  | [], st => st
  | a :: rest, st => sweepOnce cfg rest (sweepInner cfg a rest st)

/-- The bounded separation loop (lines 471-524): up to `max_iters` sweeps,
stopping early after a sweep that moved nothing.  Returns the final
positions and whether the loop ended with such a no-movement sweep. -/
def antiOverlapLoop (cfg : AntiOverlapCfg) (node_ids : List String) :
    Nat → LayoutPos → LayoutPos × Bool
  | 0, pos => (pos, false)
  | k + 1, pos =>
    let r := sweepOnce cfg node_ids (pos, false)
    if r.2 then antiOverlapLoop cfg node_ids k r.1 else (r.1, true)

/-- The whole anti-overlap pass on a given starting position map. -/
def antiOverlapPass (cfg : AntiOverlapCfg) (node_ids : List String)
    (max_iters : Nat) (pos : LayoutPos) : LayoutPos × Bool :=
  antiOverlapLoop cfg node_ids max_iters pos

/-- The source's footprint-overlap trigger at given positions: the exact
condition under which lines 488/514 move the pair `(a, b)`. -/
def footprintsOverlap (cfg : AntiOverlapCfg) (pos : LayoutPos) (a b : String) : Bool :=
  (sweepPair cfg pos a b).2

/-! ## Theory: correctness of the union-find embedding

`ReachesRoot p x r` states that following parent links from `x` reaches the
fixpoint `r`; `Meas p m B` is the termination invariant (a measure strictly
increasing toward parents and bounded by `B`) maintained by every loop of
the source; `SameRoot` is the induced partition and `Conn` the undirected
connectivity generated by an edge list. -/

def ReachesRoot (p : String → String) (x r : String) : Prop :=
  (∃ k, p^[k] x = r) ∧ p r = r

def Meas (p : String → String) (m : String → Nat) (B : Nat) : Prop :=
  (∀ x, p x ≠ x → m x < m (p x)) ∧ ∀ x, m x < B

def SameRoot (p : String → String) (x y : String) : Prop :=
  ∃ r, ReachesRoot p x r ∧ ReachesRoot p y r

/-- Undirected connectivity: the equivalence closure of the edge list. -/
def Conn (E : List (String × String)) (x y : String) : Prop :=
  Relation.EqvGen (fun u v => (u, v) ∈ E) x y

theorem reachesRoot_self {p : String → String} {r : String} (h : p r = r) :
    ReachesRoot p r r :=
  ⟨⟨0, rfl⟩, h⟩

theorem reachesRoot_of_parent {p : String → String} {x r : String}
    (h : ReachesRoot p (p x) r) : ReachesRoot p x r := by
  obtain ⟨⟨k, hk⟩, hr⟩ := h
  exact ⟨⟨k + 1, by rw [Function.iterate_succ_apply]; exact hk⟩, hr⟩

theorem reachesRoot_parent {p : String → String} {x r : String}
    (h : ReachesRoot p x r) : ReachesRoot p (p x) r := by
  obtain ⟨⟨k, hk⟩, hr⟩ := h
  refine ⟨⟨k, ?_⟩, hr⟩
  have h2 : p^[k + 1] x = p^[k] (p x) := Function.iterate_succ_apply p k x
  rw [← h2, Function.iterate_succ_apply', hk, hr]

theorem reachesRoot_unique {p : String → String} {x r r' : String}
    (h : ReachesRoot p x r) (h' : ReachesRoot p x r') : r = r' := by
  obtain ⟨⟨k, hk⟩, hr⟩ := h
  obtain ⟨⟨l, hl⟩, hr'⟩ := h'
  rcases le_total k l with hkl | hkl
  · have : p^[l] x = r := by
      have : p^[l - k + k] x = r := by
        rw [Function.iterate_add_apply, hk]
        exact Function.iterate_fixed hr _
      rwa [Nat.sub_add_cancel hkl] at this
    rw [← hl, this]
  · have : p^[k] x = r' := by
      have : p^[k - l + l] x = r' := by
        rw [Function.iterate_add_apply, hl]
        exact Function.iterate_fixed hr' _
      rwa [Nat.sub_add_cancel hkl] at this
    rw [← hk, this]

theorem sameRoot_symm {p : String → String} {x y : String}
    (h : SameRoot p x y) : SameRoot p y x := by
  obtain ⟨r, hx, hy⟩ := h
  exact ⟨r, hy, hx⟩

theorem sameRoot_trans {p : String → String} {x y z : String}
    (h : SameRoot p x y) (h' : SameRoot p y z) : SameRoot p x z := by
  obtain ⟨r, hx, hy⟩ := h
  obtain ⟨r', hy', hz⟩ := h'
  obtain rfl := reachesRoot_unique hy hy'
  exact ⟨r, hx, hz⟩

/-- Under the measure invariant there is no 2-cycle through `x`. -/
theorem meas_no_two_cycle {p : String → String} {m : String → Nat} {B : Nat}
    (hm : Meas p m B) {x : String} (hx : p x ≠ x) : p (p x) ≠ x := by
  intro hcontra
  by_cases h2 : p (p x) = p x
  · exact hx (h2.symm.trans hcontra)
  · have h1 := hm.1 x hx
    have h3 := hm.1 (p x) h2
    rw [hcontra] at h3
    omega

/-- Path halving preserves the fixpoints of the parent map. -/
theorem update_halve_fix {p : String → String} {m : String → Nat} {B : Nat}
    (hm : Meas p m B) (x z : String) :
    Function.update p x (p (p x)) z = z ↔ p z = z := by
  by_cases hz : z = x
  · subst hz
    rw [Function.update_same]
    constructor
    · intro h
      by_contra hx
      exact meas_no_two_cycle hm hx h
    · intro h
      rw [h, h]
  · rw [Function.update_noteq hz]

/-- Path halving preserves which root every node reaches. -/
theorem reaches_update_halve {p : String → String} {m : String → Nat} {B : Nat}
    (hm : Meas p m B) (x y s : String) :
    ReachesRoot (Function.update p x (p (p x))) y s ↔ ReachesRoot p y s := by
  set q := Function.update p x (p (p x)) with hq
  have hqx : q x = p (p x) := Function.update_same _ _ _
  have hqo : ∀ z, z ≠ x → q z = p z := fun z hz => Function.update_noteq hz _ _
  constructor
  · rintro ⟨⟨k, hk⟩, hs⟩
    refine ⟨?_, (update_halve_fix hm x s).1 hs⟩
    clear hs
    induction k generalizing y with
    | zero => exact ⟨0, hk⟩
    | succ k ih =>
      rw [Function.iterate_succ_apply] at hk
      obtain ⟨j, hj⟩ := ih (q y) hk
      by_cases hyx : y = x
      · subst hyx
        rw [hqx] at hj
        exact ⟨j + 2, by
          rw [Function.iterate_succ_apply, Function.iterate_succ_apply]
          exact hj⟩
      · rw [hqo y hyx] at hj
        exact ⟨j + 1, by rw [Function.iterate_succ_apply]; exact hj⟩
  · rintro ⟨⟨k, hk⟩, hs⟩
    refine ⟨?_, (update_halve_fix hm x s).2 hs⟩
    clear hq
    induction k using Nat.strong_induction_on generalizing y with
    | _ k ih =>
      cases k with
      | zero => exact ⟨0, hk⟩
      | succ k =>
        rw [Function.iterate_succ_apply] at hk
        by_cases hyx : y = x
        · subst hyx
          by_cases hfix : p y = y
          · have h1 : p^[k] y = s := by rwa [hfix] at hk
            have hys : y = s := by
              rw [← Function.iterate_fixed hfix k, h1]
            exact ⟨0, hys⟩
          · cases k with
            | zero =>
              rw [Function.iterate_zero_apply] at hk
              refine ⟨1, ?_⟩
              rw [Function.iterate_one, hqx, hk, hs]
            | succ k' =>
              rw [Function.iterate_succ_apply] at hk
              obtain ⟨j, hj⟩ := ih k' (by omega) (p (p y)) hk
              refine ⟨j + 1, ?_⟩
              rw [Function.iterate_succ_apply, hqx]
              exact hj
        · obtain ⟨j, hj⟩ := ih k (by omega) (p y) hk
          refine ⟨j + 1, ?_⟩
          rw [Function.iterate_succ_apply, hqo y hyx]
          exact hj

/-- Path halving preserves the measure invariant (with the same measure). -/
theorem meas_update_halve {p : String → String} {m : String → Nat} {B : Nat}
    (hm : Meas p m B) (x : String) :
    Meas (Function.update p x (p (p x))) m B := by
  refine ⟨fun z hz => ?_, hm.2⟩
  by_cases hzx : z = x
  · subst hzx
    rw [Function.update_same] at hz ⊢
    have hx : p z ≠ z := by
      intro h
      exact hz (by rw [h, h])
    have h1 := hm.1 z hx
    by_cases h2 : p (p z) = p z
    · rw [h2]; exact h1
    · exact lt_trans h1 (hm.1 (p z) h2)
  · rw [Function.update_noteq hzx] at hz ⊢
    exact hm.1 z hz

/-- Full specification of `find` with path halving: it returns the root of
`x`, preserves every node's root, and preserves the measure invariant. -/
theorem ufFind_spec {m : String → Nat} {B : Nat} :
    ∀ (fuel : Nat) (p : String → String) (x : String), Meas p m B → B ≤ fuel + m x →
      ReachesRoot p x (ufFind fuel p x).2 ∧
      (∀ y s, ReachesRoot (ufFind fuel p x).1 y s ↔ ReachesRoot p y s) ∧
      Meas (ufFind fuel p x).1 m B := by
  intro fuel
  induction fuel with
  | zero =>
    intro p x hm hB
    exact absurd (hm.2 x) (by omega)
  | succ f ih =>
    intro p x hm hB
    by_cases hx : p x = x
    · rw [ufFind, if_pos hx]
      exact ⟨reachesRoot_self hx, fun y s => Iff.rfl, hm⟩
    · rw [ufFind, if_neg hx]
      have hq : Meas (Function.update p x (p (p x))) m B := meas_update_halve hm x
      have hstep : m x < m (p (p x)) := by
        have h1 := hm.1 x hx
        by_cases h2 : p (p x) = p x
        · rw [h2]; exact h1
        · exact lt_trans h1 (hm.1 (p x) h2)
      obtain ⟨h1, h2, h3⟩ := ih (Function.update p x (p (p x))) (p (p x)) hq (by omega)
      refine ⟨?_, fun y s => (h2 y s).trans (reaches_update_halve hm x y s), h3⟩
      have h4 : ReachesRoot p (p (p x))
          (ufFind f (Function.update p x (p (p x))) (p (p x))).2 :=
        (reaches_update_halve hm x _ _).1 h1
      exact reachesRoot_of_parent (reachesRoot_of_parent h4)

/-- Re-rooting a root `r2` under another root `r1` rewrites exactly the
`r2`-class to `r1` and leaves every other class unchanged. -/
theorem reaches_update_link {p : String → String} {r1 r2 : String}
    (h1 : p r1 = r1) (h2 : p r2 = r2) (hne : r1 ≠ r2) (y s : String) :
    ReachesRoot (Function.update p r2 r1) y s ↔
      ((ReachesRoot p y s ∧ s ≠ r2) ∨ (ReachesRoot p y r2 ∧ s = r1)) := by
  set q := Function.update p r2 r1 with hqdef
  have hqx : q r2 = r1 := Function.update_same _ _ _
  have hqo : ∀ z, z ≠ r2 → q z = p z := fun z hz => Function.update_noteq hz _ _
  have hq1 : q r1 = r1 := by rw [hqo r1 hne, h1]
  constructor
  · rintro ⟨⟨k, hk⟩, hs⟩
    -- `s` is a fixpoint of `q`, hence a fixpoint of `p` distinct from `r2`,
    -- or `s = r1` reached through the rewritten link.
    induction k generalizing y with
    | zero =>
      rw [Function.iterate_zero_apply] at hk
      subst hk
      by_cases hyr : y = r2
      · subst hyr
        exact absurd (hqx.symm.trans hs) hne
      · exact Or.inl ⟨reachesRoot_self (by rw [← hqo y hyr]; exact hs), hyr⟩
    | succ k ih =>
      rw [Function.iterate_succ_apply] at hk
      by_cases hyr : y = r2
      · subst hyr
        rw [hqx] at hk
        have hs1 : s = r1 := by
          rw [← Function.iterate_fixed hq1 k, hk]
        exact Or.inr ⟨reachesRoot_self h2, hs1⟩
      · rw [hqo y hyr] at hk
        rcases ih (p y) hk with ⟨hr, hsne⟩ | ⟨hr, hseq⟩
        · exact Or.inl ⟨reachesRoot_of_parent hr, hsne⟩
        · exact Or.inr ⟨reachesRoot_of_parent hr, hseq⟩
  · rintro (⟨⟨⟨k, hk⟩, hs⟩, hsne⟩ | ⟨⟨⟨k, hk⟩, hs⟩, hseq⟩)
    · refine ⟨?_, by rw [hqo s hsne]; exact hs⟩
      induction k generalizing y with
      | zero => exact ⟨0, hk⟩
      | succ k ih =>
        rw [Function.iterate_succ_apply] at hk
        have hyr : y ≠ r2 := by
          intro hy
          subst hy
          rw [h2] at hk
          exact hsne (by rw [← Function.iterate_fixed h2 k, hk])
        obtain ⟨j, hj⟩ := ih (p y) hk
        exact ⟨j + 1, by rw [Function.iterate_succ_apply, hqo y hyr]; exact hj⟩
    · subst hseq
      refine ⟨?_, hq1⟩
      induction k generalizing y with
      | zero =>
        rw [Function.iterate_zero_apply] at hk
        exact ⟨1, by rw [Function.iterate_one, hk, hqx]⟩
      | succ k ih =>
        rw [Function.iterate_succ_apply] at hk
        by_cases hyr : y = r2
        · exact ⟨1, by rw [Function.iterate_one, hyr, hqx]⟩
        · obtain ⟨j, hj⟩ := ih (p y) hk
          exact ⟨j + 1, by rw [Function.iterate_succ_apply, hqo y hyr]; exact hj⟩

/-- The measure invariant survives linking root `r2` below root `r1`, with
the bound enlarged by one. -/
theorem meas_update_link {p : String → String} {m : String → Nat} {B : Nat}
    (hm : Meas p m B) {r1 r2 : String} (h1 : p r1 = r1) (hne : r1 ≠ r2) :
    Meas (Function.update p r2 r1)
      (fun z => if z = r1 then max (m r1) (m r2 + 1) else m z) (B + 1) := by
  constructor
  · intro z hz
    by_cases hzr : z = r2
    · subst hzr
      rw [Function.update_same]
      have hz1 : z ≠ r1 := fun h => hne (h.symm)
      simp only [if_neg hz1, if_pos rfl]
      exact lt_of_lt_of_le (Nat.lt_succ_self _) (le_max_right _ _)
    · rw [Function.update_noteq hzr] at hz ⊢
      have hzp := hm.1 z hz
      have hz1 : z ≠ r1 := by
        intro h
        subst h
        exact hz h1
      simp only [if_neg hz1]
      by_cases hp1 : p z = r1
      · simp only [if_pos hp1]
        exact lt_of_lt_of_le (hp1 ▸ hzp) (le_max_left _ _)
      · simp only [if_neg hp1]
        exact hzp
  · intro z
    by_cases hz1 : z = r1
    · subst hz1
      simp only [if_pos rfl]
      exact Nat.max_lt.mpr ⟨Nat.lt_succ_of_lt (hm.2 z), Nat.succ_lt_succ (hm.2 r2)⟩
    · simp only [if_neg hz1]
      exact Nat.lt_succ_of_lt (hm.2 z)

/-- Under the measure invariant every node reaches some root (obtained by
running the embedded `find` with enough fuel). -/
theorem exists_root {p : String → String} {m : String → Nat} {B : Nat}
    (hm : Meas p m B) (x : String) : ∃ r, ReachesRoot p x r :=
  ⟨(ufFind B p x).2, (ufFind_spec B p x hm (Nat.le_add_right _ _)).1⟩

theorem meas_mono {p : String → String} {m : String → Nat} {B B' : Nat}
    (hm : Meas p m B) (h : B ≤ B') : Meas p m B' :=
  ⟨hm.1, fun x => lt_of_lt_of_le (hm.2 x) h⟩

theorem sameRoot_iff_root_eq {p : String → String} {x y rx ry : String}
    (hx : ReachesRoot p x rx) (hy : ReachesRoot p y ry) :
    SameRoot p x y ↔ rx = ry := by
  constructor
  · rintro ⟨r, hx', hy'⟩
    rw [reachesRoot_unique hx hx', reachesRoot_unique hy hy']
  · rintro rfl
    exact ⟨rx, hx, hy⟩

/-- Linking the root `r2` (of `b`) under the root `r1` (of `a`) merges
exactly the classes of `a` and `b` and keeps the measure invariant with the
bound enlarged by one.  `p2` is the current parent map, `p` a map with the
same root assignment (the one from before the two `find` calls). -/
theorem link_spec {p2 p : String → String} {m : String → Nat} {B : Nat}
    (hm2 : Meas p2 m B)
    (hiff : ∀ y s, ReachesRoot p2 y s ↔ ReachesRoot p y s)
    {a b r1 r2 : String}
    (hra : ReachesRoot p a r1) (hrb : ReachesRoot p b r2) (hne : r1 ≠ r2) :
    (∃ m', Meas (Function.update p2 r2 r1) m' (B + 1)) ∧
    (∀ x y, SameRoot (Function.update p2 r2 r1) x y ↔
      (SameRoot p x y ∨ (SameRoot p x a ∧ SameRoot p y b) ∨
        (SameRoot p x b ∧ SameRoot p y a))) := by
  have hp2r1 : p2 r1 = r1 := ((hiff r1 r1).mpr (reachesRoot_self hra.2)).2
  have hp2r2 : p2 r2 = r2 := ((hiff r2 r2).mpr (reachesRoot_self hrb.2)).2
  refine ⟨⟨_, meas_update_link hm2 hp2r1 hne⟩, fun x y => ?_⟩
  obtain ⟨rx, hrx2⟩ := exists_root hm2 x
  obtain ⟨ry, hry2⟩ := exists_root hm2 y
  have hrx : ReachesRoot p x rx := (hiff x rx).1 hrx2
  have hry : ReachesRoot p y ry := (hiff y ry).1 hry2
  -- the new root of a node whose old root is `r`
  have hnew : ∀ z rz, ReachesRoot p2 z rz →
      ReachesRoot (Function.update p2 r2 r1) z (if rz = r2 then r1 else rz) := by
    intro z rz hrz
    by_cases hzr : rz = r2
    · subst hzr
      rw [if_pos rfl]
      exact (reaches_update_link hp2r1 hp2r2 hne z r1).2 (Or.inr ⟨hrz, rfl⟩)
    · rw [if_neg hzr]
      exact (reaches_update_link hp2r1 hp2r2 hne z rz).2 (Or.inl ⟨hrz, hzr⟩)
  have hQ := sameRoot_iff_root_eq (hnew x rx hrx2) (hnew y ry hry2)
  have hxy := sameRoot_iff_root_eq hrx hry
  have hxa := sameRoot_iff_root_eq hrx hra
  have hyb := sameRoot_iff_root_eq hry hrb
  have hxb := sameRoot_iff_root_eq hrx hrb
  have hya := sameRoot_iff_root_eq hry hra
  rw [hQ, hxy, hxa, hyb, hxb, hya]
  by_cases h1 : rx = r2 <;> by_cases h2 : ry = r2
  · subst h1; subst h2
    simp [hne]
  · subst h1
    simp only [if_pos rfl, if_neg h2]
    constructor
    · intro h
      exact Or.inr (Or.inr ⟨trivial, h.symm⟩)
    · rintro (h | ⟨h, _⟩ | ⟨_, h⟩)
      · exact absurd h.symm h2
      · exact absurd h hne.symm
      · exact h.symm
  · subst h2
    simp only [if_pos rfl, if_neg h1]
    constructor
    · intro h
      exact Or.inr (Or.inl ⟨h, trivial⟩)
    · rintro (h | ⟨h, _⟩ | ⟨_, h⟩)
      · exact absurd h h1
      · exact h
      · exact absurd h hne.symm
  · simp only [if_neg h1, if_neg h2]
    constructor
    · exact fun h => Or.inl h
    · rintro (h | ⟨ha, hb⟩ | ⟨hb, ha⟩)
      · exact h
      · exact absurd hb h2
      · exact absurd hb h1

/-- Full specification of `union`: the measure invariant survives with the
bound enlarged by one, and the root partition becomes the join of the
classes of `a` and `b`. -/
theorem ufUnion_spec {p : String → String} {sz : String → Nat} {m : String → Nat}
    {B fuel : Nat} (hm : Meas p m B) (hB : B ≤ fuel) (a b : String) :
    (∃ m', Meas (ufUnion fuel (p, sz) a b).1 m' (B + 1)) ∧
    (∀ x y, SameRoot (ufUnion fuel (p, sz) a b).1 x y ↔
      (SameRoot p x y ∨ (SameRoot p x a ∧ SameRoot p y b) ∨
        (SameRoot p x b ∧ SameRoot p y a))) := by
  obtain ⟨hra, hiffa, hma⟩ :=
    ufFind_spec fuel p a hm (le_trans hB (Nat.le_add_right _ _))
  obtain ⟨hrb1, hiffb, hmb⟩ :=
    ufFind_spec fuel (ufFind fuel p a).1 b hma (le_trans hB (Nat.le_add_right _ _))
  have hiff : ∀ y s,
      ReachesRoot (ufFind fuel (ufFind fuel p a).1 b).1 y s ↔ ReachesRoot p y s :=
    fun y s => (hiffb y s).trans (hiffa y s)
  have hrb : ReachesRoot p b (ufFind fuel (ufFind fuel p a).1 b).2 :=
    (hiffa _ _).1 hrb1
  have hueq : ufUnion fuel (p, sz) a b =
      (if (ufFind fuel p a).2 = (ufFind fuel (ufFind fuel p a).1 b).2 then
        ((ufFind fuel (ufFind fuel p a).1 b).1, sz)
      else
        (Function.update (ufFind fuel (ufFind fuel p a).1 b).1
          (if sz (ufFind fuel p a).2 < sz (ufFind fuel (ufFind fuel p a).1 b).2 then
            ((ufFind fuel (ufFind fuel p a).1 b).2, (ufFind fuel p a).2)
          else ((ufFind fuel p a).2, (ufFind fuel (ufFind fuel p a).1 b).2)).2
          (if sz (ufFind fuel p a).2 < sz (ufFind fuel (ufFind fuel p a).1 b).2 then
            ((ufFind fuel (ufFind fuel p a).1 b).2, (ufFind fuel p a).2)
          else ((ufFind fuel p a).2, (ufFind fuel (ufFind fuel p a).1 b).2)).1,
         Function.update sz
          (if sz (ufFind fuel p a).2 < sz (ufFind fuel (ufFind fuel p a).1 b).2 then
            ((ufFind fuel (ufFind fuel p a).1 b).2, (ufFind fuel p a).2)
          else ((ufFind fuel p a).2, (ufFind fuel (ufFind fuel p a).1 b).2)).1
          (sz (if sz (ufFind fuel p a).2 < sz (ufFind fuel (ufFind fuel p a).1 b).2 then
            ((ufFind fuel (ufFind fuel p a).1 b).2, (ufFind fuel p a).2)
          else ((ufFind fuel p a).2, (ufFind fuel (ufFind fuel p a).1 b).2)).1 +
           sz (if sz (ufFind fuel p a).2 < sz (ufFind fuel (ufFind fuel p a).1 b).2 then
            ((ufFind fuel (ufFind fuel p a).1 b).2, (ufFind fuel p a).2)
          else ((ufFind fuel p a).2, (ufFind fuel (ufFind fuel p a).1 b).2)).2))) := rfl
  by_cases hcase : (ufFind fuel p a).2 = (ufFind fuel (ufFind fuel p a).1 b).2
  · rw [hueq, if_pos hcase]
    have hab : SameRoot p a b := ⟨_, hra, hcase ▸ hrb⟩
    refine ⟨⟨m, meas_mono hmb (Nat.le_succ _)⟩, fun x y => ?_⟩
    have hsr : SameRoot (ufFind fuel (ufFind fuel p a).1 b).1 x y ↔ SameRoot p x y :=
      exists_congr (fun r => and_congr (hiff x r) (hiff y r))
    rw [hsr]
    constructor
    · exact fun h => Or.inl h
    · rintro (h | ⟨ha2, hb2⟩ | ⟨hb2, ha2⟩)
      · exact h
      · exact sameRoot_trans ha2 (sameRoot_trans hab (sameRoot_symm hb2))
      · exact sameRoot_trans hb2 (sameRoot_trans (sameRoot_symm hab) (sameRoot_symm ha2))
  · rw [hueq, if_neg hcase]
    by_cases hsz : sz (ufFind fuel p a).2 < sz (ufFind fuel (ufFind fuel p a).1 b).2
    · simp only [if_pos hsz]
      -- the larger root is rb: link ra under rb
      have hls := link_spec hmb hiff hrb hra (fun h => hcase h.symm)
      refine ⟨hls.1, fun x y => (hls.2 x y).trans ?_⟩
      constructor
      · rintro (h | ⟨hb2, ha2⟩ | ⟨ha2, hb2⟩)
        · exact Or.inl h
        · exact Or.inr (Or.inr ⟨hb2, ha2⟩)
        · exact Or.inr (Or.inl ⟨ha2, hb2⟩)
      · rintro (h | ⟨ha2, hb2⟩ | ⟨hb2, ha2⟩)
        · exact Or.inl h
        · exact Or.inr (Or.inr ⟨ha2, hb2⟩)
        · exact Or.inr (Or.inl ⟨hb2, ha2⟩)
    · simp only [if_neg hsz]
      exact link_spec hmb hiff hra hrb hcase

theorem conn_nil (x y : String) : Conn [] x y ↔ x = y := by
  constructor
  · intro h
    induction h with
    | rel u v huv => exact absurd huv (List.not_mem_nil _)
    | refl u => rfl
    | symm u v _ ih => exact ih.symm
    | trans u v w _ _ ih1 ih2 => exact ih1.trans ih2
  · rintro rfl
    exact Relation.EqvGen.refl x

theorem conn_mono {E : List (String × String)} (e : String × String) {x y : String}
    (h : Conn E x y) : Conn (E ++ [e]) x y :=
  Relation.EqvGen.mono (fun _ _ huv => List.mem_append_left _ huv) h

/-- Adding the edge `(a, b)` joins exactly the classes of `a` and `b`. -/
theorem conn_append_single (E : List (String × String)) (a b x y : String) :
    Conn (E ++ [(a, b)]) x y ↔
      (Conn E x y ∨ (Conn E x a ∧ Conn E b y) ∨ (Conn E x b ∧ Conn E a y)) := by
  constructor
  · intro h
    induction h with
    | rel u v huv =>
      rcases List.mem_append.1 huv with h | h
      · exact Or.inl (Relation.EqvGen.rel _ _ h)
      · rw [List.mem_singleton, Prod.mk.injEq] at h
        obtain ⟨rfl, rfl⟩ := h
        exact Or.inr (Or.inl ⟨Relation.EqvGen.refl _, Relation.EqvGen.refl _⟩)
    | refl u => exact Or.inl (Relation.EqvGen.refl u)
    | symm u v _ ih =>
      rcases ih with h | ⟨h1, h2⟩ | ⟨h1, h2⟩
      · exact Or.inl (Relation.EqvGen.symm _ _ h)
      · exact Or.inr (Or.inr ⟨Relation.EqvGen.symm _ _ h2, Relation.EqvGen.symm _ _ h1⟩)
      · exact Or.inr (Or.inl ⟨Relation.EqvGen.symm _ _ h2, Relation.EqvGen.symm _ _ h1⟩)
    | trans u v w _ _ ih1 ih2 =>
      rcases ih1 with h1 | ⟨h1, h2⟩ | ⟨h1, h2⟩ <;>
        rcases ih2 with h3 | ⟨h3, h4⟩ | ⟨h3, h4⟩
      · exact Or.inl (Relation.EqvGen.trans _ _ _ h1 h3)
      · exact Or.inr (Or.inl ⟨Relation.EqvGen.trans _ _ _ h1 h3, h4⟩)
      · exact Or.inr (Or.inr ⟨Relation.EqvGen.trans _ _ _ h1 h3, h4⟩)
      · exact Or.inr (Or.inl ⟨h1, Relation.EqvGen.trans _ _ _ h2 h3⟩)
      · exact Or.inl (Relation.EqvGen.trans _ _ _ h1
          (Relation.EqvGen.trans _ _ _
            (Relation.EqvGen.symm _ _ (Relation.EqvGen.trans _ _ _ h2 h3)) h4))
      · exact Or.inl (Relation.EqvGen.trans _ _ _ h1 h4)
      · exact Or.inr (Or.inr ⟨h1, Relation.EqvGen.trans _ _ _ h2 h3⟩)
      · exact Or.inl (Relation.EqvGen.trans _ _ _ h1 h4)
      · exact Or.inl (Relation.EqvGen.trans _ _ _ h1
          (Relation.EqvGen.trans _ _ _
            (Relation.EqvGen.symm _ _ (Relation.EqvGen.trans _ _ _ h2 h3)) h4))
  · have hrel : Conn (E ++ [(a, b)]) a b :=
      Relation.EqvGen.rel _ _ (List.mem_append_right _ (List.mem_singleton.2 rfl))
    rintro (h | ⟨h1, h2⟩ | ⟨h1, h2⟩)
    · exact conn_mono _ h
    · exact Relation.EqvGen.trans _ _ _ (conn_mono _ h1)
        (Relation.EqvGen.trans _ _ _ hrel (conn_mono _ h2))
    · exact Relation.EqvGen.trans _ _ _ (conn_mono _ h1)
        (Relation.EqvGen.trans _ _ _ (Relation.EqvGen.symm _ _ hrel) (conn_mono _ h2))

/-- Specification of the guarded union fold of _compute_components
(lines 343-345): starting from a state whose partition realises `Conn Epre`,
folding the edges `E2` (all inside the node set) yields a partition
realising `Conn (Epre ++ E2)`, with the measure bound growing by at most one
per edge. -/
theorem unions_spec (fuel : Nat) (V : List String) :
    ∀ (E2 Epre : List (String × String))
      (st : (String → String) × (String → Nat)) (B : Nat),
      (∃ m, Meas st.1 m B) →
      (∀ x y, SameRoot st.1 x y ↔ Conn Epre x y) →
      B + E2.length ≤ fuel →
      (∀ e ∈ E2, e.1 ∈ V ∧ e.2 ∈ V) →
      (∃ m, Meas (E2.foldl
        (fun st e => if V.contains e.1 && V.contains e.2 then ufUnion fuel st e.1 e.2
          else st) st).1 m (B + E2.length)) ∧
      (∀ x y, SameRoot (E2.foldl
        (fun st e => if V.contains e.1 && V.contains e.2 then ufUnion fuel st e.1 e.2
          else st) st).1 x y ↔ Conn (Epre ++ E2) x y) := by
  intro E2
  induction E2 with
  | nil =>
    intro Epre st B hm hinv hfuel hE
    simpa using ⟨hm, hinv⟩
  | cons e rest ih =>
    intro Epre st B hm hinv hfuel hE
    obtain ⟨p, sz⟩ := st
    obtain ⟨m, hmm⟩ := hm
    obtain ⟨he1, he2⟩ := hE e (List.mem_cons_self _ _)
    have hguard : (V.contains e.1 && V.contains e.2) = true := by
      rw [Bool.and_eq_true]
      exact ⟨List.elem_iff.mpr he1, List.elem_iff.mpr he2⟩
    rw [List.foldl_cons, hguard]
    simp only [if_true]
    have hfuel1 : B ≤ fuel := by
      have := List.length_cons e rest
      omega
    have hu := @ufUnion_spec p sz m B fuel (show Meas p m B from hmm) hfuel1 e.1 e.2
    have hinv' : ∀ x y, SameRoot (ufUnion fuel (p, sz) e.1 e.2).1 x y ↔
        Conn (Epre ++ [e]) x y := by
      intro x y
      rw [hu.2 x y, conn_append_single, hinv x y, hinv x e.1, hinv y e.2,
        hinv x e.2, hinv y e.1]
      constructor
      · rintro (h | ⟨h1, h2⟩ | ⟨h1, h2⟩)
        · exact Or.inl h
        · exact Or.inr (Or.inl ⟨h1, Relation.EqvGen.symm _ _ h2⟩)
        · exact Or.inr (Or.inr ⟨h1, Relation.EqvGen.symm _ _ h2⟩)
      · rintro (h | ⟨h1, h2⟩ | ⟨h1, h2⟩)
        · exact Or.inl h
        · exact Or.inr (Or.inl ⟨h1, Relation.EqvGen.symm _ _ h2⟩)
        · exact Or.inr (Or.inr ⟨h1, Relation.EqvGen.symm _ _ h2⟩)
    have hres := ih (Epre ++ [e]) (ufUnion fuel (p, sz) e.1 e.2) (B + 1) hu.1 hinv'
      (by have := List.length_cons e rest; omega)
      (fun e' he' => hE e' (List.mem_cons_of_mem _ he'))
    have hlen : B + 1 + rest.length = B + (e :: rest).length := by
      rw [List.length_cons]
      omega
    have happ : (Epre ++ [e]) ++ rest = Epre ++ e :: rest := by
      rw [List.append_assoc, List.singleton_append]
    rw [hlen, happ] at hres
    exact hres

/-! ### Ordered-dict lemmas -/

theorem dictGet_map_set {K V : Type} [DecidableEq K] (d : List (K × V)) (k : K) (v : V) :
    dictGet (d.map (fun kv => if kv.1 = k then (k, v) else kv)) k =
      if dictMem d k then some v else none := by
  induction d with
  | nil => rfl
  | cons kv d ih =>
    simp only [List.map_cons]
    by_cases h : kv.1 = k
    · rw [if_pos h]
      simp only [dictGet, dictMem, List.any_cons]
      rw [List.find?_cons_of_pos _ (by simp)]
      simp [h]
    · rw [if_neg h]
      simp only [dictGet, dictMem, List.any_cons] at ih ⊢
      rw [List.find?_cons_of_neg _ (by simpa using h)]
      simp only [decide_eq_false h, Bool.false_or]
      exact ih

theorem dictGet_map_set_ne {K V : Type} [DecidableEq K] (d : List (K × V)) (k k' : K)
    (v : V) (hne : k' ≠ k) :
    dictGet (d.map (fun kv => if kv.1 = k then (k, v) else kv)) k' = dictGet d k' := by
  induction d with
  | nil => rfl
  | cons kv d ih =>
    simp only [List.map_cons]
    by_cases h : kv.1 = k
    · rw [if_pos h]
      simp only [dictGet]
      rw [List.find?_cons_of_neg _ (by simp; exact fun hc => hne hc.symm),
        List.find?_cons_of_neg _ (by simp [h]; exact fun hc => hne hc.symm)]
      exact ih
    · rw [if_neg h]
      simp only [dictGet] at ih ⊢
      by_cases h2 : kv.1 = k'
      · rw [List.find?_cons_of_pos _ (by simp [h2]), List.find?_cons_of_pos _ (by simp [h2])]
      · rw [List.find?_cons_of_neg _ (by simpa using h2),
          List.find?_cons_of_neg _ (by simpa using h2)]
        exact ih

theorem dictGet_append_single_self {K V : Type} [DecidableEq K] (d : List (K × V))
    (k : K) (v : V) (h : dictMem d k = false) :
    dictGet (d ++ [(k, v)]) k = some v := by
  induction d with
  | nil =>
    simp only [List.nil_append, dictGet]
    rw [List.find?_cons_of_pos _ (by simp)]
    rfl
  | cons kv d ih =>
    simp only [dictMem, List.any_cons, Bool.or_eq_false_iff] at h
    simp only [List.cons_append, dictGet]
    rw [List.find?_cons_of_neg _ (by simpa using h.1)]
    exact ih h.2

theorem dictGet_append_single_ne {K V : Type} [DecidableEq K] (d : List (K × V))
    (k k' : K) (v : V) (hne : k' ≠ k) :
    dictGet (d ++ [(k, v)]) k' = dictGet d k' := by
  induction d with
  | nil =>
    simp only [List.nil_append, dictGet]
    rw [List.find?_cons_of_neg _ (by simp; exact fun hc => hne hc.symm)]
  | cons kv d ih =>
    simp only [List.cons_append, dictGet] at ih ⊢
    by_cases h2 : kv.1 = k'
    · rw [List.find?_cons_of_pos _ (by simp [h2]), List.find?_cons_of_pos _ (by simp [h2])]
    · rw [List.find?_cons_of_neg _ (by simpa using h2),
        List.find?_cons_of_neg _ (by simpa using h2)]
      exact ih

theorem dictGet_dictSet_self {K V : Type} [DecidableEq K] (d : List (K × V)) (k : K) (v : V) :
    dictGet (dictSet d k v) k = some v := by
  rw [dictSet]
  by_cases h : dictMem d k
  · rw [if_pos h, dictGet_map_set, if_pos h]
  · rw [if_neg h]
    exact dictGet_append_single_self d k v (by simpa using h)

theorem dictGet_dictSet_ne {K V : Type} [DecidableEq K] (d : List (K × V)) (k k' : K)
    (v : V) (hne : k' ≠ k) : dictGet (dictSet d k v) k' = dictGet d k' := by
  rw [dictSet]
  by_cases h : dictMem d k
  · rw [if_pos h, dictGet_map_set_ne _ _ _ _ hne]
  · rw [if_neg h, dictGet_append_single_ne _ _ _ _ hne]

theorem dictMem_iff_get {K V : Type} [DecidableEq K] (d : List (K × V)) (k : K) :
    dictMem d k = true ↔ ∃ v, dictGet d k = some v := by
  induction d with
  | nil => simp [dictMem, dictGet, List.find?]
  | cons kv d ih =>
    simp only [dictMem, List.any_cons, Bool.or_eq_true, dictGet, List.find?] at ih ⊢
    by_cases h : kv.1 = k
    · rw [decide_eq_true h]
      simp
    · rw [decide_eq_false h]
      simpa [h] using ih

theorem dictMem_dictSet {K V : Type} [DecidableEq K] (d : List (K × V)) (k k' : K) (v : V) :
    dictMem (dictSet d k v) k' = true ↔ (k' = k ∨ dictMem d k' = true) := by
  by_cases h : k' = k
  · subst h
    simp only [true_or, iff_true]
    rw [dictMem_iff_get]
    exact ⟨v, dictGet_dictSet_self d k' v⟩
  · rw [dictMem_iff_get, dictGet_dictSet_ne d k k' v h, ← dictMem_iff_get]
    simp [h]

theorem dictGet_mem_values {K V : Type} [DecidableEq K] {d : List (K × V)} {k : K} {v : V}
    (h : dictGet d k = some v) : v ∈ d.map Prod.snd := by
  rw [dictGet] at h
  obtain ⟨kv, hfind, rfl⟩ := Option.map_eq_some'.1 h
  exact List.mem_map_of_mem _ (List.mem_of_find?_eq_some hfind)

theorem dictGet_key_mem {K V : Type} [DecidableEq K] {d : List (K × V)} {k : K} {v : V}
    (h : dictGet d k = some v) : (k, v) ∈ d := by
  rw [dictGet] at h
  obtain ⟨kv, hfind, rfl⟩ := Option.map_eq_some'.1 h
  have hk := List.find?_some hfind
  have hmem := List.mem_of_find?_eq_some hfind
  have : kv.1 = k := by simpa using hk
  rwa [← this]

theorem dictMem_map_fst_set {K V : Type} [DecidableEq K] (d : List (K × V)) (k : K) (v : V)
    (h : dictMem d k = true) :
    (dictSet d k v).map Prod.fst = d.map Prod.fst := by
  rw [dictSet, if_pos h]
  rw [List.map_map]
  apply List.map_congr_left
  intro kv _
  by_cases hk : kv.1 = k
  · simp [hk]
  · simp [hk]

theorem dictSet_not_mem_append {K V : Type} [DecidableEq K] (d : List (K × V)) (k : K) (v : V)
    (h : dictMem d k = false) : dictSet d k v = d ++ [(k, v)] := by
  rw [dictSet, if_neg (by simp [h])]

theorem dictMem_iff_mem_keys {K V : Type} [DecidableEq K] (d : List (K × V)) (k : K) :
    dictMem d k = true ↔ k ∈ d.map Prod.fst := by
  rw [dictMem, List.any_eq_true]
  constructor
  · rintro ⟨kv, hmem, hk⟩
    exact (by simpa using hk : kv.1 = k) ▸ List.mem_map_of_mem _ hmem
  · intro h
    obtain ⟨kv, hmem, hk⟩ := List.mem_map.1 h
    exact ⟨kv, hmem, by simpa using hk⟩

/-- The invariant of the compact-id assignment loop (lines 347-360), after
the prefix `Vp` of the node-id list has been processed.  `P` is any parent
map with the loop's root assignment (the parent map as left by the union
phase). -/
structure AssignInv (P : String → String) (B : Nat) (Vp : List String)
    (st : CompAssignSt) : Prop where
  meas : ∃ m, Meas st.parent m B
  roots : ∀ y s, ReachesRoot st.parent y s ↔ ReachesRoot P y s
  vals : st.root_to_comp.map Prod.snd = List.range st.next_id
  keysnd : (st.root_to_comp.map Prod.fst).Nodup
  keyroot : ∀ r c, dictGet st.root_to_comp r = some c → P r = r
  mem_iff : ∀ r, dictMem st.root_to_comp r = true ↔ ∃ n, n ∈ Vp ∧ ReachesRoot P n r
  ntc_mem : ∀ n, dictMem st.node_to_comp n = true ↔ n ∈ Vp
  ntc_root : ∀ n c, dictGet st.node_to_comp n = some c →
    ∃ r, ReachesRoot P n r ∧ dictGet st.root_to_comp r = some c
  ntc_coh : ∀ n r c, n ∈ Vp → ReachesRoot P n r → dictGet st.root_to_comp r = some c →
    dictGet st.node_to_comp n = some c
  ntc_lt : ∀ n c, dictGet st.node_to_comp n = some c → c < st.next_id
  cs_keys : st.comp_sizes.map Prod.fst = List.range st.next_id
  order : ∀ i j (hi : i < Vp.length) (hj : j < Vp.length), i < j →
    (∀ l (hl : l < i), ¬ SameRoot P (Vp.get ⟨l, lt_trans hl hi⟩) (Vp.get ⟨i, hi⟩)) →
    (∀ l (hl : l < j), ¬ SameRoot P (Vp.get ⟨l, lt_trans hl hj⟩) (Vp.get ⟨j, hj⟩)) →
    ∀ ci cj, dictGet st.node_to_comp (Vp.get ⟨i, hi⟩) = some ci →
      dictGet st.node_to_comp (Vp.get ⟨j, hj⟩) = some cj → ci < cj

theorem get_append_single_lt {α : Type} (l : List α) (a : α) (i : Nat)
    (hi : i < l.length) (hi' : i < (l ++ [a]).length) :
    (l ++ [a]).get ⟨i, hi'⟩ = l.get ⟨i, hi⟩ := by
  rw [List.get_eq_getElem, List.get_eq_getElem]
  exact List.getElem_append_left hi

theorem get_append_single_last {α : Type} (l : List α) (a : α)
    (h : l.length < (l ++ [a]).length) :
    (l ++ [a]).get ⟨l.length, h⟩ = a := by
  rw [List.get_eq_getElem]
  exact List.getElem_concat_length l a _ rfl _

/-- One step of the assignment loop preserves the invariant. -/
theorem assignStep_inv {P : String → String} {B fuel : Nat} (hBf : B ≤ fuel)
    {Vp : List String} {st : CompAssignSt} (hinv : AssignInv P B Vp st) (n : String) :
    AssignInv P B (Vp ++ [n]) (assignStep fuel st n) := by
  obtain ⟨m, hm⟩ := hinv.meas
  obtain ⟨hrootp, hiffp, hmp⟩ :=
    ufFind_spec fuel st.parent n hm (le_trans hBf (Nat.le_add_right _ _))
  have hPn : ReachesRoot P n (ufFind fuel st.parent n).2 :=
    (hinv.roots _ _).1 hrootp
  have hiff2 : ∀ y s, ReachesRoot (ufFind fuel st.parent n).1 y s ↔ ReachesRoot P y s :=
    fun y s => (hiffp y s).trans (hinv.roots y s)
  by_cases hmem : dictMem st.root_to_comp (ufFind fuel st.parent n).2 = true
  · obtain ⟨c, hc⟩ := (dictMem_iff_get _ _).1 hmem
    have hcd : dictGetD st.root_to_comp (ufFind fuel st.parent n).2 0 = c := by
      rw [dictGetD, hc]
      rfl
    have heq : assignStep fuel st n =
        { parent := (ufFind fuel st.parent n).1,
          root_to_comp := st.root_to_comp,
          node_to_comp := dictSet st.node_to_comp n c,
          comp_sizes := dictSet st.comp_sizes c (dictGetD st.comp_sizes c 0 + 1),
          next_id := st.next_id } := by
      simp only [assignStep, hmem, if_true, hcd]
    rw [heq]
    have hpres : ∀ v, v ∈ Vp →
        dictGet (dictSet st.node_to_comp n c) v = dictGet st.node_to_comp v := by
      intro v hv
      by_cases hvn : v = n
      · subst hvn
        rw [dictGet_dictSet_self]
        exact (hinv.ntc_coh v _ c hv hPn hc).symm
      · exact dictGet_dictSet_ne _ _ _ _ hvn
    refine ⟨⟨m, hmp⟩, hiff2, hinv.vals, hinv.keysnd, hinv.keyroot, ?_, ?_, ?_, ?_, ?_, ?_, ?_⟩
    all_goals dsimp only
    · intro r'
      rw [hinv.mem_iff r']
      constructor
      · rintro ⟨n', hn', hr'⟩
        exact ⟨n', List.mem_append_left _ hn', hr'⟩
      · rintro ⟨n', hn', hr'⟩
        rcases List.mem_append.1 hn' with h | h
        · exact ⟨n', h, hr'⟩
        · rw [List.mem_singleton] at h
          subst h
          obtain rfl := reachesRoot_unique hPn hr'
          exact (hinv.mem_iff _).1 hmem
    · intro n'
      rw [dictMem_dictSet, hinv.ntc_mem n']
      simp only [List.mem_append, List.mem_singleton]
      exact or_comm
    · intro n' c' hc'
      by_cases hne : n' = n
      · subst hne
        rw [dictGet_dictSet_self] at hc'
        injection hc' with h
        subst h
        exact ⟨_, hPn, hc⟩
      · rw [dictGet_dictSet_ne _ _ _ _ hne] at hc'
        exact hinv.ntc_root n' c' hc'
    · intro n' r' c' hmemn hr' hrc
      by_cases hne : n' = n
      · subst hne
        rw [dictGet_dictSet_self]
        obtain rfl := reachesRoot_unique hr' hPn
        rw [hc] at hrc
        injection hrc with h
        rw [h]
      · rw [dictGet_dictSet_ne _ _ _ _ hne]
        have hmem2 : n' ∈ Vp := by
          rcases List.mem_append.1 hmemn with h | h
          · exact h
          · rw [List.mem_singleton] at h
            exact absurd h hne
        exact hinv.ntc_coh n' r' c' hmem2 hr' hrc
    · intro n' c' hc'
      by_cases hne : n' = n
      · subst hne
        rw [dictGet_dictSet_self] at hc'
        injection hc' with h
        subst h
        have hv := dictGet_mem_values hc
        rw [hinv.vals] at hv
        exact List.mem_range.1 hv
      · rw [dictGet_dictSet_ne _ _ _ _ hne] at hc'
        exact hinv.ntc_lt n' c' hc'
    · have hcval : c < st.next_id := by
        have hv := dictGet_mem_values hc
        rw [hinv.vals] at hv
        exact List.mem_range.1 hv
      rw [dictMem_map_fst_set]
      · exact hinv.cs_keys
      · rw [dictMem_iff_mem_keys, hinv.cs_keys]
        exact List.mem_range.2 hcval
    · intro i j hi hj hij hfdi hfdj ci cj hci hcj
      have hLen : (Vp ++ [n]).length = Vp.length + 1 := by
        rw [List.length_append, List.length_singleton]
      have hjVp : j < Vp.length := by
        rcases Nat.lt_or_ge j Vp.length with h | h
        · exact h
        · exfalso
          have hjl : j = Vp.length := by omega
          subst hjl
          obtain ⟨n', hn', hrn'⟩ := (hinv.mem_iff _).1 hmem
          obtain ⟨⟨l, hl⟩, hgl⟩ := List.mem_iff_get.1 hn'
          refine hfdj l hl ?_
          rw [get_append_single_lt Vp n l hl, get_append_single_last, hgl]
          exact ⟨_, hrn', hPn⟩
      have hiVp : i < Vp.length := lt_trans hij hjVp
      have hgi := get_append_single_lt Vp n i hiVp hi
      have hgj := get_append_single_lt Vp n j hjVp hj
      rw [hgi] at hci
      rw [hgj] at hcj
      rw [hpres _ (List.get_mem _ _ _)] at hci
      rw [hpres _ (List.get_mem _ _ _)] at hcj
      refine hinv.order i j hiVp hjVp hij ?_ ?_ ci cj hci hcj
      · intro l hl
        have := hfdi l hl
        rwa [get_append_single_lt Vp n l (lt_trans hl hiVp),
          get_append_single_lt Vp n i hiVp] at this
      · intro l hl
        have := hfdj l hl
        rwa [get_append_single_lt Vp n l (lt_trans hl hjVp),
          get_append_single_lt Vp n j hjVp] at this
  · -- new root discovered: it gets the next compact id
    have hnotin : n ∉ Vp := by
      intro hIn
      exact hmem ((hinv.mem_iff _).2 ⟨n, hIn, hPn⟩)
    have hmemf : dictMem st.root_to_comp (ufFind fuel st.parent n).2 = false := by
      simpa using hmem
    have hcd : dictGetD (dictSet st.root_to_comp (ufFind fuel st.parent n).2 st.next_id)
        (ufFind fuel st.parent n).2 0 = st.next_id := by
      rw [dictGetD, dictGet_dictSet_self]
      rfl
    have heq : assignStep fuel st n =
        { parent := (ufFind fuel st.parent n).1,
          root_to_comp := dictSet st.root_to_comp (ufFind fuel st.parent n).2 st.next_id,
          node_to_comp := dictSet st.node_to_comp n st.next_id,
          comp_sizes := dictSet (dictSet st.comp_sizes st.next_id 0) st.next_id
            (dictGetD (dictSet st.comp_sizes st.next_id 0) st.next_id 0 + 1),
          next_id := st.next_id + 1 } := by
      simp only [assignStep, hmemf, hcd]
      rfl
    rw [heq]
    have happ : dictSet st.root_to_comp (ufFind fuel st.parent n).2 st.next_id =
        st.root_to_comp ++ [((ufFind fuel st.parent n).2, st.next_id)] :=
      dictSet_not_mem_append _ _ _ hmemf
    have hpres : ∀ v, v ≠ n →
        dictGet (dictSet st.node_to_comp n st.next_id) v = dictGet st.node_to_comp v :=
      fun v hv => dictGet_dictSet_ne _ _ _ _ hv
    refine ⟨⟨m, hmp⟩, hiff2, ?_, ?_, ?_, ?_, ?_, ?_, ?_, ?_, ?_, ?_⟩
    all_goals dsimp only
    · rw [happ, List.map_append, hinv.vals, List.range_succ]
      rfl
    · rw [happ, List.map_append]
      rw [List.nodup_append]
      refine ⟨hinv.keysnd, List.nodup_singleton _, ?_⟩
      intro a ha hb
      rw [List.map_singleton, List.mem_singleton] at hb
      subst hb
      exact absurd ((dictMem_iff_mem_keys _ _).2 ha) (by simp [hmemf])
    · intro r' c' hr'c
      by_cases hne : r' = (ufFind fuel st.parent n).2
      · subst hne
        exact hPn.2
      · rw [dictGet_dictSet_ne _ _ _ _ hne] at hr'c
        exact hinv.keyroot r' c' hr'c
    · intro r'
      rw [dictMem_dictSet]
      constructor
      · rintro (h | h)
        · subst h
          exact ⟨n, List.mem_append_right _ (List.mem_singleton.2 rfl), hPn⟩
        · obtain ⟨n', hn', hr'⟩ := (hinv.mem_iff r').1 h
          exact ⟨n', List.mem_append_left _ hn', hr'⟩
      · rintro ⟨n', hn', hr'⟩
        rcases List.mem_append.1 hn' with h | h
        · exact Or.inr ((hinv.mem_iff r').2 ⟨n', h, hr'⟩)
        · rw [List.mem_singleton] at h
          subst h
          exact Or.inl (reachesRoot_unique hr' hPn)
    · intro n'
      rw [dictMem_dictSet, hinv.ntc_mem n']
      simp only [List.mem_append, List.mem_singleton]
      exact or_comm
    · intro n' c' hc'
      by_cases hne : n' = n
      · subst hne
        rw [dictGet_dictSet_self] at hc'
        injection hc' with h
        subst h
        exact ⟨_, hPn, dictGet_dictSet_self _ _ _⟩
      · rw [hpres n' hne] at hc'
        obtain ⟨r', hr', hrc⟩ := hinv.ntc_root n' c' hc'
        refine ⟨r', hr', ?_⟩
        by_cases hr2 : r' = (ufFind fuel st.parent n).2
        · subst hr2
          rw [(dictMem_iff_get _ _).2 ⟨c', hrc⟩] at hmemf
          exact absurd hmemf (by simp)
        · rw [dictGet_dictSet_ne _ _ _ _ hr2]
          exact hrc
    · intro n' r' c' hmemn hr' hrc
      by_cases hne : n' = n
      · subst hne
        rw [dictGet_dictSet_self]
        obtain rfl := reachesRoot_unique hr' hPn
        rw [dictGet_dictSet_self] at hrc
        injection hrc with h
        rw [h]
      · have hmem2 : n' ∈ Vp := by
          rcases List.mem_append.1 hmemn with h | h
          · exact h
          · rw [List.mem_singleton] at h
            exact absurd h hne
        rw [hpres n' hne]
        by_cases hr2 : r' = (ufFind fuel st.parent n).2
        · subst hr2
          exact absurd ((hinv.mem_iff _).2 ⟨n', hmem2, hr'⟩) (by simpa using hmemf)
        · rw [dictGet_dictSet_ne _ _ _ _ hr2] at hrc
          exact hinv.ntc_coh n' r' c' hmem2 hr' hrc
    · intro n' c' hc'
      by_cases hne : n' = n
      · subst hne
        rw [dictGet_dictSet_self] at hc'
        injection hc' with h
        omega
      · rw [hpres n' hne] at hc'
        exact lt_trans (hinv.ntc_lt n' c' hc') (Nat.lt_succ_self _)
    · have hnm : dictMem st.comp_sizes st.next_id = false := by
        rw [← Bool.not_eq_true, dictMem_iff_mem_keys, hinv.cs_keys]
        simp
      rw [dictMem_map_fst_set _ _ _ ((dictMem_dictSet _ _ _ _).2 (Or.inl rfl))]
      rw [dictSet_not_mem_append _ _ _ hnm, List.map_append, hinv.cs_keys,
        List.range_succ]
      rfl
    · intro i j hi hj hij hfdi hfdj ci cj hci hcj
      have hLen : (Vp ++ [n]).length = Vp.length + 1 := by
        rw [List.length_append, List.length_singleton]
      rcases Nat.lt_or_ge j Vp.length with hjVp | hge
      · have hiVp : i < Vp.length := lt_trans hij hjVp
        rw [get_append_single_lt Vp n i hiVp] at hci
        rw [get_append_single_lt Vp n j hjVp] at hcj
        have hniVp : Vp.get ⟨i, hiVp⟩ ≠ n := fun h => hnotin (h ▸ List.get_mem _ _ _)
        have hnjVp : Vp.get ⟨j, hjVp⟩ ≠ n := fun h => hnotin (h ▸ List.get_mem _ _ _)
        rw [hpres _ hniVp] at hci
        rw [hpres _ hnjVp] at hcj
        refine hinv.order i j hiVp hjVp hij ?_ ?_ ci cj hci hcj
        · intro l hl
          have := hfdi l hl
          rwa [get_append_single_lt Vp n l (lt_trans hl hiVp),
            get_append_single_lt Vp n i hiVp] at this
        · intro l hl
          have := hfdj l hl
          rwa [get_append_single_lt Vp n l (lt_trans hl hjVp),
            get_append_single_lt Vp n j hjVp] at this
      · have hjl : j = Vp.length := by omega
        subst hjl
        have hiVp : i < Vp.length := hij
        rw [get_append_single_last] at hcj
        rw [dictGet_dictSet_self] at hcj
        injection hcj with h
        subst h
        rw [get_append_single_lt Vp n i hiVp] at hci
        have hniVp : Vp.get ⟨i, hiVp⟩ ≠ n := fun h => hnotin (h ▸ List.get_mem _ _ _)
        rw [hpres _ hniVp] at hci
        exact hinv.ntc_lt _ _ hci

theorem assign_fold_inv {P : String → String} {B fuel : Nat} (hBf : B ≤ fuel) :
    ∀ (V2 Vp : List String) (st : CompAssignSt), AssignInv P B Vp st →
      AssignInv P B (Vp ++ V2) (V2.foldl (assignStep fuel) st) := by
  intro V2
  induction V2 with
  | nil =>
    intro Vp st h
    simpa using h
  | cons n rest ih =>
    intro Vp st h
    rw [List.foldl_cons]
    have hstep := ih (Vp ++ [n]) (assignStep fuel st n) (assignStep_inv hBf h n)
    rwa [List.append_assoc, List.singleton_append] at hstep

theorem assignInv_init {P : String → String} {B : Nat} (hm : ∃ m, Meas P m B) :
    AssignInv P B []
      { parent := P, root_to_comp := [], node_to_comp := [], comp_sizes := [],
        next_id := 0 } := by
  refine ⟨hm, fun y s => Iff.rfl, rfl, List.nodup_nil, ?_, ?_, ?_, ?_, ?_, ?_, rfl, ?_⟩
  · intro r c h
    simp [dictGet, List.find?] at h
  · intro r
    constructor
    · intro h
      simp [dictMem] at h
    · rintro ⟨n, hn, _⟩
      simp at hn
  · intro n
    constructor
    · intro h
      simp [dictMem] at h
    · intro h
      simp at h
  · intro n c h
    simp [dictGet, List.find?] at h
  · intro n r c h
    simp at h
  · intro n c h
    simp [dictGet, List.find?] at h
  · intro i j hi
    simp at hi

theorem sameRoot_id (x y : String) : SameRoot (fun n => n) x y ↔ x = y := by
  constructor
  · rintro ⟨r, ⟨⟨k, hk⟩, _⟩, ⟨⟨l, hl⟩, _⟩⟩
    have h1 : (fun n : String => n)^[k] x = x := Function.iterate_fixed rfl k
    have h2 : (fun n : String => n)^[l] y = y := Function.iterate_fixed rfl l
    rw [h1] at hk
    rw [h2] at hl
    rw [hk, hl]
  · rintro rfl
    exact ⟨x, reachesRoot_self rfl, reachesRoot_self rfl⟩

theorem dictGet_of_mem_nodup {K V : Type} [DecidableEq K] {d : List (K × V)} {k : K}
    {v : V} (hnd : (d.map Prod.fst).Nodup) (h : (k, v) ∈ d) : dictGet d k = some v := by
  induction d with
  | nil => exact absurd h (List.not_mem_nil _)
  | cons kv d ih =>
    rw [List.map_cons, List.nodup_cons] at hnd
    rcases List.mem_cons.1 h with h1 | h1
    · subst h1
      rw [dictGet]
      rw [List.find?_cons_of_pos _ (by simp)]
      rfl
    · have hk : kv.1 ≠ k := by
        intro hc
        exact hnd.1 (hc ▸ List.mem_map_of_mem Prod.fst h1)
      rw [dictGet]
      rw [List.find?_cons_of_neg _ (by simpa using hk)]
      exact ih hnd.2 h1

/-- Distinct keys of the root dictionary carry distinct compact ids, so a
shared id forces a shared root. -/
theorem rtc_value_inj {rtc : List (String × Nat)} {next : Nat}
    (hvals : rtc.map Prod.snd = List.range next)
    {r r' : String} {c : Nat} (h : dictGet rtc r = some c)
    (h' : dictGet rtc r' = some c) : r = r' := by
  have hm := dictGet_key_mem h
  have hm' := dictGet_key_mem h'
  have hnd : (rtc.map Prod.snd).Nodup := by
    rw [hvals]
    exact List.nodup_range _
  have hpair := List.inj_on_of_nodup_map hnd hm hm' (by rfl)
  exact congrArg Prod.fst hpair

/-- Master specification of `_compute_components` on a well-formed graph
(every edge endpoint in the node list): every listed node gets exactly one
compact id; ids agree exactly with undirected connectivity; ids are
`0 .. k-1` where `k` is the number of components (`comp_sizes.length`),
each id inhabited; and ids are ordered by first discovery along the
node-id list. -/
theorem compute_components_spec (V : List String) (E : List (String × String))
    (hE : ∀ e ∈ E, e.1 ∈ V ∧ e.2 ∈ V) :
    (∀ x, x ∈ V → ∃ c, dictGet (_compute_components V E).1 x = some c) ∧
    (∀ x c, dictGet (_compute_components V E).1 x = some c → x ∈ V) ∧
    (∀ x y cx cy, dictGet (_compute_components V E).1 x = some cx →
      dictGet (_compute_components V E).1 y = some cy → (cx = cy ↔ Conn E x y)) ∧
    (∀ x c, dictGet (_compute_components V E).1 x = some c →
      c < (_compute_components V E).2.length) ∧
    (∀ c, c < (_compute_components V E).2.length →
      ∃ x, x ∈ V ∧ dictGet (_compute_components V E).1 x = some c) ∧
    (∀ i j (hi : i < V.length) (hj : j < V.length), i < j →
      (∀ l (hl : l < i), ¬ Conn E (V.get ⟨l, lt_trans hl hi⟩) (V.get ⟨i, hi⟩)) →
      (∀ l (hl : l < j), ¬ Conn E (V.get ⟨l, lt_trans hl hj⟩) (V.get ⟨j, hj⟩)) →
      ∀ ci cj, dictGet (_compute_components V E).1 (V.get ⟨i, hi⟩) = some ci →
        dictGet (_compute_components V E).1 (V.get ⟨j, hj⟩) = some cj → ci < cj) := by
  have hfuel : 1 + E.length ≤ compFuel V E := by
    rw [compFuel]
    omega
  have hinit_meas : ∃ m, Meas (fun n : String => n) m 1 :=
    ⟨fun _ => 0, ⟨fun x hx => absurd rfl hx, fun _ => Nat.zero_lt_one⟩⟩
  have hinit_inv : ∀ x y, SameRoot (fun n : String => n) x y ↔ Conn [] x y := by
    intro x y
    rw [sameRoot_id, conn_nil]
  obtain ⟨hUm, hUconn⟩ := unions_spec (compFuel V E) V E []
    ((fun n => n), (fun _ => 1)) 1 hinit_meas hinit_inv hfuel hE
  obtain ⟨mU, hmU⟩ := hUm
  rw [List.nil_append] at hUconn
  have hInv := assign_fold_inv (le_of_eq_of_le rfl hfuel) V []
    { parent := (E.foldl
        (fun st e => if V.contains e.1 && V.contains e.2 then
          ufUnion (compFuel V E) st e.1 e.2 else st)
        ((fun n => n), (fun _ => 1))).1,
      root_to_comp := [], node_to_comp := [], comp_sizes := [], next_id := 0 }
    (assignInv_init ⟨mU, hmU⟩)
  rw [List.nil_append] at hInv
  have hklen : (_compute_components V E).2.length =
      (V.foldl (assignStep (compFuel V E))
        { parent := (E.foldl
            (fun st e => if V.contains e.1 && V.contains e.2 then
              ufUnion (compFuel V E) st e.1 e.2 else st)
            ((fun n => n), (fun _ => 1))).1,
          root_to_comp := [], node_to_comp := [], comp_sizes := [],
          next_id := 0 }).next_id := by
    have h1 := congrArg List.length hInv.cs_keys
    rw [List.length_map, List.length_range] at h1
    exact h1
  refine ⟨?_, ?_, ?_, ?_, ?_, ?_⟩
  · intro x hx
    exact (dictMem_iff_get _ _).1 ((hInv.ntc_mem x).2 hx)
  · intro x c h
    exact (hInv.ntc_mem x).1 ((dictMem_iff_get _ _).2 ⟨c, h⟩)
  · intro x y cx cy hx hy
    obtain ⟨rx, hrx, hgx⟩ := hInv.ntc_root x cx hx
    obtain ⟨ry, hry, hgy⟩ := hInv.ntc_root y cy hy
    constructor
    · intro hceq
      subst hceq
      have hr : rx = ry := rtc_value_inj hInv.vals hgx hgy
      exact (hUconn x y).1 ⟨rx, hrx, hr ▸ hry⟩
    · intro hconn
      obtain ⟨r, hxr, hyr⟩ := (hUconn x y).2 hconn
      have h1 : rx = r := reachesRoot_unique hrx hxr
      have h2 : ry = r := reachesRoot_unique hry hyr
      rw [h1, ← h2] at hgx
      rw [hgx] at hgy
      injection hgy
  · intro x c h
    rw [hklen]
    exact hInv.ntc_lt x c h
  · intro c hc
    rw [hklen] at hc
    have hcm : c ∈ List.map Prod.snd
        (V.foldl (assignStep (compFuel V E))
          { parent := (E.foldl
              (fun st e => if V.contains e.1 && V.contains e.2 then
                ufUnion (compFuel V E) st e.1 e.2 else st)
              ((fun n => n), (fun _ => 1))).1,
            root_to_comp := [], node_to_comp := [], comp_sizes := [],
            next_id := 0 }).root_to_comp := by
      rw [hInv.vals]
      exact List.mem_range.2 hc
    obtain ⟨⟨r0, c0⟩, hpmem, hpsnd⟩ := List.mem_map.1 hcm
    dsimp only at hpsnd
    subst hpsnd
    have hget : dictGet _ r0 = some c0 := dictGet_of_mem_nodup hInv.keysnd hpmem
    obtain ⟨n, hnV, hnr⟩ := (hInv.mem_iff r0).1 ((dictMem_iff_get _ _).2 ⟨c0, hget⟩)
    exact ⟨n, hnV, hInv.ntc_coh n r0 c0 hnV hnr hget⟩
  · intro i j hi hj hij hfdi hfdj ci cj hci hcj
    refine hInv.order i j hi hj hij ?_ ?_ ci cj hci hcj
    · intro l hl hsr
      exact hfdi l hl ((hUconn _ _).1 hsr)
    · intro l hl hsr
      exact hfdj l hl ((hUconn _ _).1 hsr)

/-! ### Stable sort lemmas -/

theorem mem_stableInsert {α : Type} (le : α → α → Bool) (x a : α) :
    ∀ l : List α, a ∈ stableInsert le x l ↔ a = x ∨ a ∈ l := by
  intro l
  induction l with
  | nil => simp [stableInsert]
  | cons y ys ih =>
    rw [stableInsert]
    by_cases h : le y x
    · rw [if_pos h]
      simp only [List.mem_cons, ih]
      constructor
      · rintro (h1 | h1 | h1)
        · exact Or.inr (Or.inl h1)
        · exact Or.inl h1
        · exact Or.inr (Or.inr h1)
      · rintro (h1 | h1 | h1)
        · exact Or.inr (Or.inl h1)
        · exact Or.inl h1
        · exact Or.inr (Or.inr h1)
    · rw [if_neg h]
      simp [List.mem_cons]

theorem stableInsert_perm {α : Type} (le : α → α → Bool) (x : α) :
    ∀ l : List α, (stableInsert le x l).Perm (x :: l) := by
  intro l
  induction l with
  | nil => rfl
  | cons y ys ih =>
    rw [stableInsert]
    by_cases h : le y x
    · rw [if_pos h]
      exact (List.Perm.cons y ih).trans (List.Perm.swap x y ys)
    · rw [if_neg h]

theorem pySorted_perm {α : Type} (le : α → α → Bool) (l : List α) :
    (pySorted le l).Perm l := by
  suffices h : ∀ (l acc : List α),
      (l.foldl (fun acc x => stableInsert le x acc) acc).Perm (acc ++ l) by
    simpa using h l []
  intro l
  induction l with
  | nil => simp
  | cons x xs ih =>
    intro acc
    rw [List.foldl_cons]
    refine (ih (stableInsert le x acc)).trans ?_
    refine (List.Perm.append_right xs (stableInsert_perm le x acc)).trans ?_
    rw [List.cons_append]
    exact List.perm_middle.symm

theorem stableInsert_sorted {α : Type} (le : α → α → Bool)
    (htot : ∀ a b, le a b = true ∨ le b a = true)
    (htr : ∀ a b c, le a b = true → le b c = true → le a c = true) (x : α) :
    ∀ l : List α, l.Pairwise (fun a b => le a b = true) →
      (stableInsert le x l).Pairwise (fun a b => le a b = true) := by
  intro l
  induction l with
  | nil =>
    intro _
    simp [stableInsert]
  | cons y ys ih =>
    intro hs
    rw [List.pairwise_cons] at hs
    rw [stableInsert]
    by_cases h : le y x
    · rw [if_pos h]
      rw [List.pairwise_cons]
      refine ⟨?_, ih hs.2⟩
      intro a ha
      rcases (mem_stableInsert le x a ys).1 ha with rfl | ha
      · exact h
      · exact hs.1 a ha
    · rw [if_neg h]
      have hxy : le x y = true := by
        rcases htot x y with h1 | h1
        · exact h1
        · exact absurd h1 (by simpa using h)
      rw [List.pairwise_cons]
      refine ⟨?_, List.pairwise_cons.2 hs⟩
      intro a ha
      rcases List.mem_cons.1 ha with rfl | ha
      · exact hxy
      · exact htr x y a hxy (hs.1 a ha)

theorem pySorted_sorted {α : Type} (le : α → α → Bool)
    (htot : ∀ a b, le a b = true ∨ le b a = true)
    (htr : ∀ a b c, le a b = true → le b c = true → le a c = true) (l : List α) :
    (pySorted le l).Pairwise (fun a b => le a b = true) := by
  suffices h : ∀ (l acc : List α), acc.Pairwise (fun a b => le a b = true) →
      (l.foldl (fun acc x => stableInsert le x acc) acc).Pairwise
        (fun a b => le a b = true) by
    exact h l [] List.Pairwise.nil
  intro l
  induction l with
  | nil =>
    intro acc h
    simpa using h
  | cons x xs ih =>
    intro acc h
    rw [List.foldl_cons]
    exact ih (stableInsert le x acc) (stableInsert_sorted le htot htr x acc h)

theorem mem_pySorted {α : Type} (le : α → α → Bool) (l : List α) (a : α) :
    a ∈ pySorted le l ↔ a ∈ l :=
  (pySorted_perm le l).mem_iff

/-! ### Totality and transitivity of the comparison functions -/

theorem listCharLe_total : ∀ a b : List Char, listCharLe a b = true ∨ listCharLe b a = true := by
  intro a
  induction a with
  | nil => intro b; left; rfl
  | cons c cs ih =>
    intro b
    cases b with
    | nil => right; rfl
    | cons d ds =>
      rw [listCharLe, listCharLe]
      rcases Nat.lt_trichotomy c.toNat d.toNat with h | h | h
      · left
        rw [if_pos h]
      · rw [if_neg (by omega), if_neg (by omega), if_neg (by omega), if_neg (by omega)]
        exact ih ds
      · right
        rw [if_pos h]

theorem listCharLe_trans : ∀ a b c : List Char,
    listCharLe a b = true → listCharLe b c = true → listCharLe a c = true := by
  intro a
  induction a with
  | nil => intro b c _ _; rfl
  | cons x xs ih =>
    intro b c hab hbc
    cases b with
    | nil => exact absurd hab (by simp [listCharLe])
    | cons y ys =>
      cases c with
      | nil => exact absurd hbc (by simp [listCharLe])
      | cons z zs =>
        rw [listCharLe] at hab hbc ⊢
        rcases Nat.lt_trichotomy x.toNat y.toNat with h1 | h1 | h1
        · rcases Nat.lt_trichotomy y.toNat z.toNat with h2 | h2 | h2
          · rw [if_pos (by omega)]
          · rw [if_pos (by omega)]
          · rw [if_neg (by omega), if_pos h2] at hbc
            exact absurd hbc (by simp)
        · rcases Nat.lt_trichotomy y.toNat z.toNat with h2 | h2 | h2
          · rw [if_pos (by omega)]
          · rw [if_neg (by omega), if_neg (by omega)]
            rw [if_neg (by omega), if_neg (by omega)] at hab
            rw [if_neg (by omega), if_neg (by omega)] at hbc
            exact ih ys zs hab hbc
          · rw [if_neg (by omega), if_pos h2] at hbc
            exact absurd hbc (by simp)
        · rw [if_neg (by omega), if_pos h1] at hab
          exact absurd hab (by simp)

theorem pyStrLe_total (a b : String) : pyStrLe a b = true ∨ pyStrLe b a = true :=
  listCharLe_total a.toList b.toList

theorem pyStrLe_trans (a b c : String) (h1 : pyStrLe a b = true)
    (h2 : pyStrLe b c = true) : pyStrLe a c = true :=
  listCharLe_trans a.toList b.toList c.toList h1 h2

theorem protCntLe_total (a b : ComponentProteinCount) :
    protCntLe a b = true ∨ protCntLe b a = true := by
  rw [protCntLe, protCntLe]
  rcases Nat.lt_trichotomy a.count b.count with h | h | h
  · right
    simp [h]
  · rcases pyStrLe_total a.protein b.protein with h2 | h2 <;> simp [h, h2]
  · left
    simp [h]

theorem protCntLe_trans (a b c : ComponentProteinCount) (h1 : protCntLe a b = true)
    (h2 : protCntLe b c = true) : protCntLe a c = true := by
  rw [protCntLe] at h1 h2 ⊢
  simp only [Bool.or_eq_true, Bool.and_eq_true, decide_eq_true_eq] at h1 h2 ⊢
  rcases h1 with h1 | ⟨h1e, h1s⟩ <;> rcases h2 with h2 | ⟨h2e, h2s⟩
  · exact Or.inl (lt_trans h2 h1)
  · exact Or.inl (h2e ▸ h1)
  · exact Or.inl (h1e ▸ h2)
  · exact Or.inr ⟨h1e.trans h2e, pyStrLe_trans _ _ _ h1s h2s⟩

/-! ### Anti-overlap: a no-movement sweep certifies pairwise separation -/

theorem sweepPair_cases (cfg : AntiOverlapCfg) (pos : LayoutPos) (a b : String) :
    (sweepPair cfg pos a b).2 = true ∨ sweepPair cfg pos a b = (pos, false) := by
  rw [sweepPair]
  dsimp only
  split_ifs <;> first | exact Or.inl rfl | exact Or.inr rfl

theorem sweepPair_no_move (cfg : AntiOverlapCfg) (pos : LayoutPos) (a b : String)
    (h : (sweepPair cfg pos a b).2 = false) : (sweepPair cfg pos a b).1 = pos := by
  rcases sweepPair_cases cfg pos a b with hc | hc
  · rw [hc] at h
    exact absurd h (by simp)
  · rw [hc]

theorem sweepInner_mono (cfg : AntiOverlapCfg) (a : String) :
    ∀ (bs : List String) (st : LayoutPos × Bool), st.2 = true →
      (sweepInner cfg a bs st).2 = true := by
  intro bs
  induction bs with
  | nil => intro st h; exact h
  | cons b rest ih =>
    intro st h
    rw [sweepInner]
    exact ih _ (by rw [h]; rfl)

theorem sweepOnce_mono (cfg : AntiOverlapCfg) :
    ∀ (ids : List String) (st : LayoutPos × Bool), st.2 = true →
      (sweepOnce cfg ids st).2 = true := by
  intro ids
  induction ids with
  | nil => intro st h; exact h
  | cons a rest ih =>
    intro st h
    rw [sweepOnce]
    exact ih _ (sweepInner_mono cfg a rest st h)

theorem sweepInner_no_move (cfg : AntiOverlapCfg) (a : String) :
    ∀ (bs : List String) (pos : LayoutPos),
      (sweepInner cfg a bs (pos, false)).2 = false →
      (sweepInner cfg a bs (pos, false)).1 = pos ∧
      ∀ b ∈ bs, (sweepPair cfg pos a b).2 = false := by
  intro bs
  induction bs with
  | nil =>
    intro pos _
    exact ⟨rfl, by intro b hb; exact absurd hb (List.not_mem_nil _)⟩
  | cons b rest ih =>
    intro pos h
    rw [sweepInner] at h
    by_cases hp : (sweepPair cfg pos a b).2 = true
    · exfalso
      have : (sweepInner cfg a rest
          ((sweepPair cfg pos a b).1, false || (sweepPair cfg pos a b).2)).2 = true := by
        apply sweepInner_mono
        rw [hp]
        rfl
      rw [this] at h
      exact absurd h (by simp)
    · have hp' : (sweepPair cfg pos a b).2 = false := by simpa using hp
      have hpos : (sweepPair cfg pos a b).1 = pos := sweepPair_no_move cfg pos a b hp'
      rw [hpos, hp'] at h
      simp only [Bool.or_false] at h
      obtain ⟨h1, h2⟩ := ih pos h
      refine ⟨?_, ?_⟩
      · rw [sweepInner, hpos, hp']
        simpa using h1
      · intro b' hb'
        rcases List.mem_cons.1 hb' with rfl | hb'
        · exact hp'
        · exact h2 b' hb'

theorem sweepOnce_no_move (cfg : AntiOverlapCfg) :
    ∀ (ids : List String) (pos : LayoutPos),
      (sweepOnce cfg ids (pos, false)).2 = false →
      (sweepOnce cfg ids (pos, false)).1 = pos ∧
      ids.Pairwise (fun x y => (sweepPair cfg pos x y).2 = false) := by
  intro ids
  induction ids with
  | nil =>
    intro pos _
    exact ⟨rfl, List.Pairwise.nil⟩
  | cons a rest ih =>
    intro pos h
    rw [sweepOnce] at h
    by_cases hin : (sweepInner cfg a rest (pos, false)).2 = true
    · exfalso
      have hmono := sweepOnce_mono cfg rest _ hin
      rw [hmono] at h
      exact absurd h (by simp)
    · have hin' : (sweepInner cfg a rest (pos, false)).2 = false := by simpa using hin
      obtain ⟨hpos, hpairs⟩ := sweepInner_no_move cfg a rest pos hin'
      have hinner : sweepInner cfg a rest (pos, false) = (pos, false) := by
        rw [Prod.ext_iff]
        exact ⟨hpos, hin'⟩
      rw [hinner] at h
      obtain ⟨h1, h2⟩ := ih pos h
      refine ⟨?_, List.Pairwise.cons hpairs h2⟩
      rw [sweepOnce, hinner]
      exact h1

theorem antiOverlapLoop_no_move (cfg : AntiOverlapCfg) (ids : List String) :
    ∀ (k : Nat) (pos : LayoutPos),
      (antiOverlapLoop cfg ids k pos).2 = true →
      ids.Pairwise (fun x y =>
        (sweepPair cfg (antiOverlapLoop cfg ids k pos).1 x y).2 = false) := by
  intro k
  induction k with
  | zero =>
    intro pos h
    exact absurd h (by simp [antiOverlapLoop])
  | succ k ih =>
    intro pos h
    rw [antiOverlapLoop] at h ⊢
    by_cases hs : (sweepOnce cfg ids (pos, false)).2 = true
    · rw [if_pos hs] at h ⊢
      exact ih _ h
    · rw [if_neg hs] at h ⊢
      have hs' : (sweepOnce cfg ids (pos, false)).2 = false := by simpa using hs
      obtain ⟨h1, h2⟩ := sweepOnce_no_move cfg ids pos hs'
      rw [h1]
      exact h2

/-! ### Claim C7: anti-overlap guarantees -/

def c7cCfg : AntiOverlapCfg :=
  { rect_sizes := [("a", (PyNum.ofInt 10, PyNum.ofInt 10)),
                   ("b", (PyNum.ofInt 10, PyNum.ofInt 10)),
                   ("c", (PyNum.ofInt 10, PyNum.ofInt 10))],
    radii := [], pad := PyNum.ofInt 2,
    pyhash := fun _ => 0, hyp := fun _ _ => PyNum.ofInt 0 }

def c7cPos : LayoutPos := fun n =>
  if n = "b" then (PyNum.ofInt 1, PyNum.ofInt 0)
  else if n = "c" then (PyNum.ofInt 2, PyNum.ofInt 0)
  else (PyNum.ofInt 0, PyNum.ofInt 0)

/-- C7 counterexample: the anti-overlap pass does NOT guarantee separation
for every positive footprint configuration and nonzero iteration budget.
Three 10×10 rectangles with pad 2 packed at x = 0, 1, 2 and a budget of one
sweep: the budget runs out (no no-movement sweep occurs) and nodes `a` and
`c` still overlap by the source's own footprint test after the pass. -/
theorem C7_counterexample :
    (antiOverlapPass c7cCfg ["a", "b", "c"] 1 c7cPos).2 = false ∧
    footprintsOverlap c7cCfg
      (antiOverlapPass c7cCfg ["a", "b", "c"] 1 c7cPos).1 "a" "c" = true := by
  decide

/-- C7 (amended): whenever the anti-overlap loop terminates early — i.e. a
full sweep over all unordered pairs moves nothing, which is exactly the
source's `moved = False` break on line 524 — the final positions place every
unordered pair of distinct listed nodes in non-overlapping footprints,
according to the very overlap test (rectangle AABB with padding, or circle
distance-sum with padding) the source uses to move pairs.  The starting
position map `pos0` is universally quantified (the primary force-directed
placement is computed by the external networkx library). -/
theorem C7_amended (cfg : AntiOverlapCfg) (ids : List String) (iters : Nat)
    (pos0 : LayoutPos) (h : (antiOverlapPass cfg ids iters pos0).2 = true) :
    ids.Pairwise (fun a b =>
      footprintsOverlap cfg (antiOverlapPass cfg ids iters pos0).1 a b = false) :=
  antiOverlapLoop_no_move cfg ids iters pos0 h

def c7wCfg : AntiOverlapCfg :=
  { rect_sizes := [("a", (PyNum.ofInt 10, PyNum.ofInt 10)),
                   ("b", (PyNum.ofInt 10, PyNum.ofInt 10))],
    radii := [], pad := PyNum.ofInt 2,
    pyhash := fun _ => 0, hyp := fun _ _ => PyNum.ofInt 0 }

def c7wPos : LayoutPos := fun n =>
  if n = "b" then (PyNum.ofInt 100, PyNum.ofInt 0)
  else (PyNum.ofInt 0, PyNum.ofInt 0)

/-- Witness for `C7_amended`: two 10×10 rectangles 100 apart, budget 1 —
the loop terminates early and the conclusion holds. -/
theorem C7_amended_witness :
    (antiOverlapPass c7wCfg ["a", "b"] 1 c7wPos).2 = true ∧
    List.Pairwise (fun a b =>
      footprintsOverlap c7wCfg (antiOverlapPass c7wCfg ["a", "b"] 1 c7wPos).1 a b = false)
      ["a", "b"] :=
  ⟨by decide, C7_amended c7wCfg ["a", "b"] 1 c7wPos (by decide)⟩

/-! ### Claim C8: absent node id fails with NotFound -/

theorem byNodeInfo_fold_mem (nm : NameMode) (n : String) :
    ∀ (ns : List CytoscapeNode)
      (acc : List String × List (String × String) × List (String × String)),
      (dictMem acc.2.1 n = true ↔ n ∈ acc.1) →
      (dictMem (ns.foldl (byNodeInfoStep nm) acc).2.1 n = true ↔
        n ∈ (ns.foldl (byNodeInfoStep nm) acc).1) := by
  intro ns
  induction ns with
  | nil => intro acc h; exact h
  | cons x rest ih =>
    intro acc h
    rw [List.foldl_cons]
    apply ih
    rw [byNodeInfoStep.eq_def]
    cases hid : dictGet x.data "id" with
    | none => exact h
    | some raw_id =>
      dsimp only
      rw [dictMem_dictSet, h, List.mem_append, List.mem_singleton]
      constructor
      · rintro (h1 | h1)
        · exact Or.inr h1
        · exact Or.inl h1
      · rintro (h1 | h1)
        · exact Or.inr h1
        · exact Or.inl h1

theorem byNodeNodeInfo_mem (nm : NameMode) (graph : CytoscapeGraph) (n : String) :
    dictMem (byNodeNodeInfo nm graph).2.1 n = true ↔ n ∈ (byNodeNodeInfo nm graph).1 := by
  rw [byNodeNodeInfo]
  exact byNodeInfo_fold_mem nm n graph.nodes ([], [], [])
    (by simp [dictMem])

/-- C8: when the requested node id is absent from the node-id set collected
from the supplied graph, `get_component_proteins_by_node` fails with a
NotFound error whose message names the node (line 601-603 of the source);
no other outcome — in particular no uncaught exception — is possible. -/
theorem C8_absent_node_not_found (sgd : List (String × String))
    (name_mode_param : Option NameMode) (fileContent : Option String)
    (node_id : String) (graph : CytoscapeGraph)
    (h : node_id ∉ (byNodeNodeInfo (name_mode_param.getD .systematic) graph).1) :
    get_component_proteins_by_node sgd name_mode_param fileContent node_id graph =
      .error (.notFound ("Node '" ++ node_id ++ "' not found in graph")) := by
  have hm : dictMem (byNodeNodeInfo (name_mode_param.getD .systematic) graph).2.1 node_id
      = false := by
    by_contra hc
    exact h ((byNodeNodeInfo_mem _ graph node_id).1 (by simpa using hc))
  rw [get_component_proteins_by_node]
  simp only [hm, Bool.not_false, if_true]

def c8Graph : CytoscapeGraph :=
  { nodes := [⟨[("id", PyVal.str "n1"), ("label", PyVal.str "ACT1")]⟩],
    edges := [] }

/-- Witness for `C8_absent_node_not_found`: a one-node graph and the
missing id `zzz`. -/
theorem C8_absent_node_not_found_witness :
    "zzz" ∉ (byNodeNodeInfo ((none : Option NameMode).getD .systematic) c8Graph).1 ∧
    get_component_proteins_by_node [] none none "zzz" c8Graph =
      .error (.notFound ("Node '" ++ "zzz" ++ "' not found in graph")) :=
  ⟨by decide, C8_absent_node_not_found [] none none "zzz" c8Graph (by decide)⟩

/-! ### Claim C6: per-node deduplicated token counting -/

theorem setAdd_nodup {α : Type} [DecidableEq α] (s : List α) (x : α)
    (h : s.Nodup) : (setAdd s x).Nodup := by
  rw [setAdd]
  by_cases hx : x ∈ s
  · rw [if_pos hx]
    exact h
  · rw [if_neg hx]
    rw [List.nodup_append]
    exact ⟨h, List.nodup_singleton _, by
      intro a ha hb
      rw [List.mem_singleton] at hb
      exact hx (hb ▸ ha)⟩

theorem setOfList_nodup {α : Type} [DecidableEq α] (xs : List α) :
    (setOfList xs).Nodup := by
  rw [setOfList]
  have : ∀ (l : List α) (s : List α), s.Nodup → (l.foldl setAdd s).Nodup := by
    intro l
    induction l with
    | nil => intro s h; exact h
    | cons a rest ih =>
      intro s h
      rw [List.foldl_cons]
      exact ih _ (setAdd_nodup s a h)
  exact this xs [] List.nodup_nil

theorem tokenize_label_nodup (name_mode : NameMode) (sgd : List (String × String))
    (label_text : String) : (tokenize_label name_mode sgd label_text).Nodup := by
  cases name_mode with
  | gene => exact List.Nodup.filter _ (setOfList_nodup _)
  | systematic => exact List.Nodup.filter _ (setOfList_nodup _)

/-- The protein-count component of one token step. -/
def pcBump (pc : List (String × Nat)) (token : String) : List (String × Nat) :=
  dictSet pc token (dictGetD pc token 0 + 1)

theorem byNodeTokenStep_fst (node_type : String)
    (acc : List (String × Nat) × List (String × List (String × Nat)))
    (token : String) : (byNodeTokenStep node_type acc token).1 = pcBump acc.1 token := rfl

theorem tokenFold_fst (node_type : String) :
    ∀ (toks : List String) (acc : List (String × Nat) × List (String × List (String × Nat))),
      (toks.foldl (byNodeTokenStep node_type) acc).1 = toks.foldl pcBump acc.1 := by
  intro toks
  induction toks with
  | nil => intro acc; rfl
  | cons tok rest ih =>
    intro acc
    rw [List.foldl_cons, List.foldl_cons, ih, byNodeTokenStep_fst]

theorem pcBump_fold_get (t : String) :
    ∀ (toks : List String) (pc : List (String × Nat)), toks.Nodup →
      dictGetD (toks.foldl pcBump pc) t 0 =
        dictGetD pc t 0 + (if t ∈ toks then 1 else 0) := by
  intro toks
  induction toks with
  | nil =>
    intro pc _
    simp
  | cons tok rest ih =>
    intro pc hnd
    rw [List.nodup_cons] at hnd
    rw [List.foldl_cons, ih _ hnd.2]
    by_cases ht : t = tok
    · subst ht
      have h1 : dictGetD (pcBump pc t) t 0 = dictGetD pc t 0 + 1 := by
        simp [pcBump, dictGetD, dictGet_dictSet_self]
      rw [h1, if_neg hnd.1, if_pos (List.mem_cons_self t rest)]
    · have h1 : dictGetD (pcBump pc tok) t 0 = dictGetD pc t 0 := by
        rw [pcBump, dictGetD, dictGet_dictSet_ne _ _ _ _ ht]
        exact rfl
      rw [h1]
      by_cases hr : t ∈ rest
      · rw [if_pos hr, if_pos (List.mem_cons_of_mem tok hr)]
      · rw [if_neg hr, if_neg (by
          intro hc
          rcases List.mem_cons.1 hc with hc | hc
          · exact ht hc
          · exact hr hc)]

theorem countFold_get (name_mode : NameMode) (sgd : List (String × String))
    (node_to_label node_to_type : List (String × String)) (t : String) :
    ∀ (comp : List String)
      (acc : List (String × Nat) × List (String × List (String × Nat))),
      dictGetD (comp.foldl (byNodeCountStep name_mode sgd node_to_label node_to_type) acc).1 t 0 =
        dictGetD acc.1 t 0 +
          comp.countP
            (fun n => decide (t ∈ tokenize_label name_mode sgd (dictGetD node_to_label n ""))) := by
  intro comp
  induction comp with
  | nil =>
    intro acc
    simp
  | cons n rest ih =>
    intro acc
    rw [List.foldl_cons, ih, List.countP_cons]
    have hstep : dictGetD (byNodeCountStep name_mode sgd node_to_label node_to_type acc n).1 t 0 =
        dictGetD acc.1 t 0 +
          (if t ∈ tokenize_label name_mode sgd (dictGetD node_to_label n "") then 1 else 0) := by
      rw [byNodeCountStep]
      rw [tokenFold_fst]
      exact pcBump_fold_get t _ acc.1 (tokenize_label_nodup _ _ _)
    rw [hstep]
    by_cases hmem : t ∈ tokenize_label name_mode sgd (dictGetD node_to_label n "")
    · rw [if_pos hmem, if_pos (by simpa using hmem)]
      omega
    · rw [if_neg hmem, if_neg (by simpa using hmem)]
      omega

/-- C6: in the per-component aggregation, a token repeated inside one
node's label counts once per node: for every component node list and label
and type dicts, the accumulated count of a token equals the number of
component nodes whose deduplicated tokenized label contains that token;
and on the spec's concrete example — labels "ACT1 MYO1", "ACT1", "SLA1" —
the token ACT1 has count 2, not 3. -/
theorem C6_token_count_once_per_node (name_mode : NameMode)
    (sgd : List (String × String)) (component_nodes : List String)
    (node_to_label node_to_type : List (String × String)) (t : String) :
    (dictGetD (byNodeCounts name_mode sgd component_nodes node_to_label node_to_type).1 t 0 =
      component_nodes.countP
        (fun n => decide (t ∈ tokenize_label name_mode sgd (dictGetD node_to_label n "")))) ∧
    dictGetD (byNodeCounts .systematic [] ["n1", "n2", "n3"]
        [("n1", "ACT1 MYO1"), ("n2", "ACT1"), ("n3", "SLA1")] []).1 "ACT1" 0 = 2 := by
  constructor
  · rw [byNodeCounts]
    have h := countFold_get name_mode sgd node_to_label node_to_type t component_nodes ([], [])
    rw [h]
    simp [dictGetD, dictGet]
  · decide

/-! ### Claim C9: sortedness of protein_counts and type-count sums -/

theorem dictSet_keys {K V : Type} [DecidableEq K] (d : List (K × V)) (k : K) (v : V) :
    (dictSet d k v).map Prod.fst =
      if dictMem d k then d.map Prod.fst else d.map Prod.fst ++ [k] := by
  rw [dictSet]
  by_cases h : dictMem d k
  · rw [if_pos h, if_pos h, List.map_map]
    apply List.map_congr_left
    intro kv _
    by_cases hk : kv.1 = k
    · simp [hk]
    · simp [hk]
  · rw [if_neg h, if_neg h, List.map_append]
    rfl

theorem dictSet_keys_nodup {K V : Type} [DecidableEq K] (d : List (K × V)) (k : K)
    (v : V) (h : (d.map Prod.fst).Nodup) : ((dictSet d k v).map Prod.fst).Nodup := by
  rw [dictSet_keys]
  by_cases hm : dictMem d k
  · rw [if_pos hm]
    exact h
  · rw [if_neg hm]
    rw [List.nodup_append]
    refine ⟨h, List.nodup_singleton _, ?_⟩
    intro a ha hb
    rw [List.mem_singleton] at hb
    subst hb
    exact absurd ((dictMem_iff_mem_keys d a).2 ha) (by simp [hm])

theorem mem_dictSet_elim {K V : Type} [DecidableEq K] {d : List (K × V)} {k : K}
    {v : V} {x : K × V} (h : x ∈ dictSet d k v) : x = (k, v) ∨ x ∈ d := by
  rw [dictSet] at h
  by_cases hm : dictMem d k
  · rw [if_pos hm] at h
    rcases List.mem_map.1 h with ⟨kv, hkv, hx⟩
    by_cases hk : kv.1 = k
    · rw [if_pos hk] at hx
      exact Or.inl hx.symm
    · rw [if_neg hk] at hx
      exact Or.inr (hx ▸ hkv)
  · rw [if_neg hm] at h
    rcases List.mem_append.1 h with h | h
    · exact Or.inr h
    · exact Or.inl (List.mem_singleton.1 h)

theorem dictGet_none_of_not_mem {K V : Type} [DecidableEq K] {d : List (K × V)}
    {k : K} (h : dictMem d k = false) : dictGet d k = none := by
  cases hg : dictGet d k with
  | none => rfl
  | some v =>
    rw [(dictMem_iff_get d k).2 ⟨v, hg⟩] at h
    exact absurd h (by simp)

theorem dictReplace_eq_self {K V : Type} [DecidableEq K] (k : K) (v : V) :
    ∀ (d : List (K × V)), k ∉ d.map Prod.fst →
      d.map (fun kv => if kv.1 = k then (k, v) else kv) = d := by
  intro d
  induction d with
  | nil => intro _; rfl
  | cons kv rest ih =>
    intro h
    rw [List.map_cons, List.mem_cons] at h
    push_neg at h
    rw [List.map_cons, if_neg (fun hc => h.1 hc.symm), ih h.2]

theorem dictSet_bump_sum {K : Type} [DecidableEq K] (k : K) :
    ∀ (d : List (K × Nat)), (d.map Prod.fst).Nodup →
      ((dictSet d k (dictGetD d k 0 + 1)).map Prod.snd).sum =
        (d.map Prod.snd).sum + 1 := by
  intro d
  induction d with
  | nil =>
    intro _
    simp [dictSet, dictMem, dictGetD, dictGet]
  | cons kv rest ih =>
    intro hnd
    rw [List.map_cons, List.nodup_cons] at hnd
    by_cases hk : kv.1 = k
    · have hmem : dictMem (kv :: rest) k = true := by
        simp [dictMem, hk]
      have hget : dictGetD (kv :: rest) k 0 = kv.2 := by
        simp [dictGetD, dictGet, List.find?_cons_of_pos, hk]
      rw [dictSet, if_pos hmem, List.map_cons, if_pos hk, hget]
      rw [dictReplace_eq_self k _ rest (hk ▸ hnd.1)]
      simp only [List.map_cons, List.sum_cons]
      omega
    · have hmm : dictMem (kv :: rest) k = dictMem rest k := by
        simp [dictMem, hk]
      have hgg : dictGetD (kv :: rest) k 0 = dictGetD rest k 0 := by
        simp [dictGetD, dictGet, List.find?_cons_of_neg, hk]
      by_cases hm : dictMem rest k = true
      · rw [dictSet, hmm, if_pos hm, List.map_cons, if_neg hk, hgg]
        have hrest := ih hnd.2
        rw [dictSet, if_pos hm] at hrest
        simp only [List.map_cons, List.sum_cons]
        rw [hrest]
        omega
      · have hm2 : dictMem (kv :: rest) k = false := by
          rw [hmm]
          simpa using hm
        have hg0 : dictGetD (kv :: rest) k 0 = 0 := by
          rw [dictGetD, dictGet_none_of_not_mem hm2]
          rfl
        rw [dictSet, hm2, hg0]
        simp
        omega

/-- Invariant of the counting loop of lines 659-672: all association keys
stay duplicate-free, and the per-type breakdown recorded for every token
sums to that token's count. -/
structure CntInv (acc : List (String × Nat) × List (String × List (String × Nat))) : Prop where
  pckeys : (acc.1.map Prod.fst).Nodup
  ptckeys : (acc.2.map Prod.fst).Nodup
  innerkeys : ∀ p inner, (p, inner) ∈ acc.2 → (inner.map Prod.fst).Nodup
  sums : ∀ t, ((dictGetD acc.2 t []).map Prod.snd).sum = dictGetD acc.1 t 0

theorem cntInv_setdefault (token : String)
    (acc : List (String × Nat) × List (String × List (String × Nat)))
    (h : CntInv acc) :
    CntInv (acc.1, if dictMem acc.2 token then acc.2 else dictSet acc.2 token []) := by
  by_cases hm : dictMem acc.2 token = true
  · rw [if_pos hm]
    exact ⟨h.pckeys, h.ptckeys, h.innerkeys, h.sums⟩
  · have hm' : dictMem acc.2 token = false := by simpa using hm
    rw [if_neg hm]
    refine ⟨h.pckeys, dictSet_keys_nodup _ _ _ h.ptckeys, ?_, ?_⟩
    · intro p i hpi
      rcases mem_dictSet_elim hpi with he | he
      · rw [Prod.mk.injEq] at he
        rw [he.2]
        exact List.nodup_nil
      · exact h.innerkeys p i he
    · intro t
      by_cases ht : t = token
      · subst ht
        have h1 : dictGetD (dictSet acc.2 t []) t [] = [] := by
          rw [dictGetD, dictGet_dictSet_self]
          rfl
        have h2 : dictGetD acc.2 t ([] : List (String × Nat)) = [] := by
          rw [dictGetD, dictGet_none_of_not_mem hm']
          rfl
        rw [h1]
        have := h.sums t
        rw [h2] at this
        simpa using this
      · have h1 : dictGetD (dictSet acc.2 token []) t [] = dictGetD acc.2 t [] := by
          rw [dictGetD, dictGetD, dictGet_dictSet_ne _ _ _ _ ht]
        rw [h1]
        exact h.sums t

theorem cntInv_bump (node_type token : String)
    (pc : List (String × Nat)) (ptc0 : List (String × List (String × Nat)))
    (h : CntInv (pc, ptc0)) :
    CntInv (dictSet pc token (dictGetD pc token 0 + 1),
      dictSet ptc0 token
        (dictSet (dictGetD ptc0 token []) node_type
          (dictGetD (dictGetD ptc0 token []) node_type 0 + 1))) := by
  have hinnernd : ((dictGetD ptc0 token []).map Prod.fst).Nodup := by
    cases hg : dictGet ptc0 token with
    | none =>
      rw [dictGetD, hg]
      exact List.nodup_nil
    | some i =>
      rw [dictGetD, hg]
      exact h.innerkeys token i (dictGet_key_mem hg)
  refine ⟨dictSet_keys_nodup _ _ _ h.pckeys, dictSet_keys_nodup _ _ _ h.ptckeys, ?_, ?_⟩
  · intro p i hpi
    rcases mem_dictSet_elim hpi with he | he
    · rw [Prod.mk.injEq] at he
      rw [he.2]
      exact dictSet_keys_nodup _ _ _ hinnernd
    · exact h.innerkeys p i he
  · intro t
    by_cases ht : t = token
    · subst ht
      have h1 : dictGetD (dictSet ptc0 t
          (dictSet (dictGetD ptc0 t []) node_type
            (dictGetD (dictGetD ptc0 t []) node_type 0 + 1))) t [] =
          dictSet (dictGetD ptc0 t []) node_type
            (dictGetD (dictGetD ptc0 t []) node_type 0 + 1) := by
        rw [dictGetD, dictGet_dictSet_self]
        rfl
      have h2 : dictGetD (dictSet pc t (dictGetD pc t 0 + 1)) t 0 = dictGetD pc t 0 + 1 := by
        rw [dictGetD, dictGet_dictSet_self]
        rfl
      rw [h1, h2, dictSet_bump_sum node_type _ hinnernd, h.sums t]
    · have h1 : dictGetD (dictSet ptc0 token
          (dictSet (dictGetD ptc0 token []) node_type
            (dictGetD (dictGetD ptc0 token []) node_type 0 + 1))) t [] =
          dictGetD ptc0 t [] := by
        rw [dictGetD, dictGet_dictSet_ne _ _ _ _ ht]
        exact rfl
      have h2 : dictGetD (dictSet pc token (dictGetD pc token 0 + 1)) t 0 =
          dictGetD pc t 0 := by
        rw [dictGetD, dictGet_dictSet_ne _ _ _ _ ht]
        exact rfl
      rw [h1, h2]
      exact h.sums t

theorem byNodeTokenStep_inv (node_type token : String)
    (acc : List (String × Nat) × List (String × List (String × Nat)))
    (h : CntInv acc) : CntInv (byNodeTokenStep node_type acc token) := by
  have h0 := cntInv_setdefault token acc h
  have h1 := cntInv_bump node_type token acc.1
    (if dictMem acc.2 token then acc.2 else dictSet acc.2 token []) h0
  exact h1

theorem tokenFold_inv (node_type : String) :
    ∀ (toks : List String)
      (acc : List (String × Nat) × List (String × List (String × Nat))),
      CntInv acc → CntInv (toks.foldl (byNodeTokenStep node_type) acc) := by
  intro toks
  induction toks with
  | nil => intro acc h; exact h
  | cons tok rest ih =>
    intro acc h
    rw [List.foldl_cons]
    exact ih _ (byNodeTokenStep_inv node_type tok acc h)

theorem byNodeCounts_inv (name_mode : NameMode) (sgd : List (String × String))
    (component_nodes : List String)
    (node_to_label node_to_type : List (String × String)) :
    CntInv (byNodeCounts name_mode sgd component_nodes node_to_label node_to_type) := by
  rw [byNodeCounts]
  have hstep : ∀ (comp : List String)
      (acc : List (String × Nat) × List (String × List (String × Nat))),
      CntInv acc →
      CntInv (comp.foldl (byNodeCountStep name_mode sgd node_to_label node_to_type) acc) := by
    intro comp
    induction comp with
    | nil => intro acc h; exact h
    | cons n rest ih =>
      intro acc h
      rw [List.foldl_cons]
      apply ih
      rw [byNodeCountStep]
      exact tokenFold_inv _ _ acc h
  exact hstep component_nodes ([], [])
    ⟨List.nodup_nil, List.nodup_nil, fun p i hpi => absurd hpi (List.not_mem_nil _),
     fun t => rfl⟩

theorem byNodeBuildEntry_count (comp_size target_cid : Nat)
    (ptc : List (String × List (String × Nat)))
    (tg : List (String × List Nat)) (tf : Option (List (String × List Nat)))
    (tfc : Option Nat) (p : String) (total : Nat) :
    (byNodeBuildEntry comp_size target_cid ptc tg tf tfc p total).count = total := rfl

theorem byNodeBuildEntry_type_counts (comp_size target_cid : Nat)
    (ptc : List (String × List (String × Nat)))
    (tg : List (String × List Nat)) (tf : Option (List (String × List Nat)))
    (tfc : Option Nat) (p : String) (total : Nat) :
    (byNodeBuildEntry comp_size target_cid ptc tg tf tfc p total).type_counts =
      (if dictGetD ptc p [] ≠ [] then some (pySorted typeCntLe (dictGetD ptc p []))
       else none) := rfl

theorem byNode_ok_shape (sgd : List (String × String))
    (name_mode_param : Option NameMode) (fileContent : Option String)
    (node_id : String) (graph : CytoscapeGraph) (resp : ByNodeResponse)
    (h : get_component_proteins_by_node sgd name_mode_param fileContent node_id graph =
      .ok resp) :
    ∃ (nm : NameMode) (comp : List String) (ntl ntt : List (String × String))
      (cs cid : Nat) (tg : List (String × List Nat))
      (tf : Option (List (String × List Nat))) (tfc : Option Nat),
      resp.protein_counts = pySorted protCntLe
        ((byNodeCounts nm sgd comp ntl ntt).1.map
          (fun pt => byNodeBuildEntry cs cid (byNodeCounts nm sgd comp ntl ntt).2
            tg tf tfc pt.1 pt.2)) := by
  rw [get_component_proteins_by_node] at h
  by_cases hmem : dictMem (byNodeNodeInfo (name_mode_param.getD .systematic) graph).2.1
      node_id = true
  · simp only [hmem, Bool.not_true] at h
    rw [if_neg (by simp)] at h
    cases hget : dictGet (_compute_components
        (byNodeNodeInfo (name_mode_param.getD .systematic) graph).1
        (byNodeEdges graph)).1 node_id with
    | none =>
      rw [hget] at h
      exact absurd h (by simp)
    | some target_cid =>
      rw [hget] at h
      have hresp := Except.ok.inj h
      refine ⟨name_mode_param.getD .systematic,
        (byNodeNodeInfo (name_mode_param.getD .systematic) graph).1.filter
          (fun n => dictGet (_compute_components
            (byNodeNodeInfo (name_mode_param.getD .systematic) graph).1
            (byNodeEdges graph)).1 n = some target_cid),
        (byNodeNodeInfo (name_mode_param.getD .systematic) graph).2.1,
        (byNodeNodeInfo (name_mode_param.getD .systematic) graph).2.2,
        dictGetD (_compute_components
          (byNodeNodeInfo (name_mode_param.getD .systematic) graph).1
          (byNodeEdges graph)).2 target_cid 0,
        target_cid,
        byNodeTokenCompSet (name_mode_param.getD .systematic) sgd
          (byNodeNodeInfo (name_mode_param.getD .systematic) graph).1
          (_compute_components
            (byNodeNodeInfo (name_mode_param.getD .systematic) graph).1
            (byNodeEdges graph)).1
          (byNodeNodeInfo (name_mode_param.getD .systematic) graph).2.1,
        (byNodeFileScope (name_mode_param.getD .systematic) sgd fileContent node_id).1,
        (byNodeFileScope (name_mode_param.getD .systematic) sgd fileContent node_id).2,
        ?_⟩
      rw [← hresp]
  · have hmem' : dictMem (byNodeNodeInfo (name_mode_param.getD .systematic) graph).2.1
        node_id = false := by simpa using hmem
    simp only [hmem', Bool.not_false] at h
    rw [if_pos trivial] at h
    exact absurd h (by simp)

/-- C9: whenever `get_component_proteins_by_node` succeeds, the returned
`protein_counts` list is sorted by the source's key `(-count, protein)` —
descending count, ties broken by ascending protein string, the order
`protCntLe` — and every entry carrying a `type_counts` breakdown has its
per-type values summing exactly to the entry's `count`. -/
theorem C9_sorted_counts_and_type_sums (sgd : List (String × String))
    (name_mode_param : Option NameMode) (fileContent : Option String)
    (node_id : String) (graph : CytoscapeGraph) (resp : ByNodeResponse)
    (h : get_component_proteins_by_node sgd name_mode_param fileContent node_id graph =
      .ok resp) :
    resp.protein_counts.Pairwise (fun a b => protCntLe a b = true) ∧
    ∀ e ∈ resp.protein_counts, ∀ tc, e.type_counts = some tc →
      (tc.map Prod.snd).sum = e.count := by
  obtain ⟨nm, comp, ntl, ntt, cs, cid, tg, tf, tfc, hpc⟩ :=
    byNode_ok_shape sgd name_mode_param fileContent node_id graph resp h
  have hinv := byNodeCounts_inv nm sgd comp ntl ntt
  constructor
  · rw [hpc]
    exact pySorted_sorted protCntLe protCntLe_total protCntLe_trans _
  · intro e he tc htc
    rw [hpc, mem_pySorted] at he
    rcases List.mem_map.1 he with ⟨pt, hpt, hept⟩
    rw [← hept] at htc ⊢
    rw [byNodeBuildEntry_type_counts] at htc
    by_cases hne : dictGetD (byNodeCounts nm sgd comp ntl ntt).2 pt.1 [] ≠ []
    · rw [if_pos hne] at htc
      have htc' : tc = pySorted typeCntLe
          (dictGetD (byNodeCounts nm sgd comp ntl ntt).2 pt.1 []) :=
        Option.some.inj htc.symm
      have hperm : (tc.map Prod.snd).Perm
          ((dictGetD (byNodeCounts nm sgd comp ntl ntt).2 pt.1 []).map Prod.snd) := by
        rw [htc']
        exact (pySorted_perm typeCntLe _).map Prod.snd
      rw [hperm.sum_eq, hinv.sums pt.1, byNodeBuildEntry_count]
      have hmempair : (pt.1, pt.2) ∈ (byNodeCounts nm sgd comp ntl ntt).1 := by
        rw [Prod.mk.eta]
        exact hpt
      have hget := dictGet_of_mem_nodup hinv.pckeys hmempair
      rw [dictGetD, hget]
      rfl
    · rw [if_neg hne] at htc
      exact absurd htc (by simp)

def c9wGraph : CytoscapeGraph :=
  { nodes := [⟨[("id", PyVal.str "n1"), ("label", PyVal.str "ACT1")]⟩],
    edges := [] }

def c9wResp : ByNodeResponse :=
  { component_id := 0,
    size := 1,
    protein_counts := [{ protein := "ACT1",
                         count := 1,
                         type_counts := some [("unknown", 1)],
                         ratio := some { num := 1, den := 1 },
                         type_ratios := some [("unknown", { num := 1, den := 1 })],
                         other_components := some 0 }] }

/-- Witness for `C9_sorted_counts_and_type_sums`: a concrete one-node run
returning one ACT1 entry with type sum 1 = count 1. -/
theorem C9_sorted_counts_and_type_sums_witness :
    get_component_proteins_by_node [] none none "n1" c9wGraph = .ok c9wResp ∧
    (c9wResp.protein_counts.Pairwise (fun a b => protCntLe a b = true) ∧
     ∀ e ∈ c9wResp.protein_counts, ∀ tc, e.type_counts = some tc →
       (tc.map Prod.snd).sum = e.count) :=
  ⟨by rfl,
   C9_sorted_counts_and_type_sums [] none none "n1" c9wGraph c9wResp (by rfl)⟩

/-! ### Claim C2: node and edge counts of the GDF parser -/

/-- The parser's line split (line 145): strip the content, split on
newlines. -/
def gdfContentLines (gdf_content : String) : List String :=
  (splitOnPredChars (fun c => c = '\n') (pyStripChars gdf_content.toList)).map String.mk

/-- Counting the data lines of a GDF line list, threading the loop's
`in_edges` flag: (node data lines, edge data lines, edge data lines with at
least two comma-separated fields).  `edgedef>` switches to edge mode and
nothing switches back — exactly as in the source loop. -/
def gdfLineCounts : List String → Bool → Nat × Nat × Nat
  | [], _ => (0, 0, 0)
  | rawLine :: rest, in_edges =>
    let line := pyStrip rawLine
    if line = "" then gdfLineCounts rest in_edges
    else if pyStartsWithStr line "nodedef>" then gdfLineCounts rest in_edges
    else if pyStartsWithStr line "edgedef>" then gdfLineCounts rest true
    else if in_edges then
      let c := gdfLineCounts rest in_edges
      (c.1, c.2.1 + 1, c.2.2 + (if 2 ≤ (pySplitComma line).length then 1 else 0))
    else
      let c := gdfLineCounts rest in_edges
      (c.1 + 1, c.2.1, c.2.2)

theorem gdf_fold_counts (sgd : List (String × String)) :
    ∀ (lines : List String) (st st' : GdfParseSt),
      lines.foldlM (gdfStep sgd) st = some st' →
      st'.nodes.length = st.nodes.length + (gdfLineCounts lines st.in_edges).1 ∧
      st'.edges.length = st.edges.length + (gdfLineCounts lines st.in_edges).2.2 ∧
      (gdfLineCounts lines st.in_edges).2.2 ≤ (gdfLineCounts lines st.in_edges).2.1 := by
  intro lines
  induction lines with
  | nil =>
    intro st st' h
    rw [List.foldlM_nil] at h
    have hst : st = st' := Option.some.inj h
    subst hst
    exact ⟨by simp [gdfLineCounts], by simp [gdfLineCounts], by simp [gdfLineCounts]⟩
  | cons rawLine rest ih =>
    intro st st' h
    rw [List.foldlM_cons] at h
    cases hstep : gdfStep sgd st rawLine with
    | none =>
      rw [hstep] at h
      exact absurd h (by simp)
    | some st₁ =>
      rw [hstep] at h
      simp only [Option.bind_eq_bind, Option.some_bind] at h
      rw [gdfStep] at hstep
      rw [gdfLineCounts]
      by_cases h0 : pyStrip rawLine = ""
      · rw [if_pos h0] at hstep ⊢
        have hst₁ : st = st₁ := Option.some.inj hstep
        subst hst₁
        exact ih st st' h
      · rw [if_neg h0] at hstep ⊢
        by_cases h1 : pyStartsWithStr (pyStrip rawLine) "nodedef>" = true
        · rw [if_pos h1] at hstep ⊢
          cases hh : headerAttrNames (pyDrop (pyStrip rawLine) 8) with
          | none =>
            rw [hh] at hstep
            exact absurd hstep (by simp)
          | some attrs =>
            rw [hh] at hstep
            have hst₁ := Option.some.inj hstep
            subst hst₁
            obtain ⟨ha, hb, hc⟩ := ih _ st' h
            dsimp only at ha hb hc
            exact ⟨ha, hb, hc⟩
        · rw [if_neg h1] at hstep ⊢
          by_cases h2 : pyStartsWithStr (pyStrip rawLine) "edgedef>" = true
          · rw [if_pos h2] at hstep ⊢
            cases hh : headerAttrNames (pyDrop (pyStrip rawLine) 8) with
            | none =>
              rw [hh] at hstep
              exact absurd hstep (by simp)
            | some attrs =>
              rw [hh] at hstep
              have hst₁ := Option.some.inj hstep
              subst hst₁
              obtain ⟨ha, hb, hc⟩ := ih _ st' h
              dsimp only at ha hb hc
              exact ⟨ha, hb, hc⟩
          · rw [if_neg h2] at hstep ⊢
            by_cases h3 : st.in_edges = true
            · rw [if_pos h3] at hstep
              rw [if_pos h3]
              by_cases h4 : 2 ≤ (pySplitComma (pyStrip rawLine)).length
              · rw [if_pos h4] at hstep
                rw [if_pos h4]
                dsimp only
                dsimp only at hstep
                split at hstep
                · have hst₁ := Option.some.inj hstep
                  subst hst₁
                  obtain ⟨ha, hb, hc⟩ := ih _ st' h
                  dsimp only at ha hb hc
                  simp only [List.length_append, List.length_singleton] at hb
                  exact ⟨ha, by omega, by omega⟩
                · have hst₁ := Option.some.inj hstep
                  subst hst₁
                  obtain ⟨ha, hb, hc⟩ := ih _ st' h
                  dsimp only at ha hb hc
                  simp only [List.length_append, List.length_singleton] at hb
                  exact ⟨ha, by omega, by omega⟩
              · rw [if_neg h4] at hstep
                rw [if_neg h4]
                dsimp only
                have hst₁ : st = st₁ := Option.some.inj hstep
                subst hst₁
                obtain ⟨ha, hb, hc⟩ := ih _ st' h
                exact ⟨ha, by omega, by omega⟩
            · have h3' : st.in_edges = false := by simpa using h3
              rw [if_neg h3] at hstep
              rw [h3']
              simp only [Bool.false_eq_true, if_false]
              cases hnd : gdfProcessNodeLine sgd st.node_attributes (pyStrip rawLine) with
              | none =>
                rw [hnd] at hstep
                exact absurd hstep (by simp)
              | some nd =>
                rw [hnd] at hstep
                have hst₁ := Option.some.inj hstep
                subst hst₁
                obtain ⟨ha, hb, hc⟩ := ih _ st' h
                dsimp only at ha hb hc
                simp only [List.length_append, List.length_singleton, h3'] at ha
                rw [h3'] at hb hc
                exact ⟨by rw [ha]; omega, hb, hc⟩

def c2cContent : String :=
  "nodedef>name VARCHAR\nA\nedgedef>foo VARCHAR,bar VARCHAR\n1,2"

/-- C2 counterexample: an edge data row whose attribute row lacks both
`node1` and `node2` is NOT dropped: the parser appends a fallback edge
carrying the raw attribute dict (lines 204-207).  The file below has one
node line and one such edge line; the parse succeeds with one node and ONE
edge, none of whose edges carries `node1`/`node2` endpoints — the claimed
"contributes no edge" behaviour would require zero edges. -/
theorem C2_counterexample :
    (parse_gdf_to_cytoscape [] c2cContent).map
      (fun g => (g.nodes.length, g.edges.length,
        g.edges.all (fun e => !(dictMem e.data "node1" && dictMem e.data "node2")))) =
      some (1, 1, true) := by
  rfl

/-- C2 (amended): whenever the parser succeeds on a GDF text, the node
count equals exactly the number of node data lines N (duplicates are not
merged: every node data line appends one node), and the edge count equals
the number of edge data lines that split into at least two comma-separated
fields — hence is at most the number M of edge data lines.  Edge rows
missing `node1`/`node2` still contribute one (fallback) edge; only rows
with fewer than two fields are skipped. -/
theorem C2_amended (sgd : List (String × String)) (gdf_content : String)
    (g : CytoscapeGraph) (h : parse_gdf_to_cytoscape sgd gdf_content = some g) :
    g.nodes.length = (gdfLineCounts (gdfContentLines gdf_content) false).1 ∧
    g.edges.length = (gdfLineCounts (gdfContentLines gdf_content) false).2.2 ∧
    (gdfLineCounts (gdfContentLines gdf_content) false).2.2 ≤
      (gdfLineCounts (gdfContentLines gdf_content) false).2.1 := by
  rw [parse_gdf_to_cytoscape] at h
  cases hf : (gdfContentLines gdf_content).foldlM (gdfStep sgd)
      ⟨[], [], [], [], false⟩ with
  | none =>
    rw [gdfContentLines] at hf
    rw [hf] at h
    exact absurd h (by simp)
  | some st =>
    rw [gdfContentLines] at hf
    rw [hf] at h
    have hg : g = ⟨st.nodes, st.edges⟩ := (Option.some.inj h).symm
    rw [← gdfContentLines] at hf
    obtain ⟨ha, hb, hc⟩ := gdf_fold_counts sgd (gdfContentLines gdf_content) _ st hf
    subst hg
    dsimp only at ha hb hc ⊢
    simp only [List.length_nil, Nat.zero_add] at ha hb
    exact ⟨ha, hb, hc⟩

def c2wContent : String :=
  "nodedef>name VARCHAR\nA\nB\nedgedef>node1 VARCHAR,node2 VARCHAR\nA,B\nbroken"

def c2wGraph : CytoscapeGraph :=
  { nodes := [⟨[("name", PyVal.str "A"),
                ("id", PyVal.str "A"),
                ("label", PyVal.str "A"),
                ("label_sys", PyVal.str "A"),
                ("label_gene", PyVal.str "A"),
                ("sys_name", PyVal.str "A"),
                ("gene_name", PyVal.str "A")]⟩,
              ⟨[("name", PyVal.str "B"),
                ("id", PyVal.str "B"),
                ("label", PyVal.str "B"),
                ("label_sys", PyVal.str "B"),
                ("label_gene", PyVal.str "B"),
                ("sys_name", PyVal.str "B"),
                ("gene_name", PyVal.str "B")]⟩],
    edges := [⟨[("id", PyVal.str "A-B"),
                ("source", PyVal.str "A"),
                ("target", PyVal.str "B")]⟩] }

/-- Witness for `C2_amended`: two node lines, two edge lines of which one
has a single field — 2 nodes, 1 edge, 1 ≤ 2. -/
theorem C2_amended_witness :
    parse_gdf_to_cytoscape [] c2wContent = some c2wGraph ∧
    (c2wGraph.nodes.length = (gdfLineCounts (gdfContentLines c2wContent) false).1 ∧
     c2wGraph.edges.length = (gdfLineCounts (gdfContentLines c2wContent) false).2.2 ∧
     (gdfLineCounts (gdfContentLines c2wContent) false).2.2 ≤
       (gdfLineCounts (gdfContentLines c2wContent) false).2.1) :=
  ⟨by rfl, C2_amended [] c2wContent c2wGraph (by rfl)⟩

/-! ### Claim C3: node rows are split by a plain comma split -/

theorem foldDict_stable (f : String → PyVal) (k : String) :
    ∀ (pairs : List (String × String)) (d : List (String × PyVal)),
      (∀ p ∈ pairs, p.1 ≠ k) →
      dictGet (pairs.foldl (fun d av => dictSet d av.1 (f av.2)) d) k = dictGet d k := by
  intro pairs
  induction pairs with
  | nil => intro d _; rfl
  | cons p rest ih =>
    intro d h
    rw [List.foldl_cons, ih _ (fun q hq => h q (List.mem_cons_of_mem p hq))]
    exact dictGet_dictSet_ne _ _ _ _ (Ne.symm (h p (List.mem_cons_self p rest)))

theorem foldDict_get (f : String → PyVal) (k : String) (v : String) :
    ∀ (pairs : List (String × String)) (d : List (String × PyVal)),
      (pairs.map Prod.fst).Nodup → (k, v) ∈ pairs →
      dictGet (pairs.foldl (fun d av => dictSet d av.1 (f av.2)) d) k = some (f v) := by
  intro pairs
  induction pairs with
  | nil =>
    intro d _ hm
    exact absurd hm (List.not_mem_nil _)
  | cons p rest ih =>
    intro d hnd hm
    rw [List.map_cons, List.nodup_cons] at hnd
    rw [List.foldl_cons]
    rcases List.mem_cons.1 hm with he | hm2
    · have hp1 : p.1 = k := by rw [← he]
      have hp2 : p.2 = v := by rw [← he]
      have hrest : ∀ q ∈ rest, q.1 ≠ k := by
        intro q hq hc
        apply hnd.1
        rw [hp1, ← hc]
        exact List.mem_map_of_mem Prod.fst hq
      rw [foldDict_stable f k rest _ hrest, hp1, hp2, dictGet_dictSet_self]
    · exact ih _ hnd.2 hm2

theorem zip_fst_nodup {α β : Type} : ∀ (l1 : List α) (l2 : List β),
    l1.Nodup → ((List.zip l1 l2).map Prod.fst).Nodup := by
  intro l1
  induction l1 with
  | nil =>
    intro l2 _
    simp
  | cons a rest ih =>
    intro l2 hnd
    cases l2 with
    | nil => simp
    | cons b l2t =>
      rw [List.nodup_cons] at hnd
      rw [List.zip_cons_cons, List.map_cons, List.nodup_cons]
      refine ⟨?_, ih l2t hnd.2⟩
      intro hc
      rcases List.mem_map.1 hc with ⟨⟨q1, q2⟩, hq, hq1⟩
      dsimp only at hq1
      subst hq1
      exact hnd.1 (List.of_mem_zip hq).1

theorem zip_get_mem {α β : Type} : ∀ (l1 : List α) (l2 : List β) (i : Nat)
    (h1 : i < l1.length) (h2 : i < l2.length),
    (l1.get ⟨i, h1⟩, l2.get ⟨i, h2⟩) ∈ List.zip l1 l2 := by
  intro l1
  induction l1 with
  | nil =>
    intro l2 i h1 h2
    exact absurd h1 (by simp)
  | cons a rest ih =>
    intro l2 i h1 h2
    cases l2 with
    | nil => exact absurd h2 (by simp)
    | cons b l2t =>
      cases i with
      | zero => exact List.mem_cons_self _ _
      | succ n =>
        rw [List.zip_cons_cons]
        exact List.mem_cons_of_mem _ (ih l2t n (by simpa using h1) (by simpa using h2))

def c3cContent : String :=
  "nodedef>name VARCHAR,label VARCHAR\n'A,B',x"

/-- C3 counterexample: the node-row split is the PLAIN `line.split(',')`
(line 210): a comma inside a single-quoted value IS treated as a delimiter.
For the row `'A,B',x` under header `name,label`, the claimed quote-aware
split would yield name `A,B` and label `x`; the parser instead yields
name `'A` (the unmatched quote is not even stripped) and label `B'`. -/
theorem C3_counterexample :
    (parse_gdf_to_cytoscape [] c3cContent).map
      (fun g => g.nodes.map (fun n => (dictGet n.data "name", dictGet n.data "label"))) =
      some [(some (PyVal.str "'A"), some (PyVal.str "B'"))] := by
  rfl

/-- C3 (amended): the node-row loop (lines 210-226) assigns to the i-th
declared attribute name the coerced i-th field of the plain comma split of
the line — quoted commas are NOT respected; `gdfNodeValue` is the coercion
of lines 215-226 (strip, remove one matched pair of surrounding single
quotes, integer for digit/`-` material without a dot, float with a dot,
else the remaining string). -/
theorem C3_amended (attrs : List String) (line : String) (hnd : attrs.Nodup)
    (i : Nat) (hi : i < attrs.length) (hr : i < (pySplitComma line).length) :
    dictGet (attrRowDict gdfNodeValue attrs (pySplitComma line)) (attrs.get ⟨i, hi⟩) =
      some (gdfNodeValue ((pySplitComma line).get ⟨i, hr⟩)) := by
  rw [attrRowDict]
  exact foldDict_get gdfNodeValue _ _ (List.zip attrs (pySplitComma line)) []
    (zip_fst_nodup attrs _ hnd) (zip_get_mem attrs _ i hi hr)

/-- Witness for `C3_amended`: header `name,label` on the row `'A,B',x`;
position 1 receives the coerced field `B'`. -/
theorem C3_amended_witness :
    (["name", "label"] : List String).Nodup ∧ 1 < (["name", "label"] : List String).length ∧
    1 < (pySplitComma "'A,B',x").length ∧
    dictGet (attrRowDict gdfNodeValue ["name", "label"] (pySplitComma "'A,B',x"))
      ((["name", "label"] : List String).get ⟨1, by decide⟩) =
      some (gdfNodeValue ((pySplitComma "'A,B',x").get ⟨1, by decide⟩)) :=
  ⟨by decide, by decide, by decide,
   C3_amended ["name", "label"] "'A,B',x" (by decide) 1 (by decide) (by decide)⟩

/-! ### Claim C4: the co-occurrence fallback intersects with the aggregate -/

def c4cFiles : List (String × String) := [("f1.gdf", "nodedef>name VARCHAR\nA")]

/-- C4 counterexample: the "never empty" part of the claim is false.
When no component anywhere contains all selected tokens, the fallback sets
`allowed_tokens = selected_set` (lines 190-191) but line 193 then
INTERSECTS the aggregated protein list with it — a selected token absent
from every file disappears.  Selecting `ZZZ` over a network whose only file
holds the single protein `A` succeeds with an empty page, not with
`{ZZZ}`. -/
theorem C4_counterexample :
    get_proteins .systematic [] c4cFiles 1 50 none (some "ZZZ") =
      .ok { items := [], total := 0, page := 1, size := 50 } := by
  rfl

/-- C4 (amended): for a non-empty selected set S, (i) when some component
in some file contains all of S (`allowedTokensFor ... ≠ []`), the filtered
result is restricted to tokens of such components; and (ii) when no
component matches, the result is exactly the sorted aggregated protein
list intersected with S — the selected tokens that occur in the aggregate,
and only those (it is empty whenever no selected token occurs anywhere). -/
theorem C4_amended (name_mode : NameMode) (sgd : List (String × String))
    (files : List (String × String)) (sel : String)
    (hsel : sel ≠ "")
    (hterms : setOfList ((pySplitWs sel).filter (fun t => t ≠ "")) ≠ []) :
    (allowedTokensFor name_mode sgd files
        (setOfList ((pySplitWs sel).filter (fun t => t ≠ ""))) ≠ [] →
      ∀ p ∈ allProteinsFiltered name_mode sgd files none (some sel),
        p ∈ allowedTokensFor name_mode sgd files
          (setOfList ((pySplitWs sel).filter (fun t => t ≠ "")))) ∧
    (allowedTokensFor name_mode sgd files
        (setOfList ((pySplitWs sel).filter (fun t => t ≠ ""))) = [] →
      allProteinsFiltered name_mode sgd files none (some sel) =
        (pySorted pyStrLe
            ((aggregateProteins name_mode sgd files).1.map (fun kv => kv.1))).filter
          (fun p =>
            (setOfList ((pySplitWs sel).filter (fun t => t ≠ ""))).contains p)) := by
  constructor
  · intro hne p hp
    rw [allProteinsFiltered] at hp
    dsimp only at hp
    rw [if_pos hsel, if_pos hterms, if_neg hne] at hp
    rcases List.mem_filter.1 hp with ⟨_, hc⟩
    exact List.elem_iff.1 hc
  · intro heq
    rw [allProteinsFiltered]
    dsimp only
    rw [if_pos hsel, if_pos hterms, if_pos heq]

def c4wFiles : List (String × String) :=
  [("f1.gdf", "nodedef>name VARCHAR\nA\nB\nedgedef>node1 VARCHAR,node2 VARCHAR\nA,B")]

/-- Witness for `C4_amended`: one file with the connected pair A–B and the
selection `A`. -/
theorem C4_amended_witness :
    ("A" ≠ "" ∧ setOfList ((pySplitWs "A").filter (fun t => t ≠ "")) ≠ []) ∧
    ((allowedTokensFor .systematic [] c4wFiles
        (setOfList ((pySplitWs "A").filter (fun t => t ≠ ""))) ≠ [] →
      ∀ p ∈ allProteinsFiltered .systematic [] c4wFiles none (some "A"),
        p ∈ allowedTokensFor .systematic [] c4wFiles
          (setOfList ((pySplitWs "A").filter (fun t => t ≠ "")))) ∧
    (allowedTokensFor .systematic [] c4wFiles
        (setOfList ((pySplitWs "A").filter (fun t => t ≠ ""))) = [] →
      allProteinsFiltered .systematic [] c4wFiles none (some "A") =
        (pySorted pyStrLe
            ((aggregateProteins .systematic [] c4wFiles).1.map (fun kv => kv.1))).filter
          (fun p =>
            (setOfList ((pySplitWs "A").filter (fun t => t ≠ ""))).contains p))) :=
  ⟨⟨by decide, by decide⟩,
   C4_amended .systematic [] c4wFiles "A" (by decide) (by decide)⟩

/-! ### Claim C5: 1-indexed pagination and the out-of-range failure -/

/-- C5: pagination slices the filtered list with the 1-indexed window
`[(page-1)*size, (page-1)*size + size)`, and whenever the start offset is
at or beyond the (nonzero) total, the request fails with
InvalidInput "Page out of range" instead of returning items
(lines 201-215). -/
theorem C5_pagination (name_mode : NameMode) (sgd : List (String × String))
    (files : List (String × String)) (page size : Nat) (q selected : Option String) :
    ((allProteinsFiltered name_mode sgd files q selected).length ≤ (page - 1) * size ∧
      (allProteinsFiltered name_mode sgd files q selected).length ≠ 0 →
      get_proteins name_mode sgd files page size q selected =
        .error (.invalidInput "Page out of range")) ∧
    (¬ ((allProteinsFiltered name_mode sgd files q selected).length ≤ (page - 1) * size ∧
        (allProteinsFiltered name_mode sgd files q selected).length ≠ 0) →
      ∃ resp, get_proteins name_mode sgd files page size q selected = .ok resp ∧
        resp.items.map (fun it => it.protein) =
          ((allProteinsFiltered name_mode sgd files q selected).drop
            ((page - 1) * size)).take size ∧
        resp.total = (allProteinsFiltered name_mode sgd files q selected).length ∧
        resp.page = page ∧ resp.size = size) := by
  constructor
  · rintro ⟨h1, h2⟩
    rw [get_proteins]
    dsimp only
    rw [if_pos (by simp only [Bool.and_eq_true, decide_eq_true_eq]; exact ⟨h1, h2⟩)]
  · intro hn
    rw [get_proteins]
    dsimp only
    rw [if_neg (by simp only [Bool.and_eq_true, decide_eq_true_eq]; exact hn)]
    refine ⟨_, rfl, ?_, rfl, rfl, rfl⟩
    rw [List.map_map]
    exact List.map_id _

def c5wFiles : List (String × String) := [("f1.gdf", "nodedef>name VARCHAR\nA\nB\nC")]

/-- Witness for `C5_pagination`: three proteins; page 3 of size 2 starts at
offset 4 ≥ 3 and fails, page 2 of size 2 returns the slice `["C"]`. -/
theorem C5_pagination_witness :
    ((allProteinsFiltered .systematic [] c5wFiles none none).length ≤ (3 - 1) * 2 ∧
     (allProteinsFiltered .systematic [] c5wFiles none none).length ≠ 0) ∧
    get_proteins .systematic [] c5wFiles 3 2 none none =
      .error (.invalidInput "Page out of range") ∧
    (¬ ((allProteinsFiltered .systematic [] c5wFiles none none).length ≤ (2 - 1) * 2 ∧
        (allProteinsFiltered .systematic [] c5wFiles none none).length ≠ 0)) ∧
    (∃ resp, get_proteins .systematic [] c5wFiles 2 2 none none = .ok resp ∧
      resp.items.map (fun it => it.protein) =
        ((allProteinsFiltered .systematic [] c5wFiles none none).drop ((2 - 1) * 2)).take 2 ∧
      resp.total = (allProteinsFiltered .systematic [] c5wFiles none none).length ∧
      resp.page = 2 ∧ resp.size = 2) :=
  ⟨by decide,
   (C5_pagination .systematic [] c5wFiles 3 2 none none).1 (by decide),
   by decide,
   (C5_pagination .systematic [] c5wFiles 2 2 none none).2 (by decide)⟩

/-! ### Claim C10: nonexistent component id yields an empty subgraph -/

theorem unions_meas (fuel : Nat) (V : List String) :
    ∀ (E2 : List (String × String)) (st : (String → String) × (String → Nat)) (B : Nat),
      (∃ m, Meas st.1 m B) → B + E2.length ≤ fuel →
      ∃ m, Meas (E2.foldl
        (fun st e => if V.contains e.1 && V.contains e.2 then ufUnion fuel st e.1 e.2
          else st) st).1 m (B + E2.length) := by
  intro E2
  induction E2 with
  | nil =>
    intro st B hm _
    simpa using hm
  | cons e rest ih =>
    intro st B hm hfuel
    simp only [List.length_cons] at hfuel ⊢
    rw [List.foldl_cons]
    by_cases hg : (V.contains e.1 && V.contains e.2) = true
    · rw [if_pos hg]
      obtain ⟨p, sz⟩ := st
      obtain ⟨m, hmm⟩ := hm
      have hB1 : B ≤ fuel := by omega
      obtain ⟨hm', _⟩ := @ufUnion_spec p sz m B fuel hmm hB1 e.1 e.2
      have hres := ih (ufUnion fuel (p, sz) e.1 e.2) (B + 1) hm' (by omega)
      have heq : B + 1 + rest.length = B + (rest.length + 1) := by omega
      rw [heq] at hres
      exact hres
    · rw [if_neg hg]
      obtain ⟨m', hres⟩ := ih st B hm (by omega)
      exact ⟨m', meas_mono hres (by omega)⟩

theorem compute_components_lt (V : List String) (E : List (String × String)) :
    ∀ x c, dictGet (_compute_components V E).1 x = some c →
      c < (_compute_components V E).2.length := by
  have hfuel : 1 + E.length ≤ compFuel V E := by
    rw [compFuel]
    omega
  have hinit_meas : ∃ m, Meas (fun n : String => n) m 1 :=
    ⟨fun _ => 0, ⟨fun x hx => absurd rfl hx, fun _ => Nat.zero_lt_one⟩⟩
  obtain ⟨mU, hmU⟩ := unions_meas (compFuel V E) V E ((fun n => n), (fun _ => 1))
    1 hinit_meas hfuel
  have hInv := assign_fold_inv hfuel V []
    { parent := (E.foldl
        (fun st e => if V.contains e.1 && V.contains e.2 then
          ufUnion (compFuel V E) st e.1 e.2 else st)
        ((fun n => n), (fun _ => 1))).1,
      root_to_comp := [], node_to_comp := [], comp_sizes := [], next_id := 0 }
    (assignInv_init ⟨mU, hmU⟩)
  rw [List.nil_append] at hInv
  intro x c h
  have hlt := hInv.ntc_lt x c h
  have h1 := congrArg List.length hInv.cs_keys
  rw [List.length_map, List.length_range] at h1
  exact lt_of_lt_of_eq hlt h1.symm

/-- C10: when both parses succeed and the requested component id is at or
above the number of components of the file, `get_component_subgraph`
returns the empty graph — zero nodes and zero edges — rather than a
NotFound error (lines 462-485: the membership comprehension is empty, so
both filters drop everything). -/
theorem C10_missing_component_empty (name_mode : NameMode)
    (sgd : List (String × String)) (content : String) (component_id : Int)
    (parsed : ParsedGdf) (full_graph : CytoscapeGraph)
    (hp : _parse_nodes_and_edges name_mode sgd content = some parsed)
    (hg : parse_gdf_to_cytoscape sgd content = some full_graph)
    (hba : ((_compute_components parsed.node_ids parsed.edges).2.length : Int) ≤
      component_id) :
    get_component_subgraph name_mode sgd content component_id = .ok ⟨[], []⟩ := by
  rw [get_component_subgraph, hp]
  dsimp only
  rw [hg]
  dsimp only
  have hfe : parsed.node_ids.filter
      (fun n => decide ((dictGet (_compute_components parsed.node_ids parsed.edges).1 n).map
        (fun c => (c : Int)) = some component_id)) = [] := by
    rw [List.filter_eq_nil_iff]
    intro n _
    simp only [decide_eq_true_eq]
    intro hc
    cases hget : dictGet (_compute_components parsed.node_ids parsed.edges).1 n with
    | none =>
      rw [hget] at hc
      exact absurd hc (by simp)
    | some cval =>
      rw [hget] at hc
      have hcv : (cval : Int) = component_id := Option.some.inj hc
      have hlt := compute_components_lt parsed.node_ids parsed.edges n cval hget
      omega
  rw [hfe]
  have hn : full_graph.nodes.filter
      (fun n => (setOfList ([] : List String)).contains
        (pyValStr (dictGetD n.data "id" (.str "")))) = [] := by
    rw [List.filter_eq_nil_iff]
    intro a _
    simp [setOfList, List.contains]
  rw [hn]
  have he : full_graph.edges.filter
      (fun e =>
        (setOfList (([] : List CytoscapeNode).map
          (fun d => pyValStr (dictGetD d.data "id" (.str ""))))).contains
            (pyValStr (dictGetD e.data "source" (.str ""))) &&
        (setOfList (([] : List CytoscapeNode).map
          (fun d => pyValStr (dictGetD d.data "id" (.str ""))))).contains
            (pyValStr (dictGetD e.data "target" (.str "")))) = [] := by
    rw [List.filter_eq_nil_iff]
    intro a _
    simp [setOfList, List.contains]
  rw [he]

def c10wContent : String := "nodedef>name VARCHAR\nA"

def c10wParsed : ParsedGdf :=
  { node_ids := ["A"], edges := [], node_to_tokens := [("A", ["A"])],
    node_to_label := [("A", "A")] }

def c10wGraph : CytoscapeGraph :=
  { nodes := [⟨[("name", PyVal.str "A"),
                ("id", PyVal.str "A"),
                ("label", PyVal.str "A"),
                ("label_sys", PyVal.str "A"),
                ("label_gene", PyVal.str "A"),
                ("sys_name", PyVal.str "A"),
                ("gene_name", PyVal.str "A")]⟩],
    edges := [] }

/-- Witness for `C10_missing_component_empty`: a one-node file (one
component) queried for component id 5. -/
theorem C10_missing_component_empty_witness :
    _parse_nodes_and_edges .systematic [] c10wContent = some c10wParsed ∧
    parse_gdf_to_cytoscape [] c10wContent = some c10wGraph ∧
    ((_compute_components c10wParsed.node_ids c10wParsed.edges).2.length : Int) ≤ 5 ∧
    get_component_subgraph .systematic [] c10wContent 5 = .ok ⟨[], []⟩ :=
  ⟨by rfl, by rfl, by decide,
   C10_missing_component_empty .systematic [] c10wContent 5 c10wParsed c10wGraph
     (by rfl) (by rfl) (by decide)⟩

/-! ### Claim C1: union-find component ids partition by connectivity -/

/-- C1: for every node-id list and edge list (with edge endpoints among the
nodes, as is the case for the graphs the analyzer receives), the component
map of `_compute_components` assigns an id to exactly the listed nodes; two
nodes receive the same id iff they are connected by an undirected edge
path (`Conn`); every id is below the number of components and every such id
labels a nonempty set; and the ids follow first-discovery order of the node
list — the first nodes of two components, in list order, receive ids in
that order — hence they are exactly 0..k-1, independent of union-find root
identity. -/
theorem C1_components_correct (V : List String) (E : List (String × String))
    (hE : ∀ e ∈ E, e.1 ∈ V ∧ e.2 ∈ V) :
    (∀ x, x ∈ V → ∃ c, dictGet (_compute_components V E).1 x = some c) ∧
    (∀ x c, dictGet (_compute_components V E).1 x = some c → x ∈ V) ∧
    (∀ x y cx cy, dictGet (_compute_components V E).1 x = some cx →
      dictGet (_compute_components V E).1 y = some cy → (cx = cy ↔ Conn E x y)) ∧
    (∀ x c, dictGet (_compute_components V E).1 x = some c →
      c < (_compute_components V E).2.length) ∧
    (∀ c, c < (_compute_components V E).2.length →
      ∃ x, x ∈ V ∧ dictGet (_compute_components V E).1 x = some c) ∧
    (∀ i j (hi : i < V.length) (hj : j < V.length), i < j →
      (∀ l (hl : l < i), ¬ Conn E (V.get ⟨l, lt_trans hl hi⟩) (V.get ⟨i, hi⟩)) →
      (∀ l (hl : l < j), ¬ Conn E (V.get ⟨l, lt_trans hl hj⟩) (V.get ⟨j, hj⟩)) →
      ∀ ci cj, dictGet (_compute_components V E).1 (V.get ⟨i, hi⟩) = some ci →
        dictGet (_compute_components V E).1 (V.get ⟨j, hj⟩) = some cj → ci < cj) :=
  compute_components_spec V E hE

def c1wV : List String := ["a", "b", "c"]

def c1wE : List (String × String) := [("a", "b")]

/-- Witness for `C1_components_correct`: the three-node graph with the
single edge a–b. -/
theorem C1_components_correct_witness :
    (∀ e ∈ c1wE, e.1 ∈ c1wV ∧ e.2 ∈ c1wV) ∧
    ((∀ x, x ∈ c1wV → ∃ c, dictGet (_compute_components c1wV c1wE).1 x = some c) ∧
    (∀ x c, dictGet (_compute_components c1wV c1wE).1 x = some c → x ∈ c1wV) ∧
    (∀ x y cx cy, dictGet (_compute_components c1wV c1wE).1 x = some cx →
      dictGet (_compute_components c1wV c1wE).1 y = some cy →
      (cx = cy ↔ Conn c1wE x y)) ∧
    (∀ x c, dictGet (_compute_components c1wV c1wE).1 x = some c →
      c < (_compute_components c1wV c1wE).2.length) ∧
    (∀ c, c < (_compute_components c1wV c1wE).2.length →
      ∃ x, x ∈ c1wV ∧ dictGet (_compute_components c1wV c1wE).1 x = some c) ∧
    (∀ i j (hi : i < c1wV.length) (hj : j < c1wV.length), i < j →
      (∀ l (hl : l < i), ¬ Conn c1wE (c1wV.get ⟨l, lt_trans hl hi⟩) (c1wV.get ⟨i, hi⟩)) →
      (∀ l (hl : l < j), ¬ Conn c1wE (c1wV.get ⟨l, lt_trans hl hj⟩) (c1wV.get ⟨j, hj⟩)) →
      ∀ ci cj, dictGet (_compute_components c1wV c1wE).1 (c1wV.get ⟨i, hi⟩) = some ci →
        dictGet (_compute_components c1wV c1wE).1 (c1wV.get ⟨j, hj⟩) = some cj →
        ci < cj)) :=
  ⟨by decide, C1_components_correct c1wV c1wE (by decide)⟩
